import Mathlib

/-!
Verification development for the ruparse data-driven parser library.

The rule interpreter lives in src/src/parser.rs and is embedded below as
fuel-indexed executable functions.  The crate declares a lexer module
(src/src/lib.rs, mod lexer) whose file is not present in the source tree,
and the grammar module matching the interpreter iteration (arena keys) is
likewise absent (the present src/src/grammar.rs belongs to an older,
string-keyed iteration).  Types from those missing modules are modelled
from the spec, with their shapes pinned by the exhaustive pattern matches
of src/src/parser.rs and the tests in src/src/lib.rs, and are marked as
such in the doc comments.  Arenas (arena::Arena) are modelled as lists
with natural-number keys, matching arena.rs push/get semantics.
-/

set_option maxHeartbeats 2000000

/-- Modelled from the spec: control token kinds of the missing lexer module
(section 4.1): end-of-line and end-of-file markers. -/
inductive ControlTokenKind where
  | Eol
  | Eof
deriving DecidableEq, Repr

/-- Modelled from the spec: token kinds of the missing lexer module
(section 3): a registered token (by its string), generic text, whitespace,
or a control token. -/
inductive TokenKinds where
  | Token (name : String)
  | Text
  | Whitespace
  | Control (k : ControlTokenKind)
deriving DecidableEq, Repr

/-- Modelled from the spec: whitespace classification used by the
interpreter when peeking past leading whitespace.  Scenario S6 of the spec
requires a newline between two matched tokens to be transparent, so the
Control(EOL) token counts as whitespace alongside Whitespace itself. -/
def TokenKinds.is_whitespace : TokenKinds → Bool
  | .Whitespace => true
  | .Control .Eol => true
  | _ => false

/-- Modelled from the spec: a diagnostic text location of the missing lexer
module (section 3, two line/column coordinates; the interpreter only
constructs TextLocation::new(0, 0) and copies token locations). -/
structure TextLocation where
  line : Nat
  column : Nat
deriving DecidableEq, Repr

/-- Mirror of TextLocation::new as used by src/src/parser.rs. -/
def TextLocation.new (line column : Nat) : TextLocation := ⟨line, column⟩

/-- Modelled from the spec: a token of the missing lexer module
(section 3): kind, byte index into the source text, byte length, and a
diagnostic location. -/
structure Token where
  kind : TokenKinds
  index : Nat
  len : Nat
  location : TextLocation
deriving DecidableEq, Repr

/-- Modelled from the spec: Lexer::stringify returns the text slice of a
token (section 4.1); text is modelled at character granularity. -/
def stringify (text : String) (t : Token) : String :=
  String.mk ((text.toList.drop t.index).take t.len)

namespace grammar

/-- Grammar-side variable kinds, as consumed by Node::variables_from_grammar
in src/src/parser.rs (the declaring grammar module of this iteration is not
under src; src/src/grammar.rs declares the same four kinds). -/
inductive VariableKind where
  | Node
  | NodeList
  | Boolean
  | Number
deriving DecidableEq, Repr

/-- A local or global variable reference, as matched by the Compare command
in src/src/parser.rs (VarKind::Local / VarKind::Global with arena keys). -/
inductive VarKind where
  | Local (k : Nat)
  | Global (k : Nat)
deriving DecidableEq, Repr

/-- Comparison operators, from src/src/grammar.rs. -/
inductive Comparison where
  | Equal
  | NotEqual
  | GreaterThan
  | LessThan
  | GreaterThanOrEqual
  | LessThanOrEqual
deriving DecidableEq, Repr

/-- Match tokens as consumed by match_token in src/src/parser.rs: a token
kind, a node key, a constant word, an enumerator key, or any token. -/
inductive MatchToken where
  | Token (t : TokenKinds)
  | Node (k : Nat)
  | Word (w : String)
  | Enumerator (k : Nat)
  | Any
deriving DecidableEq, Repr

/-- Parameters as consumed (exhaustively) by parse_parameters in
src/src/parser.rs lines 1149-1510. -/
inductive Parameters where
  | Set (k : Nat)
  | Print (s : String)
  | Debug (v : Option Nat)
  | Increment (k : Nat)
  | Decrement (k : Nat)
  | True (k : Nat)
  | False (k : Nat)
  | Global (k : Nat)
  | IncrementGlobal (k : Nat)
  | TrueGlobal (k : Nat)
  | FalseGlobal (k : Nat)
  | HardError (b : Bool)
  | NodeStart
  | NodeEnd
  | Back (steps : Nat)
  | Return
  | Goto (label : String)
  | Break (n : Nat)
deriving DecidableEq, Repr

mutual

/-- Rules as consumed by parse_rules in src/src/parser.rs. -/
inductive Rule where
  | Is (token : MatchToken) (rules : List Rule) (parameters : List Parameters)
  | Isnt (token : MatchToken) (rules : List Rule) (parameters : List Parameters)
  | IsOneOf (tokens : List OneOf)
  | Maybe (token : MatchToken) (is : List Rule) (isnt : List Rule)
      (parameters : List Parameters)
  | MaybeOneOf (is_one_of : List OneOf) (isnt : List Rule)
  | While (token : MatchToken) (rules : List Rule) (parameters : List Parameters)
  | Loop (rules : List Rule)
  | Until (token : MatchToken) (rules : List Rule) (parameters : List Parameters)
  | UntilOneOf (tokens : List OneOf)
  | Command (command : Commands)
  | Debug (target : Option VarKind)

/-- One alternative of an IsOneOf / MaybeOneOf / UntilOneOf rule. -/
inductive OneOf where
  | mk (token : MatchToken) (rules : List Rule) (parameters : List Parameters)

/-- Commands as consumed by parse_rules in src/src/parser.rs (Compare,
Error, HardError, Goto, Label, Print). -/
inductive Commands where
  | Compare (left right : VarKind) (comparison : Comparison) (rules : List Rule)
  | Error (message : String)
  | HardError (set : Bool)
  | Goto (label : String)
  | Label (name : String)
  | Print (message : String)

end

/-- Projection of the match token of an alternative (OneOf::token). -/
def OneOf.token : OneOf → MatchToken
  | .mk t _ _ => t

/-- A grammar node: name, rules, variable declarations (an arena of kinds),
and optional documentation, as read by src/src/parser.rs. -/
structure Node where
  name : String
  rules : List Rule
  vars : List VariableKind
  docs : Option String

/-- An enumerator: a named ordered list of match-token alternatives. -/
structure Enumerator where
  name : String
  values : List MatchToken

/-- The grammar: node arena, enumerator arena, global variable
declarations, and the eof flag (src/src/grammar.rs field eof: if true, the
parser errors when the last token is not EOF). -/
structure Grammar where
  nodes : List Node
  enumerators : List Enumerator
  globals : List VariableKind
  eof : Bool

/-- Grammar::new from src/src/grammar.rs lines 30-38: empty maps and the
eof flag set to true. -/
def Grammar.new : Grammar :=
  { nodes := [], enumerators := [], globals := [], eof := true }

/-- The Default implementation of Grammar from src/src/grammar.rs lines
24-28 delegates to Grammar::new. -/
def Grammar.default : Grammar := Grammar.new

end grammar

namespace parser

/-- A cursor into the token stream: current index plus the pending-advance
flag (src/src/parser.rs struct Cursor). -/
structure Cursor where
  idx : Nat
  to_advance : Bool
deriving DecidableEq, Repr

mutual

/-- A result-side node (src/src/parser.rs struct Node): name, variable
arena, byte span, commit (hard-error) flag, docs and location. -/
inductive Node where
  | mk (name : String) (vars : List VariableKind)
      (first_string_idx : Nat) (last_string_idx : Nat)
      (harderror : Bool) (docs : Option String) (location : TextLocation)

/-- A parse-tree element: either a node or a raw token
(src/src/parser.rs enum Nodes). -/
inductive Nodes where
  | Node (n : Node)
  | Token (t : Token)

/-- A runtime variable value (src/src/parser.rs enum VariableKind). -/
inductive VariableKind where
  | Node (v : Option Nodes)
  | NodeList (v : List Nodes)
  | Boolean (b : Bool)
  | Number (n : Int)

end

def Node.name : Node → String
  | .mk n _ _ _ _ _ _ => n

def Node.vars : Node → List VariableKind
  | .mk _ v _ _ _ _ _ => v

def Node.first_string_idx : Node → Nat
  | .mk _ _ f _ _ _ _ => f

def Node.last_string_idx : Node → Nat
  | .mk _ _ _ l _ _ _ => l

def Node.harderror : Node → Bool
  | .mk _ _ _ _ h _ _ => h

def Node.docs : Node → Option String
  | .mk _ _ _ _ _ d _ => d

def Node.location : Node → TextLocation
  | .mk _ _ _ _ _ _ l => l

def Node.with_vars : Node → List VariableKind → Node
  | .mk n _ f l h d loc, v => .mk n v f l h d loc

def Node.with_first : Node → Nat → Node
  | .mk n v _ l h d loc, f => .mk n v f l h d loc

def Node.with_last : Node → Nat → Node
  | .mk n v f _ h d loc, l => .mk n v f l h d loc

def Node.with_harderror : Node → Bool → Node
  | .mk n v f l _ d loc, h => .mk n v f l h d loc

def Node.with_docs : Node → Option String → Node
  | .mk n v f l h _ loc, d => .mk n v f l h d loc

/-- Node::new from src/src/parser.rs: a fresh node with empty variables,
zero span, commit flag unset. -/
def Node.new (name : String) : Node :=
  .mk name [] 0 0 false none (TextLocation.new 0 0)

/-- Mirror of Nodes::is_token. -/
def Nodes.is_token : Nodes → Bool
  | .Token _ => true
  | _ => false

/-- Parse error kinds (src/src/parser.rs enum ParseErrors). -/
inductive ParseErrors where
  | ParserNotFullyImplemented
  | NodeNotFound (k : Nat)
  | ExpectedToken (expected found : TokenKinds)
  | ExpectedWord (expected : String) (found : TokenKinds)
  | EnumeratorNotFound (k : Nat)
  | ExpectedToNotBe (k : TokenKinds)
  | VariableNotFound (v : grammar.VarKind)
  | UncountableVariable (v : grammar.VarKind) (kind : VariableKind)
  | CannotSetVariable (v : grammar.VarKind) (kind : VariableKind)
  | Message (m : String)
  | Eof
  | LabelNotFound (l : String)
  | CannotGoBack (steps : Nat)
  | CannotBreak (n : Nat)
  | ExpectedOneOf (expected : List grammar.MatchToken) (found : TokenKinds)
  | CouldNotFindToken (t : grammar.MatchToken)
  | MissingEof (found : TokenKinds)
  | MissingEntry
  | Ok

/-- A parse error: kind, diagnostic location, and the offending node if one
was attached (src/src/parser.rs struct ParseError). -/
structure ParseError where
  kind : ParseErrors
  location : TextLocation
  node : Option Node

/-- Outcome of comparing the current token against a match token
(src/src/parser.rs enum TokenCompare). -/
inductive TokenCompare where
  | Is (v : Nodes)
  | IsNot (e : ParseError)

/-- Intra-node control-flow messages (src/src/parser.rs enum Msg). -/
inductive Msg where
  | Return
  | Break (n : Nat)
  | Goto (label : String)
  | Back (steps : Nat)
  | Ok
deriving DecidableEq, Repr

/-- Generic interpreter outcome: success, a raised parse error, a Rust
panic (out-of-bounds indexing or unwrap failure), or fuel exhaustion (an
artifact of the shallow embedding of general recursion). -/
inductive Res (α : Type) where
  | ok (a : α)
  | err (e : ParseError)
  | panic
  | nofuel

/-- Outcome of parse_node: Ok(node) or Err((error, node)); parse_node
returns its node alongside the error so callers can inspect the commit
flag. -/
inductive NodeRes where
  | ok (n : Node)
  | err (e : ParseError) (n : Node)
  | panic
  | nofuel

/-- The parser configuration (src/src/parser.rs struct Parser): optional
entry node key and the eof_error option. -/
structure Parser where
  entry : Option Nat
  eof_error : Bool

/-- Parser::new from src/src/parser.rs lines 41-46. -/
def Parser.new : Parser :=
  { entry := none, eof_error := false }

/-- The globals store is an arena of runtime variable values. -/
abbrev Globals := List VariableKind

/-- The immutable data threaded through the interpreter: parser options,
the grammar, the token stream and the source text. -/
structure Env where
  p : Parser
  gr : grammar.Grammar
  toks : List Token
  text : String

/-- Node::variables_from_grammar from src/src/parser.rs lines 1679-1693:
each declared kind is initialized: Node to None, NodeList to the empty
vector, Boolean to false, Number to 0.  The Rust function returns Result
but has no error path. -/
def variables_from_grammar : List grammar.VariableKind → List VariableKind
  | [] => []
  | v :: rest =>
    (match v with
      | .Node => VariableKind.Node none
      | .NodeList => VariableKind.NodeList []
      | .Boolean => VariableKind.Boolean false
      | .Number => VariableKind.Number 0) :: variables_from_grammar rest

/-- Node::from_grammar from src/src/parser.rs lines 1659-1677. -/
def Node.from_grammar (g : grammar.Grammar) (name : Nat) :
    Except ParseError Node :=
  match g.nodes[name]? with
  | none => .error ⟨.NodeNotFound name, TextLocation.new 0 0, none⟩
  | some found =>
    .ok (((Node.new found.name).with_vars
          (variables_from_grammar found.vars)).with_docs found.docs)

end parser

namespace parser

/-- The message bus (src/src/parser.rs struct MsgBus) is a stack: send
pushes, receive pops the most recent message.  It is modelled as a list
with send consing at the head. -/
abbrev MsgBus := List Msg

/-- Recursion over the remaining tokens for the whitespace-peeking loop of
match_token: step past whitespace tokens, tracking the absolute index;
none models the Rust out-of-bounds panic when the stream ends in
whitespace. -/
def skip_ws_aux : List Token → Nat → Option Nat
  | [], _ => none
  | t :: rest, i => if t.kind.is_whitespace then skip_ws_aux rest (i + 1) else some i

/-- The whitespace-peeking loop of match_token (src/src/parser.rs lines
1028-1031 and 1054-1058): starting at index i, step past whitespace
tokens. -/
def skip_ws (toks : List Token) (i : Nat) : Option Nat :=
  skip_ws_aux (toks.drop i) i

/-- Recursion over the remaining tokens for the residual-whitespace loop of
parse, tracking the absolute index. -/
def consume_ws_aux : List Token → Nat → Nat
  | [], i => i
  | t :: rest, i => if t.kind.is_whitespace then consume_ws_aux rest (i + 1) else i

/-- The residual-whitespace loop of parse (src/src/parser.rs lines 89-91):
advance the index while it is in bounds and the token is whitespace. -/
def consume_ws (toks : List Token) (i : Nat) : Nat :=
  consume_ws_aux (toks.drop i) i

/-- Outcome of the pending-advance block at the top of each parse_rules
iteration. -/
inductive AdvRes where
  | ok (c : Cursor)
  | err (e : ParseError) (c : Cursor)
  | panic (c : Cursor)

/-- The pending-advance block of parse_rules (src/src/parser.rs lines
222-236): consume a pending advance; at the end of the stream either raise
Eof (when the eof_error option is set) or clamp the index back. -/
def advance_cursor (E : Env) (c : Cursor) (node : Node) : AdvRes :=
  if c.to_advance then
    let c1 : Cursor := ⟨c.idx + 1, false⟩
    if c1.idx ≥ E.toks.length then
      if E.p.eof_error then
        match E.toks[c1.idx - 1]? with
        | none => .panic c1
        | some t => .err ⟨.Eof, t.location, some node⟩ c1
      else .ok ⟨c1.idx - 1, false⟩
    else .ok c1
  else .ok c

/-- The pattern tested by the label-scanning loop of the Goto message
handler: is this rule a Label command with the given name. -/
def rule_is_label (r : grammar.Rule) (label : String) : Bool :=
  match r with
  | .Command (.Label name) => name = label
  | _ => false

/-- The label-scanning loop of the Goto message handler (src/src/parser.rs
lines 964-983): the index of the first Label command with the given
name. -/
def find_label (rules : List grammar.Rule) (label : String) : Option Nat :=
  match rules with
  | [] => none
  | r :: rest =>
    if rule_is_label r label then some 0 else (find_label rest label).map (· + 1)

/-- Result of draining the message bus: either parse_rules exits with a
message, or the loop continues at rule index i. -/
inductive DrainRes where
  | exit (m : Msg)
  | go (i : Nat)
deriving DecidableEq, Repr

/-- The message-draining loop at the end of each parse_rules iteration
(src/src/parser.rs lines 953-992): Return exits with Return; Break(1)
exits with Ok and Break(n) with Break(n-1); Goto jumps to a matching Label
or exits with Goto; Back(steps) moves the index back or exits with the
remaining steps; Ok is ignored. -/
def handle_messages (msgs : MsgBus) (i : Nat) (rules : List grammar.Rule) :
    DrainRes :=
  match msgs with
  | [] => .go i
  | .Return :: _ => .exit .Return
  | .Break n :: _ => if n = 1 then .exit .Ok else .exit (.Break (n - 1))
  | .Goto label :: rest =>
    match find_label rules label with
    | some j => handle_messages rest j rules
    | none => .exit (.Goto label)
  | .Back steps :: rest =>
    if i < steps then .exit (.Back (steps - i))
    else handle_messages rest (i - steps) rules
  | .Ok :: rest => handle_messages rest i rules

/-- The comparison-set computation of the Compare command
(src/src/parser.rs lines 725-789). -/
def compare_variables (left right : VariableKind) : List grammar.Comparison :=
  match left with
  | .Node node_left =>
    match right with
    | .Node node_right =>
      match node_left, node_right with
      | some (.Node l), some (.Node r) =>
        if l.name = r.name then [.Equal] else [.NotEqual]
      | some (.Token l), some (.Token r) =>
        if l = r then [.Equal] else [.NotEqual]
      | none, none => [.Equal]
      | _, _ => [.NotEqual]
    | _ => [.NotEqual]
  | .NodeList _ => [.NotEqual]
  | .Boolean l =>
    match right with
    | .Boolean r => if l = r then [.Equal] else [.NotEqual]
    | _ => [.NotEqual]
  | .Number l =>
    match right with
    | .Number r =>
      if l = r then [.Equal, .GreaterThanOrEqual, .LessThanOrEqual]
      else
        [.NotEqual] ++ (if l > r then [.GreaterThan, .GreaterThanOrEqual] else [])
          ++ (if l < r then [.LessThan, .LessThanOrEqual] else [])
    | _ => [.NotEqual]

/-- The operand resolution of the Compare command (src/src/parser.rs lines
697-700 and 711-714): a Local reference reads the node variables, a Global
reference reads the globals store. -/
def resolve_var (v : grammar.VarKind) (node : Node) (gl : Globals) :
    Option VariableKind :=
  match v with
  | .Local l => node.vars[l]?
  | .Global g => gl[g]?

/-- Helper building the errors of parse_parameters: they all read
tokens[cursor.idx] for the location (a panic when out of bounds) and carry
no node. -/
def param_err (E : Env) (c : Cursor) (k : ParseErrors) (gl : Globals)
    (node : Node) (bus : MsgBus) : Res Unit × Globals × Node × MsgBus :=
  match E.toks[c.idx]? with
  | none => (.panic, gl, node, bus)
  | some t => (.err ⟨k, t.location, none⟩, gl, node, bus)

/-- parse_parameters from src/src/parser.rs lines 1149-1510: apply each
parameter in order, mutating the node variables, the globals, the node
span and commit flag, and sending control-flow messages to the bus.  The
cursor is read (for error locations and span snapshots) but never
mutated. -/
def parse_parameters (E : Env) (params : List grammar.Parameters)
    (c : Cursor) (gl : Globals) (node : Node) (value : Nodes) (bus : MsgBus) :
    Res Unit × Globals × Node × MsgBus :=
  match params with
  | [] => (.ok (), gl, node, bus)
  | p :: rest =>
    match p with
    | .Set name =>
      match node.vars[name]? with
      | none => param_err E c (.VariableNotFound (.Local name)) gl node bus
      | some kind =>
        match kind with
        | .Node _ =>
          parse_parameters E rest c gl
            (node.with_vars (node.vars.set name (.Node (some value)))) value bus
        | .NodeList l =>
          parse_parameters E rest c gl
            (node.with_vars (node.vars.set name (.NodeList (l ++ [value])))) value bus
        | .Boolean _ =>
          param_err E c (.CannotSetVariable (.Local name) kind) gl node bus
        | .Number _ =>
          param_err E c (.CannotSetVariable (.Local name) kind) gl node bus
    | .Print _ => parse_parameters E rest c gl node value bus
    | .Debug v =>
      match v with
      | some ident =>
        match node.vars[ident]? with
        | none => param_err E c (.VariableNotFound (.Local ident)) gl node bus
        | some _ => parse_parameters E rest c gl node value bus
      | none => parse_parameters E rest c gl node value bus
    | .Increment ident =>
      match node.vars[ident]? with
      | none => param_err E c (.VariableNotFound (.Local ident)) gl node bus
      | some kind =>
        match kind with
        | .Node _ => param_err E c (.VariableNotFound (.Local ident)) gl node bus
        | .NodeList _ =>
          param_err E c (.UncountableVariable (.Local ident) kind) gl node bus
        | .Boolean _ =>
          param_err E c (.UncountableVariable (.Local ident) kind) gl node bus
        | .Number n =>
          parse_parameters E rest c gl
            (node.with_vars (node.vars.set ident (.Number (n + 1)))) value bus
    | .Decrement ident =>
      match node.vars[ident]? with
      | none => param_err E c (.VariableNotFound (.Local ident)) gl node bus
      | some kind =>
        match kind with
        | .Node _ =>
          param_err E c (.UncountableVariable (.Local ident) kind) gl node bus
        | .NodeList _ =>
          param_err E c (.UncountableVariable (.Local ident) kind) gl node bus
        | .Boolean _ =>
          param_err E c (.UncountableVariable (.Local ident) kind) gl node bus
        | .Number n =>
          parse_parameters E rest c gl
            (node.with_vars (node.vars.set ident (.Number (n - 1)))) value bus
    | .True v =>
      match node.vars[v]? with
      | none => param_err E c (.VariableNotFound (.Local v)) gl node bus
      | some kind =>
        match kind with
        | .Boolean _ =>
          parse_parameters E rest c gl
            (node.with_vars (node.vars.set v (.Boolean true))) value bus
        | _ => param_err E c (.UncountableVariable (.Local v) kind) gl node bus
    | .False v =>
      match node.vars[v]? with
      | none => param_err E c (.VariableNotFound (.Local v)) gl node bus
      | some kind =>
        match kind with
        | .Boolean _ =>
          parse_parameters E rest c gl
            (node.with_vars (node.vars.set v (.Boolean false))) value bus
        | _ => param_err E c (.UncountableVariable (.Local v) kind) gl node bus
    | .Global v =>
      match gl[v]? with
      | none => param_err E c (.VariableNotFound (.Global v)) gl node bus
      | some kind =>
        match kind with
        | .Node _ =>
          parse_parameters E rest c (gl.set v (.Node (some value))) node value bus
        | .NodeList l =>
          parse_parameters E rest c (gl.set v (.NodeList (l ++ [value]))) node value bus
        | .Boolean _ =>
          param_err E c (.CannotSetVariable (.Global v) kind) gl node bus
        | .Number _ =>
          param_err E c (.CannotSetVariable (.Global v) kind) gl node bus
    | .IncrementGlobal v =>
      match gl[v]? with
      | none => param_err E c (.VariableNotFound (.Global v)) gl node bus
      | some kind =>
        match kind with
        | .Number n =>
          parse_parameters E rest c (gl.set v (.Number (n + 1))) node value bus
        | _ => param_err E c (.UncountableVariable (.Global v) kind) gl node bus
    | .TrueGlobal v =>
      match gl[v]? with
      | none => param_err E c (.VariableNotFound (.Global v)) gl node bus
      | some kind =>
        match kind with
        | .Boolean _ =>
          parse_parameters E rest c (gl.set v (.Boolean true)) node value bus
        | _ => param_err E c (.UncountableVariable (.Global v) kind) gl node bus
    | .FalseGlobal v =>
      match gl[v]? with
      | none => param_err E c (.VariableNotFound (.Global v)) gl node bus
      | some kind =>
        match kind with
        | .Boolean _ =>
          parse_parameters E rest c (gl.set v (.Boolean false)) node value bus
        | _ => param_err E c (.UncountableVariable (.Global v) kind) gl node bus
    | .HardError b =>
      parse_parameters E rest c gl (node.with_harderror b) value bus
    | .NodeStart =>
      match E.toks[c.idx]? with
      | none => (.panic, gl, node, bus)
      | some t => parse_parameters E rest c gl (node.with_first t.index) value bus
    | .NodeEnd =>
      match E.toks[c.idx]? with
      | none => (.panic, gl, node, bus)
      | some t =>
        parse_parameters E rest c gl (node.with_last (t.index + t.len)) value bus
    | .Back steps =>
      parse_parameters E rest c gl node value (Msg.Back steps :: bus)
    | .Return =>
      parse_parameters E rest c gl node value (Msg.Return :: bus)
    | .Goto label =>
      parse_parameters E rest c gl node value (Msg.Goto label :: bus)
    | .Break n =>
      parse_parameters E rest c gl node value (Msg.Break n :: bus)

end parser

namespace parser

mutual

/-- match_token from src/src/parser.rs lines 997-1147: compare the match
token against the stream at the cursor.  Token and Word matches step the
cursor past leading whitespace (a direct cursor mutation); Node matches
recursively parse the child node, raising the child error as a hard error
when the child node carries the commit flag; Enumerator matches try each
value in order, restoring the cursor after each failed alternative; Any
returns the token under the cursor. -/
def match_token (E : Env) (fuel : Nat) (tok : grammar.MatchToken)
    (c : Cursor) (gl : Globals) (cc : Cursor) :
    Res TokenCompare × Cursor × Globals :=
  match fuel with
  | 0 => (.nofuel, c, gl)
  | fuel + 1 =>
    match tok with
    | .Token tk =>
      if tk = .Control .Eof ∧ c.idx ≥ E.toks.length then
        (.ok (.Is (.Token ⟨.Control .Eof, 0, 0, TextLocation.new 0 0⟩)), c, gl)
      else if c.idx ≥ E.toks.length then
        match E.toks[c.idx - 1]? with
        | none => (.panic, c, gl)
        | some t => (.ok (.IsNot ⟨.Eof, t.location, none⟩), c, gl)
      else
        match skip_ws E.toks c.idx with
        | none => (.panic, c, gl)
        | some j =>
          match E.toks[j]? with
          | none => (.panic, c, gl)
          | some cur =>
            if tk ≠ cur.kind then
              (.ok (.IsNot ⟨.ExpectedToken tk cur.kind, cur.location, none⟩),
                ⟨j, c.to_advance⟩, gl)
            else (.ok (.Is (.Token cur)), ⟨j, c.to_advance⟩, gl)
    | .Node node_name =>
      match parse_node E fuel node_name c gl with
      | (.ok node, c, gl) => (.ok (.Is (.Node node)), c, gl)
      | (.err e node, c, gl) =>
        if node.harderror then (.err e, c, gl) else (.ok (.IsNot e), c, gl)
      | (.panic, c, gl) => (.panic, c, gl)
      | (.nofuel, c, gl) => (.nofuel, c, gl)
    | .Word w =>
      match skip_ws E.toks c.idx with
      | none => (.panic, c, gl)
      | some j =>
        match E.toks[j]? with
        | none => (.panic, c, gl)
        | some cur =>
          match cur.kind with
          | .Text =>
            if w ≠ stringify E.text cur then
              (.ok (.IsNot ⟨.ExpectedWord w cur.kind, cur.location, none⟩),
                ⟨j, c.to_advance⟩, gl)
            else (.ok (.Is (.Token cur)), ⟨j, c.to_advance⟩, gl)
          | _ =>
            (.ok (.IsNot ⟨.ExpectedWord w cur.kind, cur.location, none⟩),
              ⟨j, c.to_advance⟩, gl)
    | .Enumerator en =>
      match E.gr.enumerators[en]? with
      | none =>
        match E.toks[c.idx]? with
        | none => (.panic, c, gl)
        | some t => (.err ⟨.EnumeratorNotFound en, t.location, none⟩, c, gl)
      | some enumerator =>
        enum_values_loop E fuel enumerator.values enumerator.values c c gl cc
    | .Any =>
      match E.toks[c.idx]? with
      | none => (.panic, c, gl)
      | some t => (.ok (.Is (.Token t)), c, gl)

/-- The alternative loop of the Enumerator branch of match_token
(src/src/parser.rs lines 1102-1137): try each value; on a recoverable
failure restore the cursor to the local snapshot and continue, but re-raise
when the failure carries a committed node; when the values are exhausted
return an IsNot with ExpectedOneOf. -/
def enum_values_loop (E : Env) (fuel : Nat)
    (values rem : List grammar.MatchToken) (ccl c : Cursor) (gl : Globals)
    (cc : Cursor) : Res TokenCompare × Cursor × Globals :=
  match fuel with
  | 0 => (.nofuel, c, gl)
  | fuel + 1 =>
    match rem with
    | [] =>
      match E.toks[c.idx]? with
      | none => (.panic, c, gl)
      | some t =>
        (.ok (.IsNot ⟨.ExpectedOneOf values t.kind, t.location, none⟩), c, gl)
    | v :: rest =>
      match match_token E fuel v c gl cc with
      | (.ok (.Is val), c, gl) => (.ok (.Is val), c, gl)
      | (.ok (.IsNot e), _, gl) =>
        match e.node with
        | some n =>
          if n.harderror then (.err e, ccl, gl)
          else enum_values_loop E fuel values rest ccl ccl gl cc
        | none => enum_values_loop E fuel values rest ccl ccl gl cc
      | (.err e, c, gl) => (.err e, c, gl)
      | (.panic, c, gl) => (.panic, c, gl)
      | (.nofuel, c, gl) => (.nofuel, c, gl)

/-- parse_node from src/src/parser.rs lines 111-203: build the node from
the grammar, snapshot the cursor, run the rules, default the end of the
span, and convert the outcome; on a rule error the entry snapshot is
restored before the error is re-raised, while an unhandled Break, Back or
Goto message becomes a CannotBreak, CannotGoBack or LabelNotFound error
without a cursor restore. -/
def parse_node (E : Env) (fuel : Nat) (name : Nat) (c : Cursor)
    (gl : Globals) : NodeRes × Cursor × Globals :=
  match fuel with
  | 0 => (.nofuel, c, gl)
  | fuel + 1 =>
    match Node.from_grammar E.gr name with
    | .error e => ((.err e (Node.new "<dummy node>")), c, gl)
    | .ok node0 =>
      match E.toks[c.idx]? with
      | none => (.panic, c, gl)
      | some t0 =>
        let node0 := node0.with_first t0.index
        let cc := c
        match E.gr.nodes[name]? with
        | none =>
          ((.err ⟨.NodeNotFound name, t0.location, some node0⟩ node0), c, gl)
        | some gnode =>
          match parse_rules E fuel gnode.rules 0 c gl node0 cc with
          | (r, c1, gl1, node1) =>
            let fix : Res Node :=
              if node1.last_string_idx = 0 then
                if c1.idx ≥ E.toks.length then
                  match E.toks.getLast? with
                  | none => .panic
                  | some last => .ok (node1.with_last (last.index + last.len))
                else
                  match E.toks[c1.idx]? with
                  | none => .panic
                  | some t => .ok (node1.with_last (t.index + t.len))
              else .ok node1
            match fix with
            | .ok node1 =>
              match r with
              | .ok .Ok => (.ok node1, c1, gl1)
              | .ok .Return => (.ok node1, c1, gl1)
              | .ok (.Break n) =>
                match E.toks[c1.idx]? with
                | none => (.panic, c1, gl1)
                | some t =>
                  ((.err ⟨.CannotBreak n, t.location, some node1⟩ node1), c1, gl1)
              | .ok (.Back steps) =>
                match E.toks[c1.idx]? with
                | none => (.panic, c1, gl1)
                | some t =>
                  ((.err ⟨.CannotGoBack steps, t.location, some node1⟩ node1),
                    c1, gl1)
              | .ok (.Goto label) =>
                match E.toks[c1.idx]? with
                | none => (.panic, c1, gl1)
                | some t =>
                  ((.err ⟨.LabelNotFound label, t.location, some node1⟩ node1),
                    c1, gl1)
              | .err e => ((.err e node1), cc, gl1)
              | .panic => (.panic, c1, gl1)
              | .nofuel => (.nofuel, c1, gl1)
            | _ => (.panic, c1, gl1)

/-- parse_rules from src/src/parser.rs lines 205-995: the rule loop.  Each
iteration consumes a pending cursor advance, dispatches on the rule at
index i, then drains the message bus; the index advances unless the rule
was a While with a successful match or a Loop. -/
def parse_rules (E : Env) (fuel : Nat) (rules : List grammar.Rule) (i : Nat)
    (c : Cursor) (gl : Globals) (node : Node) (cc : Cursor) :
    Res Msg × Cursor × Globals × Node :=
  match fuel with
  | 0 => (.nofuel, c, gl, node)
  | fuel + 1 =>
    if h : i < rules.length then
      match advance_cursor E c node with
      | .panic c1 => (.panic, c1, gl, node)
      | .err e c1 => (.err e, c1, gl, node)
      | .ok c =>
        let next : MsgBus → Bool → Cursor → Globals → Node →
            Res Msg × Cursor × Globals × Node := fun bus adv c gl node =>
          let i1 := if adv then i + 1 else i
          match handle_messages bus i1 rules with
          | .exit m => (.ok m, c, gl, node)
          | .go i2 => parse_rules E fuel rules i2 c gl node cc
        match rules[i] with
        | .Is token rls params =>
          match match_token E fuel token c gl cc with
          | (.ok (.Is val), c, gl) =>
            let is_token := val.is_token
            match parse_parameters E params c gl node val [] with
            | (.ok _, gl, node, bus) =>
              let c := if is_token then ⟨c.idx, true⟩ else c
              match parse_rules E fuel rls 0 c gl node cc with
              | (.ok m, c, gl, node) => next (m :: bus) true c gl node
              | (.err e, c, gl, node) => (.err e, c, gl, node)
              | (.panic, c, gl, node) => (.panic, c, gl, node)
              | (.nofuel, c, gl, node) => (.nofuel, c, gl, node)
            | (.err e, gl, node, _) => (.err e, c, gl, node)
            | (.panic, gl, node, _) => (.panic, c, gl, node)
            | (.nofuel, gl, node, _) => (.nofuel, c, gl, node)
          | (.ok (.IsNot e), c, gl) => (.err e, c, gl, node)
          | (.err e, c, gl) => (.err e, c, gl, node)
          | (.panic, c, gl) => (.panic, c, gl, node)
          | (.nofuel, c, gl) => (.nofuel, c, gl, node)
        | .Isnt token rls _params =>
          match match_token E fuel token c gl cc with
          | (.ok (.Is _), c, gl) =>
            match E.toks[c.idx]? with
            | none => (.panic, c, gl, node)
            | some t =>
              (.err ⟨.ExpectedToNotBe t.kind, t.location, some node⟩, cc, gl, node)
          | (.ok (.IsNot _), c, gl) =>
            match parse_rules E fuel rls 0 c gl node cc with
            | (.ok m, c, gl, node) => next [m] true c gl node
            | (.err e, c, gl, node) => (.err e, c, gl, node)
            | (.panic, c, gl, node) => (.panic, c, gl, node)
            | (.nofuel, c, gl, node) => (.nofuel, c, gl, node)
          | (.err e, c, gl) => (.err e, c, gl, node)
          | (.panic, c, gl) => (.panic, c, gl, node)
          | (.nofuel, c, gl) => (.nofuel, c, gl, node)
        | .IsOneOf alts =>
          match is_one_of_loop E fuel alts c gl node cc [] with
          | (.ok true, c, gl, node, bus) => next bus true c gl node
          | (.ok false, c, gl, node, _) =>
            match E.toks[c.idx]? with
            | none => (.panic, c, gl, node)
            | some t =>
              (.err ⟨.ExpectedOneOf (alts.map (·.token)) t.kind, t.location,
                some node⟩, cc, gl, node)
          | (.err e, c, gl, node, _) => (.err e, c, gl, node)
          | (.panic, c, gl, node, _) => (.panic, c, gl, node)
          | (.nofuel, c, gl, node, _) => (.nofuel, c, gl, node)
        | .Maybe token is_rules isnt_rules params =>
          match match_token E fuel token c gl cc with
          | (.ok (.Is val), c, gl) =>
            let is_token := val.is_token
            match parse_parameters E params c gl node val [] with
            | (.ok _, gl, node, bus) =>
              let c := if is_token then ⟨c.idx, true⟩ else c
              match parse_rules E fuel is_rules 0 c gl node cc with
              | (.ok m, c, gl, node) => next (m :: bus) true c gl node
              | (.err e, c, gl, node) => (.err e, c, gl, node)
              | (.panic, c, gl, node) => (.panic, c, gl, node)
              | (.nofuel, c, gl, node) => (.nofuel, c, gl, node)
            | (.err e, gl, node, _) => (.err e, c, gl, node)
            | (.panic, gl, node, _) => (.panic, c, gl, node)
            | (.nofuel, gl, node, _) => (.nofuel, c, gl, node)
          | (.ok (.IsNot e), c, gl) =>
            let run_isnt : Cursor → Globals → Res Msg × Cursor × Globals × Node :=
              fun c gl =>
                match parse_rules E fuel isnt_rules 0 c gl node cc with
                | (.ok m, c, gl, node) => next [m] true c gl node
                | (.err e, c, gl, node) => (.err e, c, gl, node)
                | (.panic, c, gl, node) => (.panic, c, gl, node)
                | (.nofuel, c, gl, node) => (.nofuel, c, gl, node)
            match e.node with
            | some n => if n.harderror then (.err e, c, gl, node) else run_isnt c gl
            | none => run_isnt c gl
          | (.err e, c, gl) => (.err e, c, gl, node)
          | (.panic, c, gl) => (.panic, c, gl, node)
          | (.nofuel, c, gl) => (.nofuel, c, gl, node)
        | .MaybeOneOf alts isnt_rules =>
          match maybe_one_of_loop E fuel alts c gl node cc [] with
          | (.ok true, c, gl, node, bus) => next bus true c gl node
          | (.ok false, c, gl, node, bus) =>
            match parse_rules E fuel isnt_rules 0 c gl node cc with
            | (.ok m, c, gl, node) => next (m :: bus) true c gl node
            | (.err e, c, gl, node) => (.err e, c, gl, node)
            | (.panic, c, gl, node) => (.panic, c, gl, node)
            | (.nofuel, c, gl, node) => (.nofuel, c, gl, node)
          | (.err e, c, gl, node, _) => (.err e, c, gl, node)
          | (.panic, c, gl, node, _) => (.panic, c, gl, node)
          | (.nofuel, c, gl, node, _) => (.nofuel, c, gl, node)
        | .While token rls params =>
          match match_token E fuel token c gl cc with
          | (.ok (.Is val), c, gl) =>
            let is_token := val.is_token
            match parse_parameters E params c gl node val [] with
            | (.ok _, gl, node, bus) =>
              let c := if is_token then ⟨c.idx, true⟩ else c
              match parse_rules E fuel rls 0 c gl node cc with
              | (.ok m, c, gl, node) => next (m :: bus) false c gl node
              | (.err e, c, gl, node) => (.err e, c, gl, node)
              | (.panic, c, gl, node) => (.panic, c, gl, node)
              | (.nofuel, c, gl, node) => (.nofuel, c, gl, node)
            | (.err e, gl, node, _) => (.err e, c, gl, node)
            | (.panic, gl, node, _) => (.panic, c, gl, node)
            | (.nofuel, gl, node, _) => (.nofuel, c, gl, node)
          | (.ok (.IsNot e), c, gl) =>
            match e.node with
            | some n =>
              if n.harderror then (.err e, c, gl, node)
              else next [] true c gl node
            | none => next [] true c gl node
          | (.err e, c, gl) => (.err e, c, gl, node)
          | (.panic, c, gl) => (.panic, c, gl, node)
          | (.nofuel, c, gl) => (.nofuel, c, gl, node)
        | .Loop rls =>
          match parse_rules E fuel rls 0 c gl node cc with
          | (.ok m, c, gl, node) => next [m] false c gl node
          | (.err e, c, gl, node) => (.err e, c, gl, node)
          | (.panic, c, gl, node) => (.panic, c, gl, node)
          | (.nofuel, c, gl, node) => (.nofuel, c, gl, node)
        | .Until token rls params =>
          match until_scan E fuel token c gl cc node with
          | (.ok _, c, gl) =>
            match E.toks[c.idx]? with
            | none => (.panic, c, gl, node)
            | some t =>
              match parse_parameters E params c gl node (.Token t) [] with
              | (.ok _, gl, node, bus) =>
                let c : Cursor := ⟨c.idx, true⟩
                match parse_rules E fuel rls 0 c gl node cc with
                | (.ok m, c, gl, node) => next (m :: bus) true c gl node
                | (.err e, c, gl, node) => (.err e, c, gl, node)
                | (.panic, c, gl, node) => (.panic, c, gl, node)
                | (.nofuel, c, gl, node) => (.nofuel, c, gl, node)
              | (.err e, gl, node, _) => (.err e, c, gl, node)
              | (.panic, gl, node, _) => (.panic, c, gl, node)
              | (.nofuel, gl, node, _) => (.nofuel, c, gl, node)
          | (.err e, c, gl) => (.err e, c, gl, node)
          | (.panic, c, gl) => (.panic, c, gl, node)
          | (.nofuel, c, gl) => (.nofuel, c, gl, node)
        | .UntilOneOf alts =>
          match until_one_of_scan E fuel alts c gl node cc [] with
          | (.ok true, c, gl, node, bus) => next bus true c gl node
          | (.ok false, c, gl, node, _) =>
            match E.toks[c.idx]? with
            | none => (.panic, c, gl, node)
            | some t =>
              (.err ⟨.ExpectedOneOf (alts.map (·.token)) t.kind, t.location,
                some node⟩, cc, gl, node)
          | (.err e, c, gl, node, _) => (.err e, c, gl, node)
          | (.panic, c, gl, node, _) => (.panic, c, gl, node)
          | (.nofuel, c, gl, node, _) => (.nofuel, c, gl, node)
        | .Command cmd =>
          match cmd with
          | .Compare left right comparison rls =>
            match resolve_var left node gl with
            | none =>
              match E.toks[c.idx]? with
              | none => (.panic, c, gl, node)
              | some t =>
                (.err ⟨.VariableNotFound left, t.location, some node⟩, c, gl, node)
            | some lv =>
              match resolve_var right node gl with
              | none =>
                match E.toks[c.idx]? with
                | none => (.panic, c, gl, node)
                | some t =>
                  (.err ⟨.VariableNotFound right, t.location, some node⟩, c, gl,
                    node)
              | some rv =>
                let comparisons := compare_variables lv rv
                if comparisons.contains comparison then
                  match parse_rules E fuel rls 0 c gl node cc with
                  | (.ok m, c, gl, node) => next [m] true c gl node
                  | (.err e, c, gl, node) => (.err e, c, gl, node)
                  | (.panic, c, gl, node) => (.panic, c, gl, node)
                  | (.nofuel, c, gl, node) => (.nofuel, c, gl, node)
                else next [] true c gl node
          | .Error message =>
            match E.toks[c.idx]? with
            | none => (.panic, c, gl, node)
            | some t => (.err ⟨.Message message, t.location, some node⟩, c, gl, node)
          | .HardError set => next [] true c gl (node.with_harderror set)
          | .Goto label => next [.Goto label] true c gl node
          | .Label _ => next [] true c gl node
          | .Print _ => next [] true c gl node
        | .Debug _ => next [] true c gl node
    else (.ok .Ok, c, gl, node)

/-- The alternative loop of the IsOneOf rule (src/src/parser.rs lines
340-410): try each alternative; on a match apply its parameters, set the
pending advance for token matches, run its rules and push the result; a
recoverable failure without a node resets the pending advance, a failure
carrying a committed node is re-raised. -/
def is_one_of_loop (E : Env) (fuel : Nat) (alts : List grammar.OneOf)
    (c : Cursor) (gl : Globals) (node : Node) (cc : Cursor) (bus : MsgBus) :
    Res Bool × Cursor × Globals × Node × MsgBus :=
  match fuel with
  | 0 => (.nofuel, c, gl, node, bus)
  | fuel + 1 =>
    match alts with
    | [] => (.ok false, c, gl, node, bus)
    | .mk token rls params :: rest =>
      match match_token E fuel token c gl cc with
      | (.ok (.Is val), c, gl) =>
        let is_token := val.is_token
        match parse_parameters E params c gl node val bus with
        | (.ok _, gl, node, bus) =>
          let c := if is_token then ⟨c.idx, true⟩ else c
          match parse_rules E fuel rls 0 c gl node cc with
          | (.ok m, c, gl, node) => (.ok true, c, gl, node, m :: bus)
          | (.err e, c, gl, node) => (.err e, c, gl, node, bus)
          | (.panic, c, gl, node) => (.panic, c, gl, node, bus)
          | (.nofuel, c, gl, node) => (.nofuel, c, gl, node, bus)
        | (.err e, gl, node, bus) => (.err e, c, gl, node, bus)
        | (.panic, gl, node, bus) => (.panic, c, gl, node, bus)
        | (.nofuel, gl, node, bus) => (.nofuel, c, gl, node, bus)
      | (.ok (.IsNot e), c, gl) =>
        match e.node with
        | some n =>
          if n.harderror then (.err e, c, gl, node, bus)
          else is_one_of_loop E fuel rest c gl node cc bus
        | none => is_one_of_loop E fuel rest ⟨c.idx, false⟩ gl node cc bus
      | (.err e, c, gl) => (.err e, c, gl, node, bus)
      | (.panic, c, gl) => (.panic, c, gl, node, bus)
      | (.nofuel, c, gl) => (.nofuel, c, gl, node, bus)

/-- The alternative loop shared by the MaybeOneOf rule (src/src/parser.rs
lines 497-559) and the inner loop of the UntilOneOf rule (lines 841-901),
which are textually identical in the source: like is_one_of_loop but a
recoverable failure without a node leaves the cursor untouched. -/
def maybe_one_of_loop (E : Env) (fuel : Nat) (alts : List grammar.OneOf)
    (c : Cursor) (gl : Globals) (node : Node) (cc : Cursor) (bus : MsgBus) :
    Res Bool × Cursor × Globals × Node × MsgBus :=
  match fuel with
  | 0 => (.nofuel, c, gl, node, bus)
  | fuel + 1 =>
    match alts with
    | [] => (.ok false, c, gl, node, bus)
    | .mk token rls params :: rest =>
      match match_token E fuel token c gl cc with
      | (.ok (.Is val), c, gl) =>
        let is_token := val.is_token
        match parse_parameters E params c gl node val bus with
        | (.ok _, gl, node, bus) =>
          let c := if is_token then ⟨c.idx, true⟩ else c
          match parse_rules E fuel rls 0 c gl node cc with
          | (.ok m, c, gl, node) => (.ok true, c, gl, node, m :: bus)
          | (.err e, c, gl, node) => (.err e, c, gl, node, bus)
          | (.panic, c, gl, node) => (.panic, c, gl, node, bus)
          | (.nofuel, c, gl, node) => (.nofuel, c, gl, node, bus)
        | (.err e, gl, node, bus) => (.err e, c, gl, node, bus)
        | (.panic, gl, node, bus) => (.panic, c, gl, node, bus)
        | (.nofuel, gl, node, bus) => (.nofuel, c, gl, node, bus)
      | (.ok (.IsNot e), c, gl) =>
        match e.node with
        | some n =>
          if n.harderror then (.err e, c, gl, node, bus)
          else maybe_one_of_loop E fuel rest c gl node cc bus
        | none => maybe_one_of_loop E fuel rest c gl node cc bus
      | (.err e, c, gl) => (.err e, c, gl, node, bus)
      | (.panic, c, gl) => (.panic, c, gl, node, bus)
      | (.nofuel, c, gl) => (.nofuel, c, gl, node, bus)

/-- The scanning loop of the Until rule (src/src/parser.rs lines 642-661):
step the cursor one token at a time until the match succeeds; raise
CouldNotFindToken when the end of the stream is reached first. -/
def until_scan (E : Env) (fuel : Nat) (token : grammar.MatchToken)
    (c : Cursor) (gl : Globals) (cc : Cursor) (node : Node) :
    Res Unit × Cursor × Globals :=
  match fuel with
  | 0 => (.nofuel, c, gl)
  | fuel + 1 =>
    match match_token E fuel token c gl cc with
    | (.ok (.Is _), c, gl) => (.ok (), c, gl)
    | (.ok (.IsNot _), c, gl) =>
      let c : Cursor := ⟨c.idx + 1, c.to_advance⟩
      if c.idx ≥ E.toks.length then
        match E.toks[c.idx - 1]? with
        | none => (.panic, c, gl)
        | some t => (.err ⟨.CouldNotFindToken token, t.location, some node⟩, c, gl)
      else until_scan E fuel token c gl cc node
    | (.err e, c, gl) => (.err e, c, gl)
    | (.panic, c, gl) => (.panic, c, gl)
    | (.nofuel, c, gl) => (.nofuel, c, gl)

/-- The outer scanning loop of the UntilOneOf rule (src/src/parser.rs lines
841-906): while the cursor is in bounds, run the alternative loop; if no
alternative matched, step the cursor and repeat. -/
def until_one_of_scan (E : Env) (fuel : Nat) (alts : List grammar.OneOf)
    (c : Cursor) (gl : Globals) (node : Node) (cc : Cursor) (bus : MsgBus) :
    Res Bool × Cursor × Globals × Node × MsgBus :=
  match fuel with
  | 0 => (.nofuel, c, gl, node, bus)
  | fuel + 1 =>
    if c.idx < E.toks.length then
      match maybe_one_of_loop E fuel alts c gl node cc bus with
      | (.ok true, c, gl, node, bus) => (.ok true, c, gl, node, bus)
      | (.ok false, c, gl, node, bus) =>
        until_one_of_scan E fuel alts ⟨c.idx + 1, c.to_advance⟩ gl node cc bus
      | (.err e, c, gl, node, bus) => (.err e, c, gl, node, bus)
      | (.panic, c, gl, node, bus) => (.panic, c, gl, node, bus)
      | (.nofuel, c, gl, node, bus) => (.nofuel, c, gl, node, bus)
    else (.ok false, c, gl, node, bus)

end

end parser

namespace parser

/-- The result of a successful parse (src/src/parser.rs struct
ParseResult): the entry node and the globals store. -/
structure ParseResult where
  entry : Node
  globals : Globals

/-- parse from src/src/parser.rs lines 48-109: fail with MissingEntry when
no entry node is configured, build the globals store, parse the entry node,
and when the grammar eof flag is set consume a pending advance, skip
residual whitespace and require a Control(EOF) token, otherwise raising
MissingEof with the offending token. -/
def parse (E : Env) (fuel : Nat) : Res ParseResult :=
  match E.p.entry with
  | none => .err ⟨.MissingEntry, TextLocation.new 0 0, none⟩
  | some entry =>
    let c : Cursor := ⟨0, false⟩
    let globals := variables_from_grammar E.gr.globals
    match parse_node E fuel entry c globals with
    | (.ok node, c, gl) =>
      if ¬ E.gr.eof then .ok ⟨node, gl⟩
      else
        let c : Cursor := if c.to_advance then ⟨c.idx + 1, false⟩ else c
        let j := consume_ws E.toks c.idx
        match E.toks[j]? with
        | none => .panic
        | some t =>
          match t.kind with
          | .Control .Eof => .ok ⟨node, gl⟩
          | _ => .err ⟨.MissingEof t.kind, t.location, some node⟩
    | (.err e _, _, _) => .err e
    | (.panic, _, _) => .panic
    | (.nofuel, _, _) => .nofuel

end parser

namespace parser

/-- The initialization of a single declared variable kind, as in the match
inside Node::variables_from_grammar. -/
def init_variable : grammar.VariableKind → VariableKind
  | .Node => .Node none
  | .NodeList => .NodeList []
  | .Boolean => .Boolean false
  | .Number => .Number 0

lemma variables_from_grammar_getElem (vars : List grammar.VariableKind)
    (k : Nat) :
    (variables_from_grammar vars)[k]? = (vars[k]?).map init_variable := by
  induction vars generalizing k with
  | nil => simp [variables_from_grammar]
  | cons v rest ih =>
    cases k with
    | zero => cases v <;> simp [variables_from_grammar, init_variable]
    | succ k => cases v <;> simpa [variables_from_grammar] using ih k

lemma variables_from_grammar_length (vars : List grammar.VariableKind) :
    (variables_from_grammar vars).length = vars.length := by
  induction vars with
  | nil => rfl
  | cons v rest ih => cases v <;> simp [variables_from_grammar, ih]

end parser

/-- C9: whenever a result-side node or the globals store is created from
grammar declarations, every declared variable is initialized by kind
before any rule runs: Node to empty (None), NodeList to the empty list,
Boolean to false, and Number to 0.  The first conjuncts characterize
variables_from_grammar (used both for the globals store in parse and for
node stores); the last shows Node::from_grammar yields exactly that store
with the commit flag clear. -/
theorem C9_variables_initialized :
    (∀ (vars : List grammar.VariableKind) (k : Nat),
        (parser.variables_from_grammar vars)[k]? =
        match vars[k]? with
        | some .Node => some (parser.VariableKind.Node none)
        | some .NodeList => some (parser.VariableKind.NodeList [])
        | some .Boolean => some (parser.VariableKind.Boolean false)
        | some .Number => some (parser.VariableKind.Number 0)
        | none => none) ∧
    (∀ vars, (parser.variables_from_grammar vars).length = vars.length) ∧
    (∀ (g : grammar.Grammar) (name : Nat) gn, g.nodes[name]? = some gn →
        ∃ nd, parser.Node.from_grammar g name = .ok nd ∧
          nd.vars = parser.variables_from_grammar gn.vars ∧
          nd.harderror = false ∧ nd.name = gn.name) := by
  refine ⟨?_, parser.variables_from_grammar_length, ?_⟩
  · intro vars k
    rw [parser.variables_from_grammar_getElem]
    rcases h : vars[k]? with _ | v
    · rfl
    · cases v <;> rfl
  · intro g name gn h
    refine ⟨((parser.Node.new gn.name).with_vars
        (parser.variables_from_grammar gn.vars)).with_docs gn.docs,
      by simp [parser.Node.from_grammar, h], ?_, ?_, ?_⟩ <;>
      simp [parser.Node.new, parser.Node.with_vars, parser.Node.with_docs,
        parser.Node.vars, parser.Node.harderror, parser.Node.name]

/-- Witness for C9 at a concrete declaration list and grammar. -/
theorem C9_witness :
    (parser.variables_from_grammar
        [grammar.VariableKind.Number, grammar.VariableKind.Node])[0]? =
      some (parser.VariableKind.Number 0) ∧
    (∃ nd, parser.Node.from_grammar
        ⟨[⟨"n", [], [grammar.VariableKind.Boolean], none⟩], [], [], true⟩ 0 =
          .ok nd ∧
        nd.vars = parser.variables_from_grammar [grammar.VariableKind.Boolean] ∧
        nd.harderror = false ∧ nd.name = "n") := by
  constructor
  · exact (C9_variables_initialized.1
      [grammar.VariableKind.Number, grammar.VariableKind.Node] 0).trans rfl
  · exact C9_variables_initialized.2.2
      ⟨[⟨"n", [], [grammar.VariableKind.Boolean], none⟩], [], [], true⟩ 0
      ⟨"n", [], [grammar.VariableKind.Boolean], none⟩ rfl

namespace parser

/-- Fixture: a Text token at index 0. -/
def fxText : Token := ⟨.Text, 0, 1, ⟨0, 0⟩⟩

/-- Fixture: a whitespace token at index 1. -/
def fxWs : Token := ⟨.Whitespace, 1, 1, ⟨0, 1⟩⟩

/-- Fixture: a Text token at index 2. -/
def fxText2 : Token := ⟨.Text, 2, 1, ⟨0, 2⟩⟩

/-- Fixture: the Control(EOF) token at index 3. -/
def fxEof : Token := ⟨.Control .Eof, 3, 0, ⟨0, 3⟩⟩

/-- Fixture: a single-node grammar that consumes one Text token, with the
eof flag left at its Grammar::new default. -/
def Eok : Env :=
  ⟨⟨some 0, false⟩, ⟨[⟨"N", [.Is (.Token .Text) [] []], [], none⟩], [], [],
    grammar.Grammar.new.eof⟩, [fxText, fxWs, fxEof], "a "⟩

end parser

/-- C10: a grammar constructed by Grammar::new (and via Default) has its
eof flag set to true, and when the flag is set a successful parse implies
that after the entry node finished (and the pending advance was consumed)
every residual token up to the stopping point of the whitespace skip was
skipped as whitespace and the stream position reached a Control(EOF)
token. -/
theorem C10_eof_default :
    grammar.Grammar.new.eof = true ∧
    grammar.Grammar.default = grammar.Grammar.new ∧
    (∀ (E : parser.Env) (fuel : Nat) (r : parser.ParseResult),
        E.gr.eof = true → parser.parse E fuel = .ok r →
        ∃ (k : Nat) (c1 : parser.Cursor) (gl1 : parser.Globals),
          E.p.entry = some k ∧
          parser.parse_node E fuel k ⟨0, false⟩
              (parser.variables_from_grammar E.gr.globals) =
            (.ok r.entry, c1, gl1) ∧
          ∃ t, E.toks[parser.consume_ws E.toks
                (if c1.to_advance then c1.idx + 1 else c1.idx)]? = some t ∧
            t.kind = .Control .Eof) := by
  refine ⟨rfl, rfl, ?_⟩
  intro E fuel r heof hok
  have cursor_adv_idx : ∀ c1 : parser.Cursor,
      (if c1.to_advance then (⟨c1.idx + 1, false⟩ : parser.Cursor) else c1).idx =
      if c1.to_advance then c1.idx + 1 else c1.idx := by
    intro c1; by_cases h : c1.to_advance <;> simp [h]
  rcases hE : E.p.entry with _ | k
  · simp [parser.parse, hE] at hok
  · rcases hpn : parser.parse_node E fuel k ⟨0, false⟩
        (parser.variables_from_grammar E.gr.globals) with ⟨res, c1, gl1⟩
    cases res with
    | ok node =>
      rcases ht : E.toks[parser.consume_ws E.toks
          (if c1.to_advance then c1.idx + 1 else c1.idx)]? with _ | t
      · simp [parser.parse, hE, hpn, heof, cursor_adv_idx, ht] at hok
      · rcases hk : t.kind with name | _ | _ | ck
        · simp [parser.parse, hE, hpn, heof, cursor_adv_idx, ht, hk] at hok
        · simp [parser.parse, hE, hpn, heof, cursor_adv_idx, ht, hk] at hok
        · simp [parser.parse, hE, hpn, heof, cursor_adv_idx, ht, hk] at hok
        · cases ck with
          | Eol => simp [parser.parse, hE, hpn, heof, cursor_adv_idx, ht, hk] at hok
          | Eof =>
            simp [parser.parse, hE, hpn, heof, cursor_adv_idx, ht, hk] at hok
            exact ⟨k, c1, gl1, rfl, by rw [hpn, ← hok], t, ht, hk⟩
    | err e nd => simp [parser.parse, hE, hpn] at hok
    | panic => simp [parser.parse, hE, hpn] at hok
    | nofuel => simp [parser.parse, hE, hpn] at hok

/-- Witness for C10: the fixture grammar keeps the Grammar::new default
eof flag, a concrete parse succeeds, and the theorem applies to it. -/
theorem C10_witness :
    parser.Eok.gr.eof = true ∧
    parser.parse parser.Eok 10 =
      .ok ⟨parser.Node.mk "N" [] 0 1 false none ⟨0, 0⟩, []⟩ ∧
    (∃ (k : Nat) (c1 : parser.Cursor) (gl1 : parser.Globals),
        parser.Eok.p.entry = some k ∧
        parser.parse_node parser.Eok 10 k ⟨0, false⟩
            (parser.variables_from_grammar parser.Eok.gr.globals) =
          (.ok (parser.ParseResult.mk
              (parser.Node.mk "N" [] 0 1 false none ⟨0, 0⟩) []).entry, c1, gl1) ∧
        ∃ t, parser.Eok.toks[parser.consume_ws parser.Eok.toks
              (if c1.to_advance then c1.idx + 1 else c1.idx)]? = some t ∧
          t.kind = .Control .Eof) :=
  ⟨rfl, rfl, C10_eof_default.2.2 parser.Eok 10
    ⟨parser.Node.mk "N" [] 0 1 false none ⟨0, 0⟩, []⟩ rfl rfl⟩

/-- C7: the Compare command resolves both operands (node-locals or
globals) and executes its children if and only if the requested relation
is in the computed relation set; Numbers support all six relations with
integer semantics, Boolean and Node operands yield only Equal or NotEqual,
and a NodeList operand or any kind mismatch yields only NotEqual. -/
theorem C7_compare_semantics :
    (∀ (a b : Int) (rel : grammar.Comparison),
        rel ∈ parser.compare_variables (.Number a) (.Number b) ↔
          ((rel = .Equal ∧ a = b) ∨ (rel = .NotEqual ∧ a ≠ b) ∨
            (rel = .GreaterThan ∧ a > b) ∨
            (rel = .GreaterThanOrEqual ∧ a ≥ b) ∨
            (rel = .LessThan ∧ a < b) ∨
            (rel = .LessThanOrEqual ∧ a ≤ b))) ∧
    (∀ (x y : Bool) (rel : grammar.Comparison),
        rel ∈ parser.compare_variables (.Boolean x) (.Boolean y) ↔
          ((rel = .Equal ∧ x = y) ∨ (rel = .NotEqual ∧ x ≠ y))) ∧
    (∀ v w, parser.compare_variables (.Node v) (.Node w) = [.Equal] ∨
        parser.compare_variables (.Node v) (.Node w) = [.NotEqual]) ∧
    (∀ l r, parser.compare_variables (.NodeList l) r = [.NotEqual]) ∧
    (∀ a r, (∀ b : Int, r ≠ .Number b) →
        parser.compare_variables (.Number a) r = [.NotEqual]) ∧
    (∀ x r, (∀ b : Bool, r ≠ .Boolean b) →
        parser.compare_variables (.Boolean x) r = [.NotEqual]) ∧
    (∀ v r, (∀ w, r ≠ .Node w) →
        parser.compare_variables (.Node v) r = [.NotEqual]) ∧
    (∀ (E : parser.Env) (fuel : Nat) (rules : List grammar.Rule) (i : Nat)
        (c : parser.Cursor) (gl : parser.Globals) (node : parser.Node)
        (cc : parser.Cursor) L R cmp rls lv rv,
        rules[i]? = some (.Command (.Compare L R cmp rls)) →
        c.to_advance = false →
        parser.resolve_var L node gl = some lv →
        parser.resolve_var R node gl = some rv →
        cmp ∉ parser.compare_variables lv rv →
        parser.parse_rules E (fuel + 1) rules i c gl node cc =
          parser.parse_rules E fuel rules (i + 1) c gl node cc) ∧
    (∀ (E : parser.Env) (fuel : Nat) (rules : List grammar.Rule) (i : Nat)
        (c : parser.Cursor) (gl : parser.Globals) (node : parser.Node)
        (cc : parser.Cursor) L R cmp rls lv rv,
        rules[i]? = some (.Command (.Compare L R cmp rls)) →
        c.to_advance = false →
        parser.resolve_var L node gl = some lv →
        parser.resolve_var R node gl = some rv →
        cmp ∈ parser.compare_variables lv rv →
        parser.parse_rules E (fuel + 1) rules i c gl node cc =
          match parser.parse_rules E fuel rls 0 c gl node cc with
          | (.ok m, c1, gl1, node1) =>
            (match parser.handle_messages [m] (i + 1) rules with
              | .exit mm => (.ok mm, c1, gl1, node1)
              | .go i2 => parser.parse_rules E fuel rules i2 c1 gl1 node1 cc)
          | (.err e, c1, gl1, node1) => (.err e, c1, gl1, node1)
          | (.panic, c1, gl1, node1) => (.panic, c1, gl1, node1)
          | (.nofuel, c1, gl1, node1) => (.nofuel, c1, gl1, node1)) := by
  refine ⟨?_, ?_, ?_, ?_, ?_, ?_, ?_, ?_, ?_⟩
  · intro a b rel
    by_cases hab : a = b
    · subst hab
      cases rel <;> simp [parser.compare_variables]
    · rcases lt_or_gt_of_ne hab with h | h
      · have h1 : ¬ a > b := by omega
        cases rel <;>
          simp [parser.compare_variables, hab, h, h1, le_of_lt h, not_le.mpr h]
      · have h1 : ¬ a < b := by omega
        cases rel <;>
          simp [parser.compare_variables, hab, h, h1, le_of_lt h, not_le.mpr h]
  · intro x y rel
    by_cases hxy : x = y
    · subst hxy; cases rel <;> simp [parser.compare_variables]
    · cases rel <;> simp [parser.compare_variables, hxy]
  · intro v w
    rcases v with _ | (n | t) <;> rcases w with _ | (m | u) <;>
      simp [parser.compare_variables] <;> exact eq_or_ne _ _
  · intro l r; rfl
  · intro a r h
    rcases r with v | l | x | b <;> simp [parser.compare_variables]
    exact absurd rfl (h b)
  · intro x r h
    rcases r with v | l | y | b <;> simp [parser.compare_variables]
    exact absurd rfl (h y)
  · intro v r h
    rcases r with w | l | y | b <;> simp [parser.compare_variables]
    exact absurd rfl (h w)
  · intro E fuel rules i c gl node cc L R cmp rls lv rv hr hadv hl hrv hnot
    obtain ⟨hlen, hrule⟩ := List.getElem?_eq_some.mp hr
    simp only [parser.parse_rules, dif_pos hlen, hrule]
    simp [parser.advance_cursor, hadv, hl, hrv, hnot, parser.handle_messages]
  · intro E fuel rules i c gl node cc L R cmp rls lv rv hr hadv hl hrv hmem
    obtain ⟨hlen, hrule⟩ := List.getElem?_eq_some.mp hr
    simp only [parser.parse_rules, dif_pos hlen, hrule]
    simp [parser.advance_cursor, hadv, hl, hrv, hmem, parser.handle_messages]

namespace parser

/-- Fixture: a node with two Number variables both holding 1. -/
def cmpNode : Node := Node.mk "C" [.Number 1, .Number 1] 0 0 false none ⟨0, 0⟩

/-- Fixture: a Compare rule on Equal whose children raise an error. -/
def cmpRules : List grammar.Rule :=
  [.Command (.Compare (.Local 0) (.Local 1) .Equal [.Command (.Error "ran")])]

/-- Fixture: a Compare rule on GreaterThan whose children raise an error. -/
def cmpRulesSkip : List grammar.Rule :=
  [.Command (.Compare (.Local 0) (.Local 1) .GreaterThan
    [.Command (.Error "ran")])]

end parser

/-- Witness for C7: with both operands Number 1, an Equal comparison runs
the children (the error they raise surfaces) while a GreaterThan
comparison skips them. -/
theorem C7_witness :
    parser.parse_rules parser.Eok 3 parser.cmpRules 0 ⟨0, false⟩ []
        parser.cmpNode ⟨0, false⟩ =
      (.err ⟨.Message "ran", ⟨0, 0⟩, some parser.cmpNode⟩, ⟨0, false⟩, [],
        parser.cmpNode) ∧
    parser.parse_rules parser.Eok 3 parser.cmpRulesSkip 0 ⟨0, false⟩ []
        parser.cmpNode ⟨0, false⟩ =
      (.ok .Ok, ⟨0, false⟩, [], parser.cmpNode) := by
  constructor
  · exact (C7_compare_semantics.2.2.2.2.2.2.2.2 parser.Eok 2 parser.cmpRules 0
      ⟨0, false⟩ [] parser.cmpNode ⟨0, false⟩ (.Local 0) (.Local 1) .Equal
      [.Command (.Error "ran")] (.Number 1) (.Number 1) rfl rfl rfl rfl
      (by decide)).trans (by rfl)
  · exact (C7_compare_semantics.2.2.2.2.2.2.2.1 parser.Eok 2 parser.cmpRulesSkip
      0 ⟨0, false⟩ [] parser.cmpNode ⟨0, false⟩ (.Local 0) (.Local 1)
      .GreaterThan [.Command (.Error "ran")] (.Number 1) (.Number 1) rfl rfl
      rfl rfl (by decide)).trans (by rfl)

namespace parser

lemma rule_is_label_iff (r : grammar.Rule) (label : String) :
    rule_is_label r label = true ↔ r = .Command (.Label label) := by
  cases r with
  | Command cmd => cases cmd <;> simp [rule_is_label]
  | _ => simp [rule_is_label]

lemma find_label_spec (label : String) :
    ∀ (rules : List grammar.Rule) (j : Nat),
      find_label rules label = some j →
      rules[j]? = some (.Command (.Label label)) := by
  intro rules
  induction rules with
  | nil => intro j h; simp [find_label] at h
  | cons r rest ih =>
    intro j h
    by_cases hl : rule_is_label r label
    · simp [find_label, hl] at h
      subst h
      simpa using (rule_is_label_iff r label).mp hl
    · simp [find_label, hl] at h
      obtain ⟨j1, hj1, rfl⟩ := h
      simpa using ih j1 hj1

/-- The node value built by parse_node before its rules run: the fresh node
from the grammar with first_string_idx set from the token under the
cursor. -/
def node_init (gn : grammar.Node) (t0 : Token) : Node :=
  (((Node.new gn.name).with_vars
    (variables_from_grammar gn.vars)).with_docs gn.docs).with_first t0.index

/-- The end-of-span default applied by parse_node when the node did not set
last_string_idx, at a final cursor that is in bounds. -/
def node_fix (node1 : Node) (t1 : Token) : Node :=
  if node1.last_string_idx = 0 then node1.with_last (t1.index + t1.len)
  else node1

end parser

/-- C6: after each rule iteration the message bus is drained: Return exits
parse_rules so the enclosing node returns successfully; Break(n) exits the
current rule list when n = 1 and otherwise propagates Break(n-1); Back(k)
moves the rule index back by k when k is at most the index and otherwise
propagates Back(k - i); Goto(label) jumps to the first Label command with
that name in the current rule list and propagates when there is none; and
a Break, Back or Goto that reaches the top of a node's rule list makes
parse_node fail with CannotBreak, CannotGoBack or LabelNotFound. -/
theorem C6_message_bus :
    (∀ (rest : parser.MsgBus) (i : Nat) (rules : List grammar.Rule),
        parser.handle_messages (.Return :: rest) i rules = .exit .Return) ∧
    (∀ (n : Nat) rest (i : Nat) (rules : List grammar.Rule),
        parser.handle_messages (.Break n :: rest) i rules =
          if n = 1 then .exit .Ok else .exit (.Break (n - 1))) ∧
    (∀ (k : Nat) rest (i : Nat) (rules : List grammar.Rule), k ≤ i →
        parser.handle_messages (.Back k :: rest) i rules =
          parser.handle_messages rest (i - k) rules) ∧
    (∀ (k : Nat) rest (i : Nat) (rules : List grammar.Rule), i < k →
        parser.handle_messages (.Back k :: rest) i rules =
          .exit (.Back (k - i))) ∧
    (∀ (l : String) rest (i : Nat) (rules : List grammar.Rule) (j : Nat),
        parser.find_label rules l = some j →
        parser.handle_messages (.Goto l :: rest) i rules =
          parser.handle_messages rest j rules) ∧
    (∀ (l : String) rest (i : Nat) (rules : List grammar.Rule),
        parser.find_label rules l = none →
        parser.handle_messages (.Goto l :: rest) i rules = .exit (.Goto l)) ∧
    (∀ (rules : List grammar.Rule) (l : String) (j : Nat),
        parser.find_label rules l = some j →
        rules[j]? = some (.Command (.Label l))) ∧
    (∀ (E : parser.Env) (fuel k : Nat) (c : parser.Cursor)
        (gl : parser.Globals) (gn : grammar.Node) (t0 : Token)
        (c1 : parser.Cursor) (gl1 : parser.Globals) (node1 : parser.Node),
        E.gr.nodes[k]? = some gn → E.toks[c.idx]? = some t0 →
        (∀ t1, E.toks[c1.idx]? = some t1 →
          (parser.parse_rules E fuel gn.rules 0 c gl (parser.node_init gn t0) c =
              (.ok .Return, c1, gl1, node1) →
            parser.parse_node E (fuel + 1) k c gl =
              (.ok (parser.node_fix node1 t1), c1, gl1)) ∧
          (∀ n, parser.parse_rules E fuel gn.rules 0 c gl
                (parser.node_init gn t0) c = (.ok (.Break n), c1, gl1, node1) →
            parser.parse_node E (fuel + 1) k c gl =
              (.err ⟨.CannotBreak n, t1.location, some (parser.node_fix node1 t1)⟩
                (parser.node_fix node1 t1), c1, gl1)) ∧
          (∀ steps, parser.parse_rules E fuel gn.rules 0 c gl
                (parser.node_init gn t0) c = (.ok (.Back steps), c1, gl1, node1) →
            parser.parse_node E (fuel + 1) k c gl =
              (.err ⟨.CannotGoBack steps, t1.location,
                  some (parser.node_fix node1 t1)⟩
                (parser.node_fix node1 t1), c1, gl1)) ∧
          (∀ l, parser.parse_rules E fuel gn.rules 0 c gl
                (parser.node_init gn t0) c = (.ok (.Goto l), c1, gl1, node1) →
            parser.parse_node E (fuel + 1) k c gl =
              (.err ⟨.LabelNotFound l, t1.location,
                  some (parser.node_fix node1 t1)⟩
                (parser.node_fix node1 t1), c1, gl1)))) := by
  refine ⟨fun _ _ _ => rfl, fun n rest i rules => rfl, ?_, ?_, ?_, ?_,
    fun rules l j h => parser.find_label_spec l rules j h, ?_⟩
  · intro k rest i rules h
    simp [parser.handle_messages, Nat.not_lt.mpr h]
  · intro k rest i rules h
    simp [parser.handle_messages, h]
  · intro l rest i rules j h
    simp [parser.handle_messages, h]
  · intro l rest i rules h
    simp [parser.handle_messages, h]
  · intro E fuel k c gl gn t0 c1 gl1 node1 hk ht0 t1 ht1
    have hlt : c1.idx < E.toks.length := (List.getElem?_eq_some.mp ht1).1
    refine ⟨?_, ?_, ?_, ?_⟩
    · intro hpr
      simp only [parser.parse_node, parser.Node.from_grammar, hk, ht0,
        parser.node_init] at *
      rw [hpr]
      simp only [parser.node_fix]
      by_cases hz : node1.last_string_idx = 0
      · simp [hz, Nat.not_le.mpr hlt, ht1]
      · simp [hz, ht1]
    · intro n hpr
      simp only [parser.parse_node, parser.Node.from_grammar, hk, ht0,
        parser.node_init] at *
      rw [hpr]
      simp only [parser.node_fix]
      by_cases hz : node1.last_string_idx = 0
      · simp [hz, Nat.not_le.mpr hlt, ht1]
      · simp [hz, ht1]
    · intro steps hpr
      simp only [parser.parse_node, parser.Node.from_grammar, hk, ht0,
        parser.node_init] at *
      rw [hpr]
      simp only [parser.node_fix]
      by_cases hz : node1.last_string_idx = 0
      · simp [hz, Nat.not_le.mpr hlt, ht1]
      · simp [hz, ht1]
    · intro l hpr
      simp only [parser.parse_node, parser.Node.from_grammar, hk, ht0,
        parser.node_init] at *
      rw [hpr]
      simp only [parser.node_fix]
      by_cases hz : node1.last_string_idx = 0
      · simp [hz, Nat.not_le.mpr hlt, ht1]
      · simp [hz, ht1]

namespace parser

/-- Fixture: a node whose single rule matches a Text token and then sends
Break(2), which cannot be handled inside the node. -/
def gnBrk : grammar.Node := ⟨"B", [.Is (.Token .Text) [] [.Break 2]], [], none⟩

/-- Fixture: environment around gnBrk. -/
def Ebrk : Env :=
  ⟨⟨some 0, false⟩, ⟨[gnBrk], [], [], false⟩, [fxText, fxWs, fxEof], "a "⟩

end parser

/-- Witness for C6 at concrete inputs: drain steps and the CannotBreak
conversion on a concrete grammar. -/
theorem C6_witness :
    parser.handle_messages [.Return] 0 [] = .exit .Return ∧
    parser.handle_messages [.Break 2] 3 [] = .exit (.Break 1) ∧
    parser.handle_messages [.Back 2] 5 [] = parser.handle_messages [] 3 [] ∧
    parser.parse_node parser.Ebrk 6 0 ⟨0, false⟩ [] =
      (.err ⟨.CannotBreak 1, ⟨0, 0⟩,
          some (parser.node_fix (parser.node_init parser.gnBrk parser.fxText)
            parser.fxText)⟩
        (parser.node_fix (parser.node_init parser.gnBrk parser.fxText)
          parser.fxText), ⟨0, true⟩, []) :=
  ⟨C6_message_bus.1 [] 0 [],
    (C6_message_bus.2.1 2 [] 3 []).trans (by decide),
    C6_message_bus.2.2.1 2 [] 5 [] (by decide),
    (C6_message_bus.2.2.2.2.2.2.2 parser.Ebrk 5 0 ⟨0, false⟩ [] parser.gnBrk
        parser.fxText ⟨0, true⟩ [] (parser.node_init parser.gnBrk parser.fxText)
        rfl rfl parser.fxText rfl).2.1 1 rfl⟩

namespace parser

lemma skip_ws_eq (toks : List Token) (i : Nat) :
    skip_ws toks i =
      match toks[i]? with
      | none => none
      | some t => if t.kind.is_whitespace then skip_ws toks (i + 1) else some i := by
  rcases h : toks[i]? with _ | t
  · have hlen : toks.length ≤ i := by
      by_contra hlt
      simp [List.getElem?_eq_getElem (Nat.lt_of_not_le hlt)] at h
    simp [skip_ws, List.drop_eq_nil_of_le hlen, skip_ws_aux]
  · obtain ⟨hlt, hget⟩ := List.getElem?_eq_some.mp h
    have hdrop : toks.drop i = toks[i] :: toks.drop (i + 1) :=
      List.drop_eq_getElem_cons hlt
    simp [skip_ws, hdrop, hget, skip_ws_aux]

lemma skip_ws_spec (d : Nat) :
    ∀ (toks : List Token) (i j : Nat), toks.length - i ≤ d →
      skip_ws toks i = some j →
      i ≤ j ∧ (∃ t, toks[j]? = some t ∧ t.kind.is_whitespace = false) ∧
        (∀ m, i ≤ m → m < j →
          ∃ u, toks[m]? = some u ∧ u.kind.is_whitespace = true) := by
  induction d with
  | zero =>
    intro toks i j hd h
    rw [skip_ws_eq] at h
    rcases ht : toks[i]? with _ | t
    · rw [ht] at h; exact absurd h (by simp)
    · have := (List.getElem?_eq_some.mp ht).1
      omega
  | succ d ih =>
    intro toks i j hd h
    rw [skip_ws_eq] at h
    rcases ht : toks[i]? with _ | t
    · rw [ht] at h; exact absurd h (by simp)
    · by_cases hw : t.kind.is_whitespace
      · simp only [ht, hw, if_true] at h
        have hlt := (List.getElem?_eq_some.mp ht).1
        obtain ⟨h1, h2, h3⟩ := ih toks (i + 1) j (by omega) h
        refine ⟨by omega, h2, ?_⟩
        intro m hm1 hm2
        rcases Nat.eq_or_lt_of_le hm1 with rfl | hm1
        · exact ⟨t, ht, hw⟩
        · exact h3 m hm1 hm2
      · simp only [ht, hw, if_false, Bool.false_eq_true, Option.some.injEq] at h
        subst h
        exact ⟨Nat.le_refl _, ⟨t, ht, by simpa using hw⟩,
          fun m h1 h2 => absurd h2 (by omega)⟩

end parser

namespace parser

/-- Fixture: a stream starting with whitespace, then a Text token. -/
def Ews : Env :=
  ⟨⟨none, false⟩, ⟨[], [], [], false⟩, [fxWs, fxText2, fxEof], "  a"⟩

end parser

/-- Counterexample to C3 as stated: matching the registered token x
against a stream that starts with whitespace fails, yet the cursor is not
restored to its value before the match attempt: the whitespace skip
persists and the cursor ends on the Text token at index 1. -/
theorem C3_counterexample :
    parser.match_token parser.Ews 5 (.Token (.Token "x")) ⟨0, false⟩ []
        ⟨0, false⟩ =
      (.ok (.IsNot ⟨.ExpectedToken (.Token "x") .Text, ⟨0, 2⟩, none⟩),
        ⟨1, false⟩, []) ∧
    (⟨1, false⟩ : parser.Cursor) ≠ ⟨0, false⟩ :=
  ⟨rfl, by decide⟩

/-- C3 amended: for token-kind and word matches with the cursor in bounds
and the whitespace peek stopping at index j, the peek skips exactly the
leading whitespace tokens; on a successful match the cursor advances by
the peek offset to the matched token, and on a failed match the cursor
likewise stays at the first non-whitespace token (the skip is not undone);
the match succeeds iff the token there has the requested kind
(respectively is a Text token whose slice equals the word). -/
theorem C3_whitespace_peek :
    ∀ (E : parser.Env) (fuel : Nat) (tk : TokenKinds) (w : String)
      (c : parser.Cursor) (gl : parser.Globals) (cc : parser.Cursor)
      (j : Nat) (cur : Token),
      c.idx < E.toks.length →
      parser.skip_ws E.toks c.idx = some j →
      E.toks[j]? = some cur →
      (c.idx ≤ j ∧ cur.kind.is_whitespace = false ∧
        (∀ m, c.idx ≤ m → m < j →
          ∃ u, E.toks[m]? = some u ∧ u.kind.is_whitespace = true)) ∧
      ((parser.match_token E (fuel + 1) (.Token tk) c gl cc).2.1 =
          ⟨j, c.to_advance⟩ ∧
        ((∃ v, (parser.match_token E (fuel + 1) (.Token tk) c gl cc).1 =
            .ok (.Is v)) ↔ tk = cur.kind)) ∧
      ((parser.match_token E (fuel + 1) (.Word w) c gl cc).2.1 =
          ⟨j, c.to_advance⟩ ∧
        ((∃ v, (parser.match_token E (fuel + 1) (.Word w) c gl cc).1 =
            .ok (.Is v)) ↔
          (cur.kind = .Text ∧ stringify E.text cur = w))) := by
  intro E fuel tk w c gl cc j cur hin hskip hcur
  obtain ⟨hle, ⟨t0, ht0, hws0⟩, hpre⟩ :=
    parser.skip_ws_spec E.toks.length E.toks c.idx j (by omega) hskip
  have hcur0 : t0 = cur := by rw [ht0] at hcur; exact Option.some.injEq _ _ ▸ hcur
  subst hcur0
  refine ⟨⟨hle, hws0, hpre⟩, ?_, ?_⟩
  · have hnotge : ¬ c.idx ≥ E.toks.length := by omega
    by_cases heq : tk = t0.kind
    · constructor
      · simp [parser.match_token, hnotge, hskip, hcur, heq]
      · simp [parser.match_token, hnotge, hskip, hcur, heq]
    · constructor
      · simp [parser.match_token, hnotge, hskip, hcur, heq]
      · simp [parser.match_token, hnotge, hskip, hcur, heq]
  · rcases hk : t0.kind with nm | _ | _ | ck
    · constructor
      · simp [parser.match_token, hskip, hcur, hk]
      · simp [parser.match_token, hskip, hcur, hk]
    · by_cases hs : stringify E.text t0 = w
      · constructor
        · simp [parser.match_token, hskip, hcur, hk, hs]
        · simp [parser.match_token, hskip, hcur, hk, hs]
      · constructor
        · simp [parser.match_token, hskip, hcur, hk, Ne.symm hs]
        · simp [parser.match_token, hskip, hcur, hk, hs, Ne.symm hs]
    · constructor
      · simp [parser.match_token, hskip, hcur, hk]
      · simp [parser.match_token, hskip, hcur, hk]
    · constructor
      · simp [parser.match_token, hskip, hcur, hk]
      · simp [parser.match_token, hskip, hcur, hk]

/-- Witness for C3 at a concrete stream: the peek skips the leading
whitespace token, the failed token match leaves the cursor at index 1, and
a word match for the actual text succeeds there. -/
theorem C3_witness :
    (0 ≤ 1 ∧ parser.fxText2.kind.is_whitespace = false ∧
      (∀ m, 0 ≤ m → m < 1 →
        ∃ u, parser.Ews.toks[m]? = some u ∧ u.kind.is_whitespace = true)) ∧
    ((parser.match_token parser.Ews 5 (.Token (.Token "x")) ⟨0, false⟩ []
        ⟨0, false⟩).2.1 = ⟨1, false⟩ ∧
      ((∃ v, (parser.match_token parser.Ews 5 (.Token (.Token "x")) ⟨0, false⟩
          [] ⟨0, false⟩).1 = .ok (.Is v)) ↔
        TokenKinds.Token "x" = parser.fxText2.kind)) ∧
    ((parser.match_token parser.Ews 5 (.Word "a") ⟨0, false⟩ []
        ⟨0, false⟩).2.1 = ⟨1, false⟩ ∧
      ((∃ v, (parser.match_token parser.Ews 5 (.Word "a") ⟨0, false⟩ []
          ⟨0, false⟩).1 = .ok (.Is v)) ↔
        (parser.fxText2.kind = .Text ∧
          stringify parser.Ews.text parser.fxText2 = "a"))) :=
  C3_whitespace_peek parser.Ews 4 (.Token "x") "a" ⟨0, false⟩ [] ⟨0, false⟩ 1
    parser.fxText2 (by decide) rfl rfl

namespace parser

/-- Fixture: the Control(EOF) token of a two-token stream. -/
def fxEof1 : Token := ⟨.Control .Eof, 1, 0, ⟨0, 1⟩⟩

/-- Fixture: a node scanning with Until for a token that never appears. -/
def Euntil : Env :=
  ⟨⟨some 0, false⟩, ⟨[⟨"U", [.Until (.Token (.Token "q")) [] []], [], none⟩],
    [], [], false⟩, [fxText, fxEof1], "a"⟩

/-- Fixture: a node scanning with UntilOneOf for a token that never
appears. -/
def Euoo : Env :=
  ⟨⟨some 0, false⟩, ⟨[⟨"U", [.UntilOneOf [.mk (.Token (.Token "q")) [] []]],
    [], none⟩], [], [], false⟩, [fxText, fxEof1], "a"⟩

end parser

/-- C5: at end of stream the Until rule raises CouldNotFindToken as the
claim states, but the UntilOneOf rule does not: its not-found path reads
tokens at the now out-of-range cursor (src/src/parser.rs line 911,
cursor.idx equal to tokens.len() after the scan loop), which panics in
Rust; the claim is right about the intended behavior and the code is wrong
for UntilOneOf. -/
theorem C5_until_eos :
    parser.parse parser.Euntil 20 =
      .err ⟨.CouldNotFindToken (.Token (.Token "q")), ⟨0, 1⟩,
        some (parser.Node.mk "U" [] 0 0 false none ⟨0, 0⟩)⟩ ∧
    parser.parse parser.Euoo 20 = .panic :=
  ⟨rfl, rfl⟩

namespace parser

lemma cursor_bump_idx (c1 : Cursor) :
    (if c1.to_advance then (⟨c1.idx + 1, false⟩ : Cursor) else c1).idx =
      if c1.to_advance then c1.idx + 1 else c1.idx := by
  by_cases h : c1.to_advance <;> simp [h]

lemma consume_ws_eq (toks : List Token) (i : Nat) :
    consume_ws toks i =
      match toks[i]? with
      | none => i
      | some t => if t.kind.is_whitespace then consume_ws toks (i + 1) else i := by
  rcases h : toks[i]? with _ | t
  · have hlen : toks.length ≤ i := by
      by_contra hlt
      simp [List.getElem?_eq_getElem (Nat.lt_of_not_le hlt)] at h
    simp [consume_ws, List.drop_eq_nil_of_le hlen, consume_ws_aux]
  · obtain ⟨hlt, hget⟩ := List.getElem?_eq_some.mp h
    have hdrop : toks.drop i = toks[i] :: toks.drop (i + 1) :=
      List.drop_eq_getElem_cons hlt
    simp [consume_ws, hdrop, hget, consume_ws_aux]

lemma consume_ws_spec (d : Nat) :
    ∀ (toks : List Token) (i : Nat), toks.length - i ≤ d →
      i ≤ consume_ws toks i ∧
      (∀ m, i ≤ m → m < consume_ws toks i →
        ∃ u, toks[m]? = some u ∧ u.kind.is_whitespace = true) ∧
      (∀ t, toks[consume_ws toks i]? = some t →
        t.kind.is_whitespace = false) := by
  induction d with
  | zero =>
    intro toks i hd
    have hnone : toks[i]? = none := List.getElem?_eq_none (by omega)
    have heq : consume_ws toks i = i := by
      rw [consume_ws_eq]; simp [hnone]
    rw [heq]
    exact ⟨Nat.le_refl _, fun m h1 h2 => absurd h2 (by omega),
      fun t ht => by rw [hnone] at ht; cases ht⟩
  | succ d ih =>
    intro toks i hd
    rcases ht : toks[i]? with _ | t
    · have heq : consume_ws toks i = i := by
        rw [consume_ws_eq]; simp [ht]
      rw [heq]
      exact ⟨Nat.le_refl _, fun m h1 h2 => absurd h2 (by omega),
        fun u hu => by rw [ht] at hu; cases hu⟩
    · by_cases hw : t.kind.is_whitespace
      · have heq : consume_ws toks i = consume_ws toks (i + 1) := by
          rw [consume_ws_eq]; simp [ht, hw]
        have hlt := (List.getElem?_eq_some.mp ht).1
        obtain ⟨h1, h2, h3⟩ := ih toks (i + 1) (by omega)
        rw [heq]
        refine ⟨by omega, ?_, h3⟩
        intro m hm1 hm2
        rcases Nat.eq_or_lt_of_le hm1 with rfl | hm1
        · exact ⟨t, ht, hw⟩
        · exact h2 m hm1 hm2
      · have heq : consume_ws toks i = i := by
          rw [consume_ws_eq]; simp [ht, hw]
        rw [heq]
        refine ⟨Nat.le_refl _, fun m h1 h2 => absurd h2 (by omega), ?_⟩
        intro u hu
        rw [ht] at hu
        cases hu
        simpa using hw

end parser

/-- C4: with the grammar eof flag set, once the entry node has finished
(and the pending advance has been consumed), the tokens skipped by the
residual-whitespace loop are all whitespace, the token it stops on is not
whitespace, and parse returns Ok if and only if that first offending
non-whitespace token is the Control(EOF) token; otherwise parse returns
MissingEof carrying that token's kind and location, with the entry node
attached. -/
theorem C4_missing_eof :
    ∀ (E : parser.Env) (fuel k : Nat) (node : parser.Node)
      (c1 : parser.Cursor) (gl1 : parser.Globals) (t : Token),
      E.p.entry = some k →
      E.gr.eof = true →
      parser.parse_node E fuel k ⟨0, false⟩
          (parser.variables_from_grammar E.gr.globals) = (.ok node, c1, gl1) →
      E.toks[parser.consume_ws E.toks
          (if c1.to_advance then c1.idx + 1 else c1.idx)]? = some t →
      ((∀ m, (if c1.to_advance then c1.idx + 1 else c1.idx) ≤ m →
          m < parser.consume_ws E.toks
            (if c1.to_advance then c1.idx + 1 else c1.idx) →
          ∃ u, E.toks[m]? = some u ∧ u.kind.is_whitespace = true) ∧
        t.kind.is_whitespace = false) ∧
      ((∃ r, parser.parse E fuel = .ok r) ↔ t.kind = .Control .Eof) ∧
      (t.kind ≠ .Control .Eof →
        parser.parse E fuel = .err ⟨.MissingEof t.kind, t.location, some node⟩) := by
  intro E fuel k node c1 gl1 t hE heof hpn ht
  obtain ⟨hge, hpre, hstop⟩ := parser.consume_ws_spec E.toks.length E.toks
    (if c1.to_advance then c1.idx + 1 else c1.idx) (by omega)
  refine ⟨⟨hpre, hstop t ht⟩, ?_, ?_⟩
  · rcases hk : t.kind with nm | _ | _ | ck
    · simp only [parser.parse, hE, hpn, heof, parser.cursor_bump_idx, ht, hk]
      simp
    · simp only [parser.parse, hE, hpn, heof, parser.cursor_bump_idx, ht, hk]
      simp
    · simp only [parser.parse, hE, hpn, heof, parser.cursor_bump_idx, ht, hk]
      simp
    · cases ck with
      | Eol =>
        simp only [parser.parse, hE, hpn, heof, parser.cursor_bump_idx, ht, hk]
        simp
      | Eof =>
        simp only [parser.parse, hE, hpn, heof, parser.cursor_bump_idx, ht, hk]
        simp
  · intro hne
    rcases hk : t.kind with nm | _ | _ | ck
    · simp only [parser.parse, hE, hpn, heof, parser.cursor_bump_idx, ht, hk]
      simp
    · simp only [parser.parse, hE, hpn, heof, parser.cursor_bump_idx, ht, hk]
      simp
    · simp only [parser.parse, hE, hpn, heof, parser.cursor_bump_idx, ht, hk]
      simp
    · cases ck with
      | Eol =>
        simp only [parser.parse, hE, hpn, heof, parser.cursor_bump_idx, ht, hk]
        simp
      | Eof => exact absurd hk hne

namespace parser

/-- Fixture: an entry node with no rules against a stream holding one Text
token, with eof checking enabled. -/
def EeofT : Env :=
  ⟨⟨some 0, false⟩, ⟨[⟨"N", [], [], none⟩], [], [], true⟩,
    [fxText, fxEof1], "a"⟩

end parser

/-- Witness for C4: the no-op entry leaves the Text token unconsumed, so
parse fails with MissingEof carrying that token. -/
theorem C4_witness :
    ((∀ m, (if (⟨0, false⟩ : parser.Cursor).to_advance then 0 + 1 else 0) ≤ m →
        m < parser.consume_ws parser.EeofT.toks
          (if (⟨0, false⟩ : parser.Cursor).to_advance then 0 + 1 else 0) →
        ∃ u, parser.EeofT.toks[m]? = some u ∧ u.kind.is_whitespace = true) ∧
      parser.fxText.kind.is_whitespace = false) ∧
    ((∃ r, parser.parse parser.EeofT 10 = .ok r) ↔
      parser.fxText.kind = .Control .Eof) ∧
    (parser.fxText.kind ≠ .Control .Eof →
      parser.parse parser.EeofT 10 =
        .err ⟨.MissingEof parser.fxText.kind, parser.fxText.location,
          some (parser.Node.mk "N" [] 0 1 false none ⟨0, 0⟩)⟩) :=
  C4_missing_eof parser.EeofT 10 0 (parser.Node.mk "N" [] 0 1 false none ⟨0, 0⟩)
    ⟨0, false⟩ [] parser.fxText rfl rfl rfl rfl

namespace grammar_rs

/-- Variable references of the string-keyed grammar iteration in
src/src/grammar.rs lines 162-166. -/
inductive VarKind where
  | Local (name : String)
  | Global (name : String)
deriving DecidableEq, Repr

/-- Parameters from src/src/grammar.rs lines 306-348, including the Hint
parameter (line 347, documented there as a hint displayed inside an error
message). -/
inductive Parameters where
  | Set (v : VarKind)
  | Increment (v : VarKind)
  | Decrement (v : VarKind)
  | True (v : VarKind)
  | False (v : VarKind)
  | Print (s : String)
  | Debug (v : Option VarKind)
  | Back (n : Nat)
  | Return
  | Break (n : Nat)
  | Commit (b : Bool)
  | Goto (l : String)
  | NodeStart
  | NodeEnd
  | Hint (s : String)
deriving DecidableEq, Repr

end grammar_rs

namespace hinted

/-- Modelled from the spec: the parse-error record of the final parser
iteration, whose declaring module is not under src (src/src/format.rs
lines 92-101 read its hint field): kind, text location, optional offending
node, optional hint (spec section 6). -/
structure ParseError where
  kind : parser.ParseErrors
  location : TextLocation
  node : Option parser.Node
  hint : Option String

/-- Modelled from the spec: the first Hint(string) parameter encountered
during rule processing for a particular match (spec section 4.4). -/
def first_hint : List grammar_rs.Parameters → Option String
  | [] => none
  | .Hint s :: _ => some s
  | _ :: rest => first_hint rest

/-- Modelled from the spec: processing the parameters of a match while
recording a hint; a hint already recorded for this match is kept, so the
first Hint encountered wins. -/
def record_hints : List grammar_rs.Parameters → Option String → Option String
  | [], acc => acc
  | .Hint s :: rest, none => record_hints rest (some s)
  | .Hint _ :: rest, some h => record_hints rest (some h)
  | p :: rest, acc =>
    match p with
    | .Hint _ => record_hints rest acc
    | _ => record_hints rest acc

/-- Modelled from the spec: a subsequent error produced by the match
carries the recorded hint (an error that already has one keeps it). -/
def attach_hint (recorded : Option String) (e : ParseError) : ParseError :=
  match e.hint with
  | some _ => e
  | none => { e with hint := recorded }

end hinted

/-- C8: a Hint(string) parameter encountered while processing a match is
recorded (the first one wins, later parameters never override it) and is
attached to any subsequent parse error produced by that match, and every
such error value exposes an optional hint alongside its kind, text
location and optional offending node. -/
theorem C8_hint_recording :
    (∀ (ps : List grammar_rs.Parameters),
        hinted.record_hints ps none = hinted.first_hint ps) ∧
    (∀ s rest, hinted.first_hint (.Hint s :: rest) = some s) ∧
    (∀ (p : grammar_rs.Parameters) rest, (∀ s, p ≠ .Hint s) →
        hinted.first_hint (p :: rest) = hinted.first_hint rest) ∧
    (∀ (ps : List grammar_rs.Parameters) (e : hinted.ParseError),
        e.hint = none →
        (hinted.attach_hint (hinted.first_hint ps) e).hint =
          hinted.first_hint ps) ∧
    (∀ e : hinted.ParseError, e = ⟨e.kind, e.location, e.node, e.hint⟩) := by
  refine ⟨?_, fun s rest => rfl, ?_, ?_, fun e => rfl⟩
  · intro ps
    have general : ∀ (ps : List grammar_rs.Parameters) (h : String),
        hinted.record_hints ps (some h) = some h := by
      intro ps
      induction ps with
      | nil => intro h; rfl
      | cons p rest ih => intro h; cases p <;> simp [hinted.record_hints, ih]
    induction ps with
    | nil => rfl
    | cons p rest ih =>
      cases p <;> simp [hinted.record_hints, hinted.first_hint, ih, general]
  · intro p rest h
    cases p <;> simp [hinted.first_hint]
    exact absurd rfl (h _)
  · intro ps e he
    simp [hinted.attach_hint, he]

/-- Witness for C8: a concrete parameter list where the first Hint wins
and is attached to a concrete hintless error. -/
theorem C8_witness :
    hinted.record_hints
        [.Commit true, .Hint "close it", .Set (.Local "x"), .Hint "later"]
        none =
      hinted.first_hint
        [.Commit true, .Hint "close it", .Set (.Local "x"), .Hint "later"] ∧
    hinted.first_hint
        ((.Commit true : grammar_rs.Parameters) ::
          [.Hint "close it", .Set (.Local "x"), .Hint "later"]) =
      hinted.first_hint [.Hint "close it", .Set (.Local "x"), .Hint "later"] ∧
    (hinted.attach_hint
        (hinted.first_hint
          [.Commit true, .Hint "close it", .Set (.Local "x"), .Hint "later"])
        ⟨.MissingEntry, ⟨0, 0⟩, none, none⟩).hint =
      hinted.first_hint
        [.Commit true, .Hint "close it", .Set (.Local "x"), .Hint "later"] :=
  ⟨C8_hint_recording.1 _,
    C8_hint_recording.2.2.1 (.Commit true) _ (fun s => by simp),
    C8_hint_recording.2.2.2.1 _ ⟨.MissingEntry, ⟨0, 0⟩, none, none⟩ rfl⟩

/-- C1: a failure raised while parsing a child node whose commit flag is
set becomes a thrown (hard) error in match_token, and a thrown match error
propagates out of every optional matcher - Maybe (which does not run its
isnt block), MaybeOneOf, IsOneOf alternatives, While, and enumerator
alternatives - making the enclosing parse_rules fail; likewise a
recoverable IsNot whose error carries a committed node is re-raised by all
of these contexts rather than treated as a no-match. -/
theorem C1_commit_propagation :
    (∀ (E : parser.Env) (fuel k : Nat) (c : parser.Cursor)
        (gl : parser.Globals) (cc : parser.Cursor) (e : parser.ParseError)
        (nd : parser.Node) (c1 : parser.Cursor) (gl1 : parser.Globals),
        parser.parse_node E fuel k c gl = (.err e nd, c1, gl1) →
        nd.harderror = true →
        parser.match_token E (fuel + 1) (.Node k) c gl cc = (.err e, c1, gl1)) ∧
    (∀ (E : parser.Env) (fuel : Nat) (rules : List grammar.Rule) (i : Nat)
        (tok : grammar.MatchToken) (isr isntr : List grammar.Rule)
        (ps : List grammar.Parameters) (c : parser.Cursor)
        (gl : parser.Globals) (node : parser.Node) (cc : parser.Cursor)
        (e : parser.ParseError) (c1 : parser.Cursor) (gl1 : parser.Globals),
        rules[i]? = some (.Maybe tok isr isntr ps) → c.to_advance = false →
        parser.match_token E fuel tok c gl cc = (.err e, c1, gl1) →
        parser.parse_rules E (fuel + 1) rules i c gl node cc =
          (.err e, c1, gl1, node)) ∧
    (∀ (E : parser.Env) (fuel : Nat) (rules : List grammar.Rule) (i : Nat)
        (tok : grammar.MatchToken) (isr isntr : List grammar.Rule)
        (ps : List grammar.Parameters) (c : parser.Cursor)
        (gl : parser.Globals) (node : parser.Node) (cc : parser.Cursor)
        (e : parser.ParseError) (n : parser.Node) (c1 : parser.Cursor)
        (gl1 : parser.Globals),
        rules[i]? = some (.Maybe tok isr isntr ps) → c.to_advance = false →
        parser.match_token E fuel tok c gl cc = (.ok (.IsNot e), c1, gl1) →
        e.node = some n → n.harderror = true →
        parser.parse_rules E (fuel + 1) rules i c gl node cc =
          (.err e, c1, gl1, node)) ∧
    (∀ (E : parser.Env) (fuel : Nat) (rules : List grammar.Rule) (i : Nat)
        (tok : grammar.MatchToken) (rls : List grammar.Rule)
        (ps : List grammar.Parameters) (c : parser.Cursor)
        (gl : parser.Globals) (node : parser.Node) (cc : parser.Cursor)
        (e : parser.ParseError) (c1 : parser.Cursor) (gl1 : parser.Globals),
        rules[i]? = some (.While tok rls ps) → c.to_advance = false →
        parser.match_token E fuel tok c gl cc = (.err e, c1, gl1) →
        parser.parse_rules E (fuel + 1) rules i c gl node cc =
          (.err e, c1, gl1, node)) ∧
    (∀ (E : parser.Env) (fuel : Nat) (rules : List grammar.Rule) (i : Nat)
        (tok : grammar.MatchToken) (rls : List grammar.Rule)
        (ps : List grammar.Parameters) (c : parser.Cursor)
        (gl : parser.Globals) (node : parser.Node) (cc : parser.Cursor)
        (e : parser.ParseError) (n : parser.Node) (c1 : parser.Cursor)
        (gl1 : parser.Globals),
        rules[i]? = some (.While tok rls ps) → c.to_advance = false →
        parser.match_token E fuel tok c gl cc = (.ok (.IsNot e), c1, gl1) →
        e.node = some n → n.harderror = true →
        parser.parse_rules E (fuel + 1) rules i c gl node cc =
          (.err e, c1, gl1, node)) ∧
    (∀ (E : parser.Env) (fuel : Nat) (tok : grammar.MatchToken)
        (rls : List grammar.Rule) (ps : List grammar.Parameters)
        (rest : List grammar.OneOf) (c : parser.Cursor) (gl : parser.Globals)
        (node : parser.Node) (cc : parser.Cursor) (bus : parser.MsgBus)
        (e : parser.ParseError) (c1 : parser.Cursor) (gl1 : parser.Globals),
        parser.match_token E fuel tok c gl cc = (.err e, c1, gl1) →
        parser.is_one_of_loop E (fuel + 1) (.mk tok rls ps :: rest) c gl node
            cc bus = (.err e, c1, gl1, node, bus) ∧
        parser.maybe_one_of_loop E (fuel + 1) (.mk tok rls ps :: rest) c gl
            node cc bus = (.err e, c1, gl1, node, bus)) ∧
    (∀ (E : parser.Env) (fuel : Nat) (tok : grammar.MatchToken)
        (rls : List grammar.Rule) (ps : List grammar.Parameters)
        (rest : List grammar.OneOf) (c : parser.Cursor) (gl : parser.Globals)
        (node : parser.Node) (cc : parser.Cursor) (bus : parser.MsgBus)
        (e : parser.ParseError) (n : parser.Node) (c1 : parser.Cursor)
        (gl1 : parser.Globals),
        parser.match_token E fuel tok c gl cc = (.ok (.IsNot e), c1, gl1) →
        e.node = some n → n.harderror = true →
        parser.is_one_of_loop E (fuel + 1) (.mk tok rls ps :: rest) c gl node
            cc bus = (.err e, c1, gl1, node, bus) ∧
        parser.maybe_one_of_loop E (fuel + 1) (.mk tok rls ps :: rest) c gl
            node cc bus = (.err e, c1, gl1, node, bus)) ∧
    (∀ (E : parser.Env) (fuel : Nat) (rules : List grammar.Rule) (i : Nat)
        (alts : List grammar.OneOf) (c : parser.Cursor) (gl : parser.Globals)
        (node : parser.Node) (cc : parser.Cursor) (e : parser.ParseError)
        (c1 : parser.Cursor) (gl1 : parser.Globals) (n1 : parser.Node)
        (bus1 : parser.MsgBus),
        rules[i]? = some (.IsOneOf alts) → c.to_advance = false →
        parser.is_one_of_loop E fuel alts c gl node cc [] =
          (.err e, c1, gl1, n1, bus1) →
        parser.parse_rules E (fuel + 1) rules i c gl node cc =
          (.err e, c1, gl1, n1)) ∧
    (∀ (E : parser.Env) (fuel : Nat) (rules : List grammar.Rule) (i : Nat)
        (alts : List grammar.OneOf) (isntr : List grammar.Rule)
        (c : parser.Cursor) (gl : parser.Globals) (node : parser.Node)
        (cc : parser.Cursor) (e : parser.ParseError) (c1 : parser.Cursor)
        (gl1 : parser.Globals) (n1 : parser.Node) (bus1 : parser.MsgBus),
        rules[i]? = some (.MaybeOneOf alts isntr) → c.to_advance = false →
        parser.maybe_one_of_loop E fuel alts c gl node cc [] =
          (.err e, c1, gl1, n1, bus1) →
        parser.parse_rules E (fuel + 1) rules i c gl node cc =
          (.err e, c1, gl1, n1)) ∧
    (∀ (E : parser.Env) (fuel : Nat) (values : List grammar.MatchToken)
        (v : grammar.MatchToken) (rest : List grammar.MatchToken)
        (ccl c : parser.Cursor) (gl : parser.Globals) (cc : parser.Cursor)
        (e : parser.ParseError) (c1 : parser.Cursor) (gl1 : parser.Globals),
        parser.match_token E fuel v c gl cc = (.err e, c1, gl1) →
        parser.enum_values_loop E (fuel + 1) values (v :: rest) ccl c gl cc =
          (.err e, c1, gl1)) ∧
    (∀ (E : parser.Env) (fuel : Nat) (values : List grammar.MatchToken)
        (v : grammar.MatchToken) (rest : List grammar.MatchToken)
        (ccl c : parser.Cursor) (gl : parser.Globals) (cc : parser.Cursor)
        (e : parser.ParseError) (n : parser.Node) (c1 : parser.Cursor)
        (gl1 : parser.Globals),
        parser.match_token E fuel v c gl cc = (.ok (.IsNot e), c1, gl1) →
        e.node = some n → n.harderror = true →
        parser.enum_values_loop E (fuel + 1) values (v :: rest) ccl c gl cc =
          (.err e, ccl, gl1)) ∧
    (∀ (E : parser.Env) (fuel en : Nat) (enumr : grammar.Enumerator)
        (c : parser.Cursor) (gl : parser.Globals) (cc : parser.Cursor)
        (e : parser.ParseError) (c1 : parser.Cursor) (gl1 : parser.Globals),
        E.gr.enumerators[en]? = some enumr →
        parser.enum_values_loop E fuel enumr.values enumr.values c c gl cc =
          (.err e, c1, gl1) →
        parser.match_token E (fuel + 1) (.Enumerator en) c gl cc =
          (.err e, c1, gl1)) := by
  refine ⟨?_, ?_, ?_, ?_, ?_, ?_, ?_, ?_, ?_, ?_, ?_, ?_⟩
  · intro E fuel k c gl cc e nd c1 gl1 hpn hhard
    simp [parser.match_token, hpn, hhard]
  · intro E fuel rules i tok isr isntr ps c gl node cc e c1 gl1 hr hadv hmt
    obtain ⟨hlen, hrule⟩ := List.getElem?_eq_some.mp hr
    simp only [parser.parse_rules, dif_pos hlen, hrule]
    simp [parser.advance_cursor, hadv, hmt]
  · intro E fuel rules i tok isr isntr ps c gl node cc e n c1 gl1 hr hadv hmt
      hnode hhard
    obtain ⟨hlen, hrule⟩ := List.getElem?_eq_some.mp hr
    simp only [parser.parse_rules, dif_pos hlen, hrule]
    simp [parser.advance_cursor, hadv, hmt, hnode, hhard]
  · intro E fuel rules i tok rls ps c gl node cc e c1 gl1 hr hadv hmt
    obtain ⟨hlen, hrule⟩ := List.getElem?_eq_some.mp hr
    simp only [parser.parse_rules, dif_pos hlen, hrule]
    simp [parser.advance_cursor, hadv, hmt]
  · intro E fuel rules i tok rls ps c gl node cc e n c1 gl1 hr hadv hmt hnode
      hhard
    obtain ⟨hlen, hrule⟩ := List.getElem?_eq_some.mp hr
    simp only [parser.parse_rules, dif_pos hlen, hrule]
    simp [parser.advance_cursor, hadv, hmt, hnode, hhard]
  · intro E fuel tok rls ps rest c gl node cc bus e c1 gl1 hmt
    constructor
    · simp [parser.is_one_of_loop, hmt]
    · simp [parser.maybe_one_of_loop, hmt]
  · intro E fuel tok rls ps rest c gl node cc bus e n c1 gl1 hmt hnode hhard
    constructor
    · simp [parser.is_one_of_loop, hmt, hnode, hhard]
    · simp [parser.maybe_one_of_loop, hmt, hnode, hhard]
  · intro E fuel rules i alts c gl node cc e c1 gl1 n1 bus1 hr hadv hloop
    obtain ⟨hlen, hrule⟩ := List.getElem?_eq_some.mp hr
    simp only [parser.parse_rules, dif_pos hlen, hrule]
    simp [parser.advance_cursor, hadv, hloop]
  · intro E fuel rules i alts isntr c gl node cc e c1 gl1 n1 bus1 hr hadv hloop
    obtain ⟨hlen, hrule⟩ := List.getElem?_eq_some.mp hr
    simp only [parser.parse_rules, dif_pos hlen, hrule]
    simp [parser.advance_cursor, hadv, hloop]
  · intro E fuel values v rest ccl c gl cc e c1 gl1 hmt
    simp [parser.enum_values_loop, hmt]
  · intro E fuel values v rest ccl c gl cc e n c1 gl1 hmt hnode hhard
    simp [parser.enum_values_loop, hmt, hnode, hhard]
  · intro E fuel en enumr c gl cc e c1 gl1 hen hloop
    simp [parser.match_token, hen, hloop]

namespace parser

/-- Fixture: a node that commits and then requires the token x. -/
def gnX : grammar.Node :=
  ⟨"X", [.Command (.HardError true), .Is (.Token (.Token "x")) [] []], [],
    none⟩

/-- Fixture: an entry node wrapping node X in a Maybe whose isnt block
raises a distinctive error. -/
def gnEntryMaybe : grammar.Node :=
  ⟨"entry", [.Maybe (.Node 0) [] [.Command (.Error "isnt ran")] []], [], none⟩

/-- Fixture: environment with the committed node X and the Maybe entry. -/
def Ecommit : Env :=
  ⟨⟨some 1, false⟩, ⟨[gnX, gnEntryMaybe], [], [], false⟩, [fxText, fxEof1],
    "a"⟩

end parser

/-- Witness for C1: the committed node X fails hard on a Text token; its
error is thrown by match_token and propagates unchanged out of a Maybe
rule and out of an IsOneOf alternative list. -/
theorem C1_witness :
    parser.match_token parser.Ecommit 7 (.Node 0) ⟨0, false⟩ [] ⟨0, false⟩ =
      (.err ⟨.ExpectedToken (.Token "x") .Text, ⟨0, 0⟩, none⟩, ⟨0, false⟩,
        []) ∧
    parser.parse_rules parser.Ecommit 8 parser.gnEntryMaybe.rules 0 ⟨0, false⟩
        [] (parser.Node.new "E") ⟨0, false⟩ =
      (.err ⟨.ExpectedToken (.Token "x") .Text, ⟨0, 0⟩, none⟩, ⟨0, false⟩, [],
        parser.Node.new "E") ∧
    parser.is_one_of_loop parser.Ecommit 8 [.mk (.Node 0) [] []] ⟨0, false⟩
        [] (parser.Node.new "E") ⟨0, false⟩ [] =
      (.err ⟨.ExpectedToken (.Token "x") .Text, ⟨0, 0⟩, none⟩, ⟨0, false⟩, [],
        parser.Node.new "E", []) :=
  ⟨C1_commit_propagation.1 parser.Ecommit 6 0 ⟨0, false⟩ [] ⟨0, false⟩
      ⟨.ExpectedToken (.Token "x") .Text, ⟨0, 0⟩, none⟩
      (parser.Node.mk "X" [] 0 1 true none ⟨0, 0⟩) ⟨0, false⟩ [] rfl rfl,
    C1_commit_propagation.2.1 parser.Ecommit 7 parser.gnEntryMaybe.rules 0
      (.Node 0) [] [.Command (.Error "isnt ran")] [] ⟨0, false⟩ []
      (parser.Node.new "E") ⟨0, false⟩
      ⟨.ExpectedToken (.Token "x") .Text, ⟨0, 0⟩, none⟩ ⟨0, false⟩ [] rfl rfl
      rfl,
    (C1_commit_propagation.2.2.2.2.2.1 parser.Ecommit 7 (.Node 0) [] []
      [] ⟨0, false⟩ [] (parser.Node.new "E") ⟨0, false⟩ []
      ⟨.ExpectedToken (.Token "x") .Text, ⟨0, 0⟩, none⟩ ⟨0, false⟩ [] rfl).1⟩

namespace parser

/-- The error kinds parse_node synthesizes from an unhandled control-flow
message (src/src/parser.rs lines 171-194), the one exit path that skips
the cursor restore. -/
def ParseErrors.is_ctrl_msg : ParseErrors → Bool
  | .CannotBreak _ => true
  | .CannotGoBack _ => true
  | .LabelNotFound _ => true
  | _ => false

/-- Fixture: a node consuming two Text tokens, the second sending an
unhandled Break(2). -/
def gnBrk2 : grammar.Node :=
  ⟨"B", [.Is (.Token .Text) [] [], .Is (.Token .Text) [] [.Break 2]], [],
    none⟩

/-- Fixture: environment around gnBrk2. -/
def Ebrk2 : Env :=
  ⟨⟨some 0, false⟩, ⟨[gnBrk2], [], [], false⟩, [fxText, fxWs, fxText2, fxEof],
    "a a "⟩

end parser

/-- Counterexample to C2 as stated: a node whose rules end with an
unhandled Break(2) makes parse_node raise CannotBreak, and the cursor it
returns is the position where parsing stopped, not the restored entry
snapshot. -/
theorem C2_counterexample :
    parser.parse_node parser.Ebrk2 8 0 ⟨0, false⟩ [] =
      (.err ⟨.CannotBreak 1, ⟨0, 2⟩,
          some (parser.Node.mk "B" [] 0 3 false none ⟨0, 0⟩)⟩
        (parser.Node.mk "B" [] 0 3 false none ⟨0, 0⟩), ⟨2, true⟩, []) ∧
    (⟨2, true⟩ : parser.Cursor) ≠ ⟨0, false⟩ :=
  ⟨rfl, by decide⟩

namespace parser

lemma parse_node_err_cursor (E : Env) (fuel k : Nat) (c : Cursor)
    (gl : Globals) (e : ParseError) (nd : Node) (c1 : Cursor) (gl1 : Globals)
    (h : parse_node E fuel k c gl = (.err e nd, c1, gl1)) :
    c1 = c ∨ e.kind.is_ctrl_msg = true := by
  match fuel with
  | 0 => simp [parse_node] at h
  | fuel + 1 =>
    simp only [parse_node] at h
    split at h
    · simp only [Prod.mk.injEq] at h
      exact Or.inl h.2.1.symm
    · split at h
      · simp at h
      · split at h
        · simp only [Prod.mk.injEq] at h
          exact Or.inl h.2.1.symm
        · split at h
          · split at h
            · simp at h
            · simp at h
            · split at h
              · simp at h
              · simp only [Prod.mk.injEq, NodeRes.err.injEq] at h
                obtain ⟨⟨he, _⟩, _, _⟩ := h
                exact Or.inr (by rw [← he]; rfl)
            · split at h
              · simp at h
              · simp only [Prod.mk.injEq, NodeRes.err.injEq] at h
                obtain ⟨⟨he, _⟩, _, _⟩ := h
                exact Or.inr (by rw [← he]; rfl)
            · split at h
              · simp at h
              · simp only [Prod.mk.injEq, NodeRes.err.injEq] at h
                obtain ⟨⟨he, _⟩, _, _⟩ := h
                exact Or.inr (by rw [← he]; rfl)
            · simp only [Prod.mk.injEq] at h
              exact Or.inl h.2.1.symm
            · simp at h
            · simp at h
          · simp at h

end parser

namespace parser

/-- Cursor monotonicity statement for match_token at a given fuel. -/
def MonoMT (E : Env) (fuel : Nat) : Prop :=
  ∀ tok c gl cc, c.idx ≤ (match_token E fuel tok c gl cc).2.1.idx

/-- Cursor monotonicity statement for enum_values_loop. -/
def MonoEV (E : Env) (fuel : Nat) : Prop :=
  ∀ values rem ccl c gl cc, ccl.idx ≤ c.idx →
    ccl.idx ≤ (enum_values_loop E fuel values rem ccl c gl cc).2.1.idx

/-- Cursor monotonicity statement for parse_node. -/
def MonoPN (E : Env) (fuel : Nat) : Prop :=
  ∀ k c gl, c.idx ≤ (parse_node E fuel k c gl).2.1.idx

/-- Cursor monotonicity statement for until_scan. -/
def MonoUS (E : Env) (fuel : Nat) : Prop :=
  ∀ tok c gl cc node, c.idx ≤ (until_scan E fuel tok c gl cc node).2.1.idx

/-- Cursor monotonicity statement for parse_rules: given that the node
snapshot is at or before the entry cursor, the output cursor never moves
below the snapshot, and a successful exit never moves it below the entry
cursor (error exits may restore the snapshot, src/src/parser.rs lines
885, 903, 1006 of the embedding). -/
def MonoPR (E : Env) (fuel : Nat) : Prop :=
  ∀ rules i c gl node cc, cc.idx ≤ c.idx →
    cc.idx ≤ (parse_rules E fuel rules i c gl node cc).2.1.idx ∧
    (∀ m, (parse_rules E fuel rules i c gl node cc).1 = Res.ok m →
      c.idx ≤ (parse_rules E fuel rules i c gl node cc).2.1.idx)

/-- Cursor monotonicity statement for is_one_of_loop, in the same
conditional form as MonoPR. -/
def MonoOneOfLoop (E : Env) (fuel : Nat) : Prop :=
  ∀ alts c gl node cc bus, cc.idx ≤ c.idx →
    cc.idx ≤ (is_one_of_loop E fuel alts c gl node cc bus).2.1.idx ∧
    (∀ b, (is_one_of_loop E fuel alts c gl node cc bus).1 = Res.ok b →
      c.idx ≤ (is_one_of_loop E fuel alts c gl node cc bus).2.1.idx)

/-- Cursor monotonicity statement for maybe_one_of_loop, in the same
conditional form as MonoPR. -/
def MonoMO (E : Env) (fuel : Nat) : Prop :=
  ∀ alts c gl node cc bus, cc.idx ≤ c.idx →
    cc.idx ≤ (maybe_one_of_loop E fuel alts c gl node cc bus).2.1.idx ∧
    (∀ b, (maybe_one_of_loop E fuel alts c gl node cc bus).1 = Res.ok b →
      c.idx ≤ (maybe_one_of_loop E fuel alts c gl node cc bus).2.1.idx)

/-- Cursor monotonicity statement for until_one_of_scan, in the same
conditional form as MonoPR. -/
def MonoUO (E : Env) (fuel : Nat) : Prop :=
  ∀ alts c gl node cc bus, cc.idx ≤ c.idx →
    cc.idx ≤ (until_one_of_scan E fuel alts c gl node cc bus).2.1.idx ∧
    (∀ b, (until_one_of_scan E fuel alts c gl node cc bus).1 = Res.ok b →
      c.idx ≤ (until_one_of_scan E fuel alts c gl node cc bus).2.1.idx)

/-- The cursor carried by an advance_cursor outcome. -/
def AdvRes.cursor : AdvRes → Cursor
  | .ok c => c
  | .err _ c => c
  | .panic c => c

lemma advance_cursor_mono (E : Env) (c : Cursor) (node : Node) :
    c.idx ≤ (advance_cursor E c node).cursor.idx := by
  show c.idx ≤ (if c.to_advance then
      if c.idx + 1 ≥ E.toks.length then
        if E.p.eof_error then
          match E.toks[c.idx + 1 - 1]? with
          | none => AdvRes.panic ⟨c.idx + 1, false⟩
          | some t => AdvRes.err ⟨.Eof, t.location, some node⟩ ⟨c.idx + 1, false⟩
        else AdvRes.ok ⟨c.idx + 1 - 1, false⟩
      else AdvRes.ok ⟨c.idx + 1, false⟩
    else AdvRes.ok c).cursor.idx
  split
  · split
    · split
      · rcases ht : E.toks[c.idx + 1 - 1]? with _ | t <;> simp [ht, AdvRes.cursor]
      · simp [AdvRes.cursor]
    · simp [AdvRes.cursor]
  · simp [AdvRes.cursor]

lemma monoMT_step (E : Env) (fuel : Nat) (hPN : MonoPN E fuel)
    (hEV : MonoEV E fuel) : MonoMT E (fuel + 1) := by
  intro tok c gl cc
  cases tok with
  | Token tk =>
    simp only [match_token]
    split
    · simp
    · split
      · split <;> simp
      · rcases hs : skip_ws E.toks c.idx with _ | j
        · simp [hs]
        · obtain ⟨hle, _, _⟩ :=
            skip_ws_spec E.toks.length E.toks c.idx j (by omega) hs
          simp only [hs]
          rcases ht : E.toks[j]? with _ | cur
          · simp [ht]
          · simp only [ht]
            split <;> simp [hle]
  | Node k =>
    simp only [match_token]
    have := hPN k c gl
    rcases hpn : parse_node E fuel k c gl with ⟨res, c1, gl1⟩
    rw [hpn] at this
    cases res <;> simp at this ⊢ <;> try exact this
    split <;> simpa using this
  | Word w =>
    simp only [match_token]
    rcases hs : skip_ws E.toks c.idx with _ | j
    · simp [hs]
    · obtain ⟨hle, _, _⟩ :=
        skip_ws_spec E.toks.length E.toks c.idx j (by omega) hs
      simp only [hs]
      rcases ht : E.toks[j]? with _ | cur
      · simp [ht]
      · simp only [ht]
        rcases cur.kind <;> simp [hle]
        split <;> simp [hle]
  | Enumerator en =>
    simp only [match_token]
    rcases he : E.gr.enumerators[en]? with _ | enumr
    · simp only [he]
      rcases ht : E.toks[c.idx]? with _ | t <;> simp [ht]
    · simp only [he]
      exact hEV enumr.values enumr.values c c gl cc (Nat.le_refl _)
  | Any =>
    simp only [match_token]
    rcases ht : E.toks[c.idx]? with _ | t <;> simp [ht]

end parser

namespace parser

lemma monoEV_step (E : Env) (fuel : Nat) (hMT : MonoMT E fuel)
    (hEV : MonoEV E fuel) : MonoEV E (fuel + 1) := by
  intro values rem ccl c gl cc hcc
  cases rem with
  | nil =>
    simp only [enum_values_loop]
    rcases ht : E.toks[c.idx]? with _ | t <;> simp [ht, hcc]
  | cons v rest =>
    simp only [enum_values_loop]
    have hmt := hMT v c gl cc
    rcases hm : match_token E fuel v c gl cc with ⟨r, c1, gl1⟩
    rw [hm] at hmt
    simp at hmt
    rcases r with tc | e | _ | _
    · rcases tc with val | e
      · simp; omega
      · rcases hn : e.node with _ | n
        · simp only [hn]
          exact hEV values rest ccl ccl gl1 cc (Nat.le_refl _)
        · simp only [hn]
          split
          · simp
          · exact hEV values rest ccl ccl gl1 cc (Nat.le_refl _)
    · simp; omega
    · simp; omega
    · simp; omega

lemma monoUS_step (E : Env) (fuel : Nat) (hMT : MonoMT E fuel)
    (hUS : MonoUS E fuel) : MonoUS E (fuel + 1) := by
  intro tok c gl cc node
  simp only [until_scan]
  have hmt := hMT tok c gl cc
  rcases hm : match_token E fuel tok c gl cc with ⟨r, c1, gl1⟩
  rw [hm] at hmt
  simp at hmt
  rcases r with tc | e | _ | _
  · rcases tc with val | e
    · simpa using hmt
    · show c.idx ≤ ((if c1.idx + 1 ≥ E.toks.length then
          match E.toks[c1.idx + 1 - 1]? with
          | none => ((Res.panic : Res Unit), (⟨c1.idx + 1, c1.to_advance⟩ : Cursor), gl1)
          | some t => (Res.err ⟨ParseErrors.CouldNotFindToken tok, t.location, some node⟩,
              (⟨c1.idx + 1, c1.to_advance⟩ : Cursor), gl1)
        else until_scan E fuel tok ⟨c1.idx + 1, c1.to_advance⟩ gl1 cc node)
          : Res Unit × Cursor × Globals).2.1.idx
      split
      · rcases ht : E.toks[c1.idx + 1 - 1]? with _ | t <;> simp [ht] <;> omega
      · have h2 := hUS tok ⟨c1.idx + 1, c1.to_advance⟩ gl1 cc node
        simp at h2 ⊢
        omega
  · simpa using hmt
  · simpa using hmt
  · simpa using hmt

end parser

namespace parser

lemma monoOneOfLoop_step (E : Env) (fuel : Nat) (hMT : MonoMT E fuel)
    (hPR : MonoPR E fuel) (hOne : MonoOneOfLoop E fuel) : MonoOneOfLoop E (fuel + 1) := by
  intro alts c gl node cc bus hcc
  rcases ho : is_one_of_loop E (fuel + 1) alts c gl node cc bus with
    ⟨r, co, glo, nodeo, buso⟩
  show cc.idx ≤ co.idx ∧ ∀ b, r = Res.ok b → c.idx ≤ co.idx
  cases alts with
  | nil =>
    simp only [is_one_of_loop, Prod.mk.injEq] at ho
    obtain ⟨h1, h2, -, -, -⟩ := ho
    subst h2
    exact ⟨hcc, fun b _ => Nat.le_refl _⟩
  | cons a rest =>
    obtain ⟨token, rls, params⟩ := a
    simp only [is_one_of_loop] at ho
    split at ho
    · rename_i val c1 gl1 heq
      have hmt : c.idx ≤ c1.idx := by
        have h0 := hMT token c gl cc
        rw [heq] at h0
        exact h0
      split at ho
      · rename_i u gl2 node2 bus2 heq2
        have hcx : (if val.is_token = true then
            (⟨c1.idx, true⟩ : Cursor) else c1).idx = c1.idx := by
          split <;> rfl
        split at ho
        · rename_i m c2 gl3 node3 heq3
          have h3 := hPR rls 0 (if val.is_token = true then
            (⟨c1.idx, true⟩ : Cursor) else c1) gl2 node2 cc (by omega)
          rw [heq3] at h3
          have h31 : cc.idx ≤ c2.idx := h3.1
          have h32 : (if val.is_token = true then
              (⟨c1.idx, true⟩ : Cursor) else c1).idx ≤ c2.idx := h3.2 m rfl
          simp only [Prod.mk.injEq] at ho
          obtain ⟨hr, hco, -, -, -⟩ := ho
          subst hco
          exact ⟨h31, fun b _ => by omega⟩
        · rename_i e c2 gl3 node3 heq3
          have h3 := hPR rls 0 (if val.is_token = true then
            (⟨c1.idx, true⟩ : Cursor) else c1) gl2 node2 cc (by omega)
          rw [heq3] at h3
          have h31 : cc.idx ≤ c2.idx := h3.1
          simp only [Prod.mk.injEq] at ho
          obtain ⟨hr, hco, -, -, -⟩ := ho
          subst hco
          subst hr
          exact ⟨h31, fun b hb => by simp at hb⟩
        · rename_i c2 gl3 node3 heq3
          have h3 := hPR rls 0 (if val.is_token = true then
            (⟨c1.idx, true⟩ : Cursor) else c1) gl2 node2 cc (by omega)
          rw [heq3] at h3
          have h31 : cc.idx ≤ c2.idx := h3.1
          simp only [Prod.mk.injEq] at ho
          obtain ⟨hr, hco, -, -, -⟩ := ho
          subst hco
          subst hr
          exact ⟨h31, fun b hb => by simp at hb⟩
        · rename_i c2 gl3 node3 heq3
          have h3 := hPR rls 0 (if val.is_token = true then
            (⟨c1.idx, true⟩ : Cursor) else c1) gl2 node2 cc (by omega)
          rw [heq3] at h3
          have h31 : cc.idx ≤ c2.idx := h3.1
          simp only [Prod.mk.injEq] at ho
          obtain ⟨hr, hco, -, -, -⟩ := ho
          subst hco
          subst hr
          exact ⟨h31, fun b hb => by simp at hb⟩
      · rename_i e gl2 node2 bus2 heq2
        simp only [Prod.mk.injEq] at ho
        obtain ⟨hr, hco, -, -, -⟩ := ho
        subst hco
        subst hr
        exact ⟨by omega, fun b hb => by simp at hb⟩
      · rename_i gl2 node2 bus2 heq2
        simp only [Prod.mk.injEq] at ho
        obtain ⟨hr, hco, -, -, -⟩ := ho
        subst hco
        subst hr
        exact ⟨by omega, fun b hb => by simp at hb⟩
      · rename_i gl2 node2 bus2 heq2
        simp only [Prod.mk.injEq] at ho
        obtain ⟨hr, hco, -, -, -⟩ := ho
        subst hco
        subst hr
        exact ⟨by omega, fun b hb => by simp at hb⟩
    · rename_i e c1 gl1 heq
      have hmt : c.idx ≤ c1.idx := by
        have h0 := hMT token c gl cc
        rw [heq] at h0
        exact h0
      split at ho
      · rename_i n heqn
        split at ho
        · simp only [Prod.mk.injEq] at ho
          obtain ⟨hr, hco, -, -, -⟩ := ho
          subst hco
          subst hr
          exact ⟨by omega, fun b hb => by simp at hb⟩
        · have h3 := hOne rest c1 gl1 node cc bus (by omega)
          rw [ho] at h3
          have h31 : cc.idx ≤ co.idx := h3.1
          refine ⟨h31, fun b hb => ?_⟩
          have h4 : c1.idx ≤ co.idx := h3.2 b hb
          omega
      · rename_i heqn
        have h3 := hOne rest ⟨c1.idx, false⟩ gl1 node cc bus
          (by show cc.idx ≤ c1.idx; omega)
        rw [ho] at h3
        have h31 : cc.idx ≤ co.idx := h3.1
        refine ⟨h31, fun b hb => ?_⟩
        have h4 : c1.idx ≤ co.idx := h3.2 b hb
        omega
    · rename_i e c1 gl1 heq
      have hmt : c.idx ≤ c1.idx := by
        have h0 := hMT token c gl cc
        rw [heq] at h0
        exact h0
      simp only [Prod.mk.injEq] at ho
      obtain ⟨hr, hco, -, -, -⟩ := ho
      subst hco
      subst hr
      exact ⟨by omega, fun b hb => by simp at hb⟩
    · rename_i c1 gl1 heq
      have hmt : c.idx ≤ c1.idx := by
        have h0 := hMT token c gl cc
        rw [heq] at h0
        exact h0
      simp only [Prod.mk.injEq] at ho
      obtain ⟨hr, hco, -, -, -⟩ := ho
      subst hco
      subst hr
      exact ⟨by omega, fun b hb => by simp at hb⟩
    · rename_i c1 gl1 heq
      have hmt : c.idx ≤ c1.idx := by
        have h0 := hMT token c gl cc
        rw [heq] at h0
        exact h0
      simp only [Prod.mk.injEq] at ho
      obtain ⟨hr, hco, -, -, -⟩ := ho
      subst hco
      subst hr
      exact ⟨by omega, fun b hb => by simp at hb⟩

end parser

namespace parser

lemma monoMO_step (E : Env) (fuel : Nat) (hMT : MonoMT E fuel)
    (hPR : MonoPR E fuel) (hMO : MonoMO E fuel) : MonoMO E (fuel + 1) := by
  intro alts c gl node cc bus hcc
  rcases ho : maybe_one_of_loop E (fuel + 1) alts c gl node cc bus with
    ⟨r, co, glo, nodeo, buso⟩
  show cc.idx ≤ co.idx ∧ ∀ b, r = Res.ok b → c.idx ≤ co.idx
  cases alts with
  | nil =>
    simp only [maybe_one_of_loop, Prod.mk.injEq] at ho
    obtain ⟨h1, h2, -, -, -⟩ := ho
    subst h2
    exact ⟨hcc, fun b _ => Nat.le_refl _⟩
  | cons a rest =>
    obtain ⟨token, rls, params⟩ := a
    simp only [maybe_one_of_loop] at ho
    split at ho
    · rename_i val c1 gl1 heq
      have hmt : c.idx ≤ c1.idx := by
        have h0 := hMT token c gl cc
        rw [heq] at h0
        exact h0
      split at ho
      · rename_i u gl2 node2 bus2 heq2
        have hcx : (if val.is_token = true then
            (⟨c1.idx, true⟩ : Cursor) else c1).idx = c1.idx := by
          split <;> rfl
        split at ho
        · rename_i m c2 gl3 node3 heq3
          have h3 := hPR rls 0 (if val.is_token = true then
            (⟨c1.idx, true⟩ : Cursor) else c1) gl2 node2 cc (by omega)
          rw [heq3] at h3
          have h31 : cc.idx ≤ c2.idx := h3.1
          have h32 : (if val.is_token = true then
              (⟨c1.idx, true⟩ : Cursor) else c1).idx ≤ c2.idx := h3.2 m rfl
          simp only [Prod.mk.injEq] at ho
          obtain ⟨hr, hco, -, -, -⟩ := ho
          subst hco
          exact ⟨h31, fun b _ => by omega⟩
        · rename_i e c2 gl3 node3 heq3
          have h3 := hPR rls 0 (if val.is_token = true then
            (⟨c1.idx, true⟩ : Cursor) else c1) gl2 node2 cc (by omega)
          rw [heq3] at h3
          have h31 : cc.idx ≤ c2.idx := h3.1
          simp only [Prod.mk.injEq] at ho
          obtain ⟨hr, hco, -, -, -⟩ := ho
          subst hco
          subst hr
          exact ⟨h31, fun b hb => by simp at hb⟩
        · rename_i c2 gl3 node3 heq3
          have h3 := hPR rls 0 (if val.is_token = true then
            (⟨c1.idx, true⟩ : Cursor) else c1) gl2 node2 cc (by omega)
          rw [heq3] at h3
          have h31 : cc.idx ≤ c2.idx := h3.1
          simp only [Prod.mk.injEq] at ho
          obtain ⟨hr, hco, -, -, -⟩ := ho
          subst hco
          subst hr
          exact ⟨h31, fun b hb => by simp at hb⟩
        · rename_i c2 gl3 node3 heq3
          have h3 := hPR rls 0 (if val.is_token = true then
            (⟨c1.idx, true⟩ : Cursor) else c1) gl2 node2 cc (by omega)
          rw [heq3] at h3
          have h31 : cc.idx ≤ c2.idx := h3.1
          simp only [Prod.mk.injEq] at ho
          obtain ⟨hr, hco, -, -, -⟩ := ho
          subst hco
          subst hr
          exact ⟨h31, fun b hb => by simp at hb⟩
      · rename_i e gl2 node2 bus2 heq2
        simp only [Prod.mk.injEq] at ho
        obtain ⟨hr, hco, -, -, -⟩ := ho
        subst hco
        subst hr
        exact ⟨by omega, fun b hb => by simp at hb⟩
      · rename_i gl2 node2 bus2 heq2
        simp only [Prod.mk.injEq] at ho
        obtain ⟨hr, hco, -, -, -⟩ := ho
        subst hco
        subst hr
        exact ⟨by omega, fun b hb => by simp at hb⟩
      · rename_i gl2 node2 bus2 heq2
        simp only [Prod.mk.injEq] at ho
        obtain ⟨hr, hco, -, -, -⟩ := ho
        subst hco
        subst hr
        exact ⟨by omega, fun b hb => by simp at hb⟩
    · rename_i e c1 gl1 heq
      have hmt : c.idx ≤ c1.idx := by
        have h0 := hMT token c gl cc
        rw [heq] at h0
        exact h0
      split at ho
      · rename_i n heqn
        split at ho
        · simp only [Prod.mk.injEq] at ho
          obtain ⟨hr, hco, -, -, -⟩ := ho
          subst hco
          subst hr
          exact ⟨by omega, fun b hb => by simp at hb⟩
        · have h3 := hMO rest c1 gl1 node cc bus (by omega)
          rw [ho] at h3
          have h31 : cc.idx ≤ co.idx := h3.1
          refine ⟨h31, fun b hb => ?_⟩
          have h4 : c1.idx ≤ co.idx := h3.2 b hb
          omega
      · rename_i heqn
        have h3 := hMO rest c1 gl1 node cc bus (by omega)
        rw [ho] at h3
        have h31 : cc.idx ≤ co.idx := h3.1
        refine ⟨h31, fun b hb => ?_⟩
        have h4 : c1.idx ≤ co.idx := h3.2 b hb
        omega
    · rename_i e c1 gl1 heq
      have hmt : c.idx ≤ c1.idx := by
        have h0 := hMT token c gl cc
        rw [heq] at h0
        exact h0
      simp only [Prod.mk.injEq] at ho
      obtain ⟨hr, hco, -, -, -⟩ := ho
      subst hco
      subst hr
      exact ⟨by omega, fun b hb => by simp at hb⟩
    · rename_i c1 gl1 heq
      have hmt : c.idx ≤ c1.idx := by
        have h0 := hMT token c gl cc
        rw [heq] at h0
        exact h0
      simp only [Prod.mk.injEq] at ho
      obtain ⟨hr, hco, -, -, -⟩ := ho
      subst hco
      subst hr
      exact ⟨by omega, fun b hb => by simp at hb⟩
    · rename_i c1 gl1 heq
      have hmt : c.idx ≤ c1.idx := by
        have h0 := hMT token c gl cc
        rw [heq] at h0
        exact h0
      simp only [Prod.mk.injEq] at ho
      obtain ⟨hr, hco, -, -, -⟩ := ho
      subst hco
      subst hr
      exact ⟨by omega, fun b hb => by simp at hb⟩

lemma monoUO_step (E : Env) (fuel : Nat) (hMO : MonoMO E fuel)
    (hUO : MonoUO E fuel) : MonoUO E (fuel + 1) := by
  intro alts c gl node cc bus hcc
  rcases ho : until_one_of_scan E (fuel + 1) alts c gl node cc bus with
    ⟨r, co, glo, nodeo, buso⟩
  show cc.idx ≤ co.idx ∧ ∀ b, r = Res.ok b → c.idx ≤ co.idx
  simp only [until_one_of_scan] at ho
  split at ho
  · split at ho
    · rename_i c1 gl1 node1 bus1 heq
      have h3 := hMO alts c gl node cc bus hcc
      rw [heq] at h3
      have h31 : cc.idx ≤ c1.idx := h3.1
      have h32 : c.idx ≤ c1.idx := h3.2 true rfl
      simp only [Prod.mk.injEq] at ho
      obtain ⟨hr, hco, -, -, -⟩ := ho
      subst hco
      exact ⟨h31, fun b _ => by omega⟩
    · rename_i c1 gl1 node1 bus1 heq
      have h3 := hMO alts c gl node cc bus hcc
      rw [heq] at h3
      have h31 : cc.idx ≤ c1.idx := h3.1
      have h32 : c.idx ≤ c1.idx := h3.2 false rfl
      have h4 := hUO alts ⟨c1.idx + 1, c1.to_advance⟩ gl1 node1 cc bus1
        (by show cc.idx ≤ c1.idx + 1; omega)
      rw [ho] at h4
      have h41 : cc.idx ≤ co.idx := h4.1
      refine ⟨h41, fun b hb => ?_⟩
      have h42 : c1.idx + 1 ≤ co.idx := h4.2 b hb
      omega
    · rename_i e c1 gl1 node1 bus1 heq
      have h3 := hMO alts c gl node cc bus hcc
      rw [heq] at h3
      have h31 : cc.idx ≤ c1.idx := h3.1
      simp only [Prod.mk.injEq] at ho
      obtain ⟨hr, hco, -, -, -⟩ := ho
      subst hco
      subst hr
      exact ⟨h31, fun b hb => by simp at hb⟩
    · rename_i c1 gl1 node1 bus1 heq
      have h3 := hMO alts c gl node cc bus hcc
      rw [heq] at h3
      have h31 : cc.idx ≤ c1.idx := h3.1
      simp only [Prod.mk.injEq] at ho
      obtain ⟨hr, hco, -, -, -⟩ := ho
      subst hco
      subst hr
      exact ⟨h31, fun b hb => by simp at hb⟩
    · rename_i c1 gl1 node1 bus1 heq
      have h3 := hMO alts c gl node cc bus hcc
      rw [heq] at h3
      have h31 : cc.idx ≤ c1.idx := h3.1
      simp only [Prod.mk.injEq] at ho
      obtain ⟨hr, hco, -, -, -⟩ := ho
      subst hco
      subst hr
      exact ⟨h31, fun b hb => by simp at hb⟩
  · simp only [Prod.mk.injEq] at ho
    obtain ⟨hr, hco, -, -, -⟩ := ho
    subst hco
    exact ⟨hcc, fun b _ => Nat.le_refl _⟩

end parser

namespace parser

lemma monoPN_step (E : Env) (fuel : Nat) (hPR : MonoPR E fuel) :
    MonoPN E (fuel + 1) := by
  intro k c gl
  rcases ho : parse_node E (fuel + 1) k c gl with ⟨r, co, glo⟩
  show c.idx ≤ co.idx
  simp only [parse_node] at ho
  split at ho
  · simp only [Prod.mk.injEq] at ho
    obtain ⟨-, hco, -⟩ := ho
    subst hco
    exact Nat.le_refl _
  · rename_i node0 heq
    split at ho
    · simp only [Prod.mk.injEq] at ho
      obtain ⟨-, hco, -⟩ := ho
      subst hco
      exact Nat.le_refl _
    · rename_i t0 ht
      split at ho
      · simp only [Prod.mk.injEq] at ho
        obtain ⟨-, hco, -⟩ := ho
        subst hco
        exact Nat.le_refl _
      · rename_i gnode hg
        rcases heqpr : parse_rules E fuel gnode.rules 0 c gl
          (node0.with_first t0.index) c with ⟨r1, c1, gl1, node1⟩
        rw [heqpr] at ho
        simp only [] at ho
        have h3 := hPR gnode.rules 0 c gl (node0.with_first t0.index) c
          (Nat.le_refl _)
        rw [heqpr] at h3
        have h31 : c.idx ≤ c1.idx := h3.1
        split at ho
        · rename_i node2 hfix
          split at ho
          · simp only [Prod.mk.injEq] at ho
            obtain ⟨-, hco, -⟩ := ho
            subst hco
            omega
          · simp only [Prod.mk.injEq] at ho
            obtain ⟨-, hco, -⟩ := ho
            subst hco
            omega
          · split at ho <;>
              (simp only [Prod.mk.injEq] at ho
               obtain ⟨-, hco, -⟩ := ho
               subst hco
               omega)
          · split at ho <;>
              (simp only [Prod.mk.injEq] at ho
               obtain ⟨-, hco, -⟩ := ho
               subst hco
               omega)
          · split at ho <;>
              (simp only [Prod.mk.injEq] at ho
               obtain ⟨-, hco, -⟩ := ho
               subst hco
               omega)
          · simp only [Prod.mk.injEq] at ho
            obtain ⟨-, hco, -⟩ := ho
            subst hco
            omega
          · simp only [Prod.mk.injEq] at ho
            obtain ⟨-, hco, -⟩ := ho
            subst hco
            omega
          · simp only [Prod.mk.injEq] at ho
            obtain ⟨-, hco, -⟩ := ho
            subst hco
            omega
        · simp only [Prod.mk.injEq] at ho
          obtain ⟨-, hco, -⟩ := ho
          subst hco
          omega

end parser

namespace parser

lemma monoPR_step (E : Env) (fuel : Nat) (hMT : MonoMT E fuel)
    (hUS : MonoUS E fuel) (hPR : MonoPR E fuel) (hOne : MonoOneOfLoop E fuel)
    (hMO : MonoMO E fuel) (hUO : MonoUO E fuel) : MonoPR E (fuel + 1) := by
  intro rules i c gl node cc hcc
  rcases ho : parse_rules E (fuel + 1) rules i c gl node cc with
    ⟨r, co, glo, nodeo⟩
  show cc.idx ≤ co.idx ∧ ∀ m, r = Res.ok m → c.idx ≤ co.idx
  simp only [parse_rules] at ho
  split at ho
  · split at ho
    · rename_i c1 heqa
      have hadv : c.idx ≤ c1.idx := by
        have h0 := advance_cursor_mono E c node
        rw [heqa] at h0
        exact h0
      simp only [Prod.mk.injEq] at ho
      obtain ⟨hr, hco, -, -⟩ := ho
      subst hco
      subst hr
      exact ⟨by omega, fun m hm => by simp at hm⟩
    · rename_i e c1 heqa
      have hadv : c.idx ≤ c1.idx := by
        have h0 := advance_cursor_mono E c node
        rw [heqa] at h0
        exact h0
      simp only [Prod.mk.injEq] at ho
      obtain ⟨hr, hco, -, -⟩ := ho
      subst hco
      subst hr
      exact ⟨by omega, fun m hm => by simp at hm⟩
    · rename_i ca heqa
      have hadv : c.idx ≤ ca.idx := by
        have h0 := advance_cursor_mono E c node
        rw [heqa] at h0
        exact h0
      split at ho
      · rename_i token rls params heqr
        split at ho
        · rename_i val c1 gl1 heqm
          have hmt : ca.idx ≤ c1.idx := by
            have h0 := hMT token ca gl cc
            rw [heqm] at h0
            exact h0
          split at ho
          · rename_i u gl2 node2 bus2 heqp
            have hcx : (if val.is_token = true then
                (⟨c1.idx, true⟩ : Cursor) else c1).idx = c1.idx := by
              split <;> rfl
            split at ho
            · rename_i m c2 gl3 node3 heqpr2
              have h3 := hPR rls 0 (if val.is_token = true then
                (⟨c1.idx, true⟩ : Cursor) else c1) gl2 node2 cc (by omega)
              rw [heqpr2] at h3
              have h31 : cc.idx ≤ c2.idx := h3.1
              have h32 : (if val.is_token = true then
                  (⟨c1.idx, true⟩ : Cursor) else c1).idx ≤ c2.idx := h3.2 m rfl
              split at ho
              · rename_i m2 hdm
                simp only [Prod.mk.injEq] at ho
                obtain ⟨hr, hco, -, -⟩ := ho
                subst hco
                exact ⟨by omega, fun m3 hm3 => by omega⟩
              · rename_i i2 hdm
                have h5 := hPR rules i2 c2 gl3 node3 cc (by omega)
                rw [ho] at h5
                have h51 : cc.idx ≤ co.idx := h5.1
                refine ⟨h51, fun m3 hm3 => ?_⟩
                have h52 : c2.idx ≤ co.idx := h5.2 m3 hm3
                omega
            · rename_i e c2 gl3 node3 heqpr2
              have h3 := hPR rls 0 (if val.is_token = true then
                (⟨c1.idx, true⟩ : Cursor) else c1) gl2 node2 cc (by omega)
              rw [heqpr2] at h3
              have h31 : cc.idx ≤ c2.idx := h3.1
              simp only [Prod.mk.injEq] at ho
              obtain ⟨hr, hco, -, -⟩ := ho
              subst hco
              subst hr
              exact ⟨h31, fun m3 hm3 => by simp at hm3⟩
            · rename_i c2 gl3 node3 heqpr2
              have h3 := hPR rls 0 (if val.is_token = true then
                (⟨c1.idx, true⟩ : Cursor) else c1) gl2 node2 cc (by omega)
              rw [heqpr2] at h3
              have h31 : cc.idx ≤ c2.idx := h3.1
              simp only [Prod.mk.injEq] at ho
              obtain ⟨hr, hco, -, -⟩ := ho
              subst hco
              subst hr
              exact ⟨h31, fun m3 hm3 => by simp at hm3⟩
            · rename_i c2 gl3 node3 heqpr2
              have h3 := hPR rls 0 (if val.is_token = true then
                (⟨c1.idx, true⟩ : Cursor) else c1) gl2 node2 cc (by omega)
              rw [heqpr2] at h3
              have h31 : cc.idx ≤ c2.idx := h3.1
              simp only [Prod.mk.injEq] at ho
              obtain ⟨hr, hco, -, -⟩ := ho
              subst hco
              subst hr
              exact ⟨h31, fun m3 hm3 => by simp at hm3⟩
          · rename_i e gl2 node2 bus2 heqp
            simp only [Prod.mk.injEq] at ho
            obtain ⟨hr, hco, -, -⟩ := ho
            subst hco
            subst hr
            exact ⟨by omega, fun m3 hm3 => by simp at hm3⟩
          · rename_i gl2 node2 bus2 heqp
            simp only [Prod.mk.injEq] at ho
            obtain ⟨hr, hco, -, -⟩ := ho
            subst hco
            subst hr
            exact ⟨by omega, fun m3 hm3 => by simp at hm3⟩
          · rename_i gl2 node2 bus2 heqp
            simp only [Prod.mk.injEq] at ho
            obtain ⟨hr, hco, -, -⟩ := ho
            subst hco
            subst hr
            exact ⟨by omega, fun m3 hm3 => by simp at hm3⟩
        · rename_i e c1 gl1 heqm
          have hmt : ca.idx ≤ c1.idx := by
            have h0 := hMT token ca gl cc
            rw [heqm] at h0
            exact h0
          simp only [Prod.mk.injEq] at ho
          obtain ⟨hr, hco, -, -⟩ := ho
          subst hco
          subst hr
          exact ⟨by omega, fun m3 hm3 => by simp at hm3⟩
        · rename_i e c1 gl1 heqm
          have hmt : ca.idx ≤ c1.idx := by
            have h0 := hMT token ca gl cc
            rw [heqm] at h0
            exact h0
          simp only [Prod.mk.injEq] at ho
          obtain ⟨hr, hco, -, -⟩ := ho
          subst hco
          subst hr
          exact ⟨by omega, fun m3 hm3 => by simp at hm3⟩
        · rename_i c1 gl1 heqm
          have hmt : ca.idx ≤ c1.idx := by
            have h0 := hMT token ca gl cc
            rw [heqm] at h0
            exact h0
          simp only [Prod.mk.injEq] at ho
          obtain ⟨hr, hco, -, -⟩ := ho
          subst hco
          subst hr
          exact ⟨by omega, fun m3 hm3 => by simp at hm3⟩
        · rename_i c1 gl1 heqm
          have hmt : ca.idx ≤ c1.idx := by
            have h0 := hMT token ca gl cc
            rw [heqm] at h0
            exact h0
          simp only [Prod.mk.injEq] at ho
          obtain ⟨hr, hco, -, -⟩ := ho
          subst hco
          subst hr
          exact ⟨by omega, fun m3 hm3 => by simp at hm3⟩
      · rename_i token rls params heqr
        split at ho
        · rename_i val c1 gl1 heqm
          have hmt : ca.idx ≤ c1.idx := by
            have h0 := hMT token ca gl cc
            rw [heqm] at h0
            exact h0
          split at ho
          · simp only [Prod.mk.injEq] at ho
            obtain ⟨hr, hco, -, -⟩ := ho
            subst hco
            subst hr
            exact ⟨by omega, fun m3 hm3 => by simp at hm3⟩
          · rename_i t ht
            simp only [Prod.mk.injEq] at ho
            obtain ⟨hr, hco, -, -⟩ := ho
            subst hco
            subst hr
            exact ⟨Nat.le_refl _, fun m3 hm3 => by simp at hm3⟩
        · rename_i e c1 gl1 heqm
          have hmt : ca.idx ≤ c1.idx := by
            have h0 := hMT token ca gl cc
            rw [heqm] at h0
            exact h0
          split at ho
          · rename_i m c2 gl3 node3 heqpr2
            have h3 := hPR rls 0 c1 gl1 node cc (by omega)
            rw [heqpr2] at h3
            have h31 : cc.idx ≤ c2.idx := h3.1
            have h32 : c1.idx ≤ c2.idx := h3.2 m rfl
            split at ho
            · rename_i m2 hdm
              simp only [Prod.mk.injEq] at ho
              obtain ⟨hr, hco, -, -⟩ := ho
              subst hco
              exact ⟨by omega, fun m3 hm3 => by omega⟩
            · rename_i i2 hdm
              have h5 := hPR rules i2 c2 gl3 node3 cc (by omega)
              rw [ho] at h5
              have h51 : cc.idx ≤ co.idx := h5.1
              refine ⟨h51, fun m3 hm3 => ?_⟩
              have h52 : c2.idx ≤ co.idx := h5.2 m3 hm3
              omega
          · rename_i e2 c2 gl3 node3 heqpr2
            have h3 := hPR rls 0 c1 gl1 node cc (by omega)
            rw [heqpr2] at h3
            have h31 : cc.idx ≤ c2.idx := h3.1
            simp only [Prod.mk.injEq] at ho
            obtain ⟨hr, hco, -, -⟩ := ho
            subst hco
            subst hr
            exact ⟨h31, fun m3 hm3 => by simp at hm3⟩
          · rename_i c2 gl3 node3 heqpr2
            have h3 := hPR rls 0 c1 gl1 node cc (by omega)
            rw [heqpr2] at h3
            have h31 : cc.idx ≤ c2.idx := h3.1
            simp only [Prod.mk.injEq] at ho
            obtain ⟨hr, hco, -, -⟩ := ho
            subst hco
            subst hr
            exact ⟨h31, fun m3 hm3 => by simp at hm3⟩
          · rename_i c2 gl3 node3 heqpr2
            have h3 := hPR rls 0 c1 gl1 node cc (by omega)
            rw [heqpr2] at h3
            have h31 : cc.idx ≤ c2.idx := h3.1
            simp only [Prod.mk.injEq] at ho
            obtain ⟨hr, hco, -, -⟩ := ho
            subst hco
            subst hr
            exact ⟨h31, fun m3 hm3 => by simp at hm3⟩
        · rename_i e c1 gl1 heqm
          have hmt : ca.idx ≤ c1.idx := by
            have h0 := hMT token ca gl cc
            rw [heqm] at h0
            exact h0
          simp only [Prod.mk.injEq] at ho
          obtain ⟨hr, hco, -, -⟩ := ho
          subst hco
          subst hr
          exact ⟨by omega, fun m3 hm3 => by simp at hm3⟩
        · rename_i c1 gl1 heqm
          have hmt : ca.idx ≤ c1.idx := by
            have h0 := hMT token ca gl cc
            rw [heqm] at h0
            exact h0
          simp only [Prod.mk.injEq] at ho
          obtain ⟨hr, hco, -, -⟩ := ho
          subst hco
          subst hr
          exact ⟨by omega, fun m3 hm3 => by simp at hm3⟩
        · rename_i c1 gl1 heqm
          have hmt : ca.idx ≤ c1.idx := by
            have h0 := hMT token ca gl cc
            rw [heqm] at h0
            exact h0
          simp only [Prod.mk.injEq] at ho
          obtain ⟨hr, hco, -, -⟩ := ho
          subst hco
          subst hr
          exact ⟨by omega, fun m3 hm3 => by simp at hm3⟩
      · rename_i alts heqr
        split at ho
        · rename_i c1 gl1 node1 bus1 heqio
          have h3 := hOne alts ca gl node cc [] (by omega)
          rw [heqio] at h3
          have h31 : cc.idx ≤ c1.idx := h3.1
          have h32 : ca.idx ≤ c1.idx := h3.2 true rfl
          split at ho
          · rename_i m2 hdm
            simp only [Prod.mk.injEq] at ho
            obtain ⟨hr, hco, -, -⟩ := ho
            subst hco
            exact ⟨by omega, fun m3 hm3 => by omega⟩
          · rename_i i2 hdm
            have h5 := hPR rules i2 c1 gl1 node1 cc (by omega)
            rw [ho] at h5
            have h51 : cc.idx ≤ co.idx := h5.1
            refine ⟨h51, fun m3 hm3 => ?_⟩
            have h52 : c1.idx ≤ co.idx := h5.2 m3 hm3
            omega
        · rename_i c1 gl1 node1 bus1 heqio
          have h3 := hOne alts ca gl node cc [] (by omega)
          rw [heqio] at h3
          have h31 : cc.idx ≤ c1.idx := h3.1
          split at ho
          · simp only [Prod.mk.injEq] at ho
            obtain ⟨hr, hco, -, -⟩ := ho
            subst hco
            subst hr
            exact ⟨h31, fun m3 hm3 => by simp at hm3⟩
          · rename_i t ht
            simp only [Prod.mk.injEq] at ho
            obtain ⟨hr, hco, -, -⟩ := ho
            subst hco
            subst hr
            exact ⟨Nat.le_refl _, fun m3 hm3 => by simp at hm3⟩
        · rename_i e c1 gl1 node1 bus1 heqio
          have h3 := hOne alts ca gl node cc [] (by omega)
          rw [heqio] at h3
          have h31 : cc.idx ≤ c1.idx := h3.1
          simp only [Prod.mk.injEq] at ho
          obtain ⟨hr, hco, -, -⟩ := ho
          subst hco
          subst hr
          exact ⟨h31, fun m3 hm3 => by simp at hm3⟩
        · rename_i c1 gl1 node1 bus1 heqio
          have h3 := hOne alts ca gl node cc [] (by omega)
          rw [heqio] at h3
          have h31 : cc.idx ≤ c1.idx := h3.1
          simp only [Prod.mk.injEq] at ho
          obtain ⟨hr, hco, -, -⟩ := ho
          subst hco
          subst hr
          exact ⟨h31, fun m3 hm3 => by simp at hm3⟩
        · rename_i c1 gl1 node1 bus1 heqio
          have h3 := hOne alts ca gl node cc [] (by omega)
          rw [heqio] at h3
          have h31 : cc.idx ≤ c1.idx := h3.1
          simp only [Prod.mk.injEq] at ho
          obtain ⟨hr, hco, -, -⟩ := ho
          subst hco
          subst hr
          exact ⟨h31, fun m3 hm3 => by simp at hm3⟩
      · rename_i token is_rls isnt_rls params heqr
        split at ho
        · rename_i val c1 gl1 heqm
          have hmt : ca.idx ≤ c1.idx := by
            have h0 := hMT token ca gl cc
            rw [heqm] at h0
            exact h0
          split at ho
          · rename_i u gl2 node2 bus2 heqp
            have hcx : (if val.is_token = true then
                (⟨c1.idx, true⟩ : Cursor) else c1).idx = c1.idx := by
              split <;> rfl
            split at ho
            · rename_i m c2 gl3 node3 heqpr2
              have h3 := hPR is_rls 0 (if val.is_token = true then
                (⟨c1.idx, true⟩ : Cursor) else c1) gl2 node2 cc (by omega)
              rw [heqpr2] at h3
              have h31 : cc.idx ≤ c2.idx := h3.1
              have h32 : (if val.is_token = true then
                  (⟨c1.idx, true⟩ : Cursor) else c1).idx ≤ c2.idx := h3.2 m rfl
              split at ho
              · rename_i m2 hdm
                simp only [Prod.mk.injEq] at ho
                obtain ⟨hr, hco, -, -⟩ := ho
                subst hco
                exact ⟨by omega, fun m3 hm3 => by omega⟩
              · rename_i i2 hdm
                have h5 := hPR rules i2 c2 gl3 node3 cc (by omega)
                rw [ho] at h5
                have h51 : cc.idx ≤ co.idx := h5.1
                refine ⟨h51, fun m3 hm3 => ?_⟩
                have h52 : c2.idx ≤ co.idx := h5.2 m3 hm3
                omega
            · rename_i e c2 gl3 node3 heqpr2
              have h3 := hPR is_rls 0 (if val.is_token = true then
                (⟨c1.idx, true⟩ : Cursor) else c1) gl2 node2 cc (by omega)
              rw [heqpr2] at h3
              have h31 : cc.idx ≤ c2.idx := h3.1
              simp only [Prod.mk.injEq] at ho
              obtain ⟨hr, hco, -, -⟩ := ho
              subst hco
              subst hr
              exact ⟨h31, fun m3 hm3 => by simp at hm3⟩
            · rename_i c2 gl3 node3 heqpr2
              have h3 := hPR is_rls 0 (if val.is_token = true then
                (⟨c1.idx, true⟩ : Cursor) else c1) gl2 node2 cc (by omega)
              rw [heqpr2] at h3
              have h31 : cc.idx ≤ c2.idx := h3.1
              simp only [Prod.mk.injEq] at ho
              obtain ⟨hr, hco, -, -⟩ := ho
              subst hco
              subst hr
              exact ⟨h31, fun m3 hm3 => by simp at hm3⟩
            · rename_i c2 gl3 node3 heqpr2
              have h3 := hPR is_rls 0 (if val.is_token = true then
                (⟨c1.idx, true⟩ : Cursor) else c1) gl2 node2 cc (by omega)
              rw [heqpr2] at h3
              have h31 : cc.idx ≤ c2.idx := h3.1
              simp only [Prod.mk.injEq] at ho
              obtain ⟨hr, hco, -, -⟩ := ho
              subst hco
              subst hr
              exact ⟨h31, fun m3 hm3 => by simp at hm3⟩
          · rename_i e gl2 node2 bus2 heqp
            simp only [Prod.mk.injEq] at ho
            obtain ⟨hr, hco, -, -⟩ := ho
            subst hco
            subst hr
            exact ⟨by omega, fun m3 hm3 => by simp at hm3⟩
          · rename_i gl2 node2 bus2 heqp
            simp only [Prod.mk.injEq] at ho
            obtain ⟨hr, hco, -, -⟩ := ho
            subst hco
            subst hr
            exact ⟨by omega, fun m3 hm3 => by simp at hm3⟩
          · rename_i gl2 node2 bus2 heqp
            simp only [Prod.mk.injEq] at ho
            obtain ⟨hr, hco, -, -⟩ := ho
            subst hco
            subst hr
            exact ⟨by omega, fun m3 hm3 => by simp at hm3⟩
        · rename_i e c1 gl1 heqm
          have hmt : ca.idx ≤ c1.idx := by
            have h0 := hMT token ca gl cc
            rw [heqm] at h0
            exact h0
          split at ho
          · rename_i n heqn
            split at ho
            · simp only [Prod.mk.injEq] at ho
              obtain ⟨hr, hco, -, -⟩ := ho
              subst hco
              subst hr
              exact ⟨by omega, fun m3 hm3 => by simp at hm3⟩
            ·
                split at ho
                · rename_i m c2 gl3 node3 heqpr2
                  have h3 := hPR isnt_rls 0 c1 gl1 node cc (by omega)
                  rw [heqpr2] at h3
                  have h31 : cc.idx ≤ c2.idx := h3.1
                  have h32 : c1.idx ≤ c2.idx := h3.2 m rfl
                  split at ho
                  · rename_i m2 hdm
                    simp only [Prod.mk.injEq] at ho
                    obtain ⟨hr, hco, -, -⟩ := ho
                    subst hco
                    exact ⟨by omega, fun m3 hm3 => by omega⟩
                  · rename_i i2 hdm
                    have h5 := hPR rules i2 c2 gl3 node3 cc (by omega)
                    rw [ho] at h5
                    have h51 : cc.idx ≤ co.idx := h5.1
                    refine ⟨h51, fun m3 hm3 => ?_⟩
                    have h52 : c2.idx ≤ co.idx := h5.2 m3 hm3
                    omega
                · rename_i e2 c2 gl3 node3 heqpr2
                  have h3 := hPR isnt_rls 0 c1 gl1 node cc (by omega)
                  rw [heqpr2] at h3
                  have h31 : cc.idx ≤ c2.idx := h3.1
                  simp only [Prod.mk.injEq] at ho
                  obtain ⟨hr, hco, -, -⟩ := ho
                  subst hco
                  subst hr
                  exact ⟨h31, fun m3 hm3 => by simp at hm3⟩
                · rename_i c2 gl3 node3 heqpr2
                  have h3 := hPR isnt_rls 0 c1 gl1 node cc (by omega)
                  rw [heqpr2] at h3
                  have h31 : cc.idx ≤ c2.idx := h3.1
                  simp only [Prod.mk.injEq] at ho
                  obtain ⟨hr, hco, -, -⟩ := ho
                  subst hco
                  subst hr
                  exact ⟨h31, fun m3 hm3 => by simp at hm3⟩
                · rename_i c2 gl3 node3 heqpr2
                  have h3 := hPR isnt_rls 0 c1 gl1 node cc (by omega)
                  rw [heqpr2] at h3
                  have h31 : cc.idx ≤ c2.idx := h3.1
                  simp only [Prod.mk.injEq] at ho
                  obtain ⟨hr, hco, -, -⟩ := ho
                  subst hco
                  subst hr
                  exact ⟨h31, fun m3 hm3 => by simp at hm3⟩
          · (rename_i hoptn heqn)
            split at ho
            · rename_i m c2 gl3 node3 heqpr2
              have h3 := hPR isnt_rls 0 c1 gl1 node cc (by omega)
              rw [heqpr2] at h3
              have h31 : cc.idx ≤ c2.idx := h3.1
              have h32 : c1.idx ≤ c2.idx := h3.2 m rfl
              split at ho
              · rename_i m2 hdm
                simp only [Prod.mk.injEq] at ho
                obtain ⟨hr, hco, -, -⟩ := ho
                subst hco
                exact ⟨by omega, fun m3 hm3 => by omega⟩
              · rename_i i2 hdm
                have h5 := hPR rules i2 c2 gl3 node3 cc (by omega)
                rw [ho] at h5
                have h51 : cc.idx ≤ co.idx := h5.1
                refine ⟨h51, fun m3 hm3 => ?_⟩
                have h52 : c2.idx ≤ co.idx := h5.2 m3 hm3
                omega
            · rename_i e2 c2 gl3 node3 heqpr2
              have h3 := hPR isnt_rls 0 c1 gl1 node cc (by omega)
              rw [heqpr2] at h3
              have h31 : cc.idx ≤ c2.idx := h3.1
              simp only [Prod.mk.injEq] at ho
              obtain ⟨hr, hco, -, -⟩ := ho
              subst hco
              subst hr
              exact ⟨h31, fun m3 hm3 => by simp at hm3⟩
            · rename_i c2 gl3 node3 heqpr2
              have h3 := hPR isnt_rls 0 c1 gl1 node cc (by omega)
              rw [heqpr2] at h3
              have h31 : cc.idx ≤ c2.idx := h3.1
              simp only [Prod.mk.injEq] at ho
              obtain ⟨hr, hco, -, -⟩ := ho
              subst hco
              subst hr
              exact ⟨h31, fun m3 hm3 => by simp at hm3⟩
            · rename_i c2 gl3 node3 heqpr2
              have h3 := hPR isnt_rls 0 c1 gl1 node cc (by omega)
              rw [heqpr2] at h3
              have h31 : cc.idx ≤ c2.idx := h3.1
              simp only [Prod.mk.injEq] at ho
              obtain ⟨hr, hco, -, -⟩ := ho
              subst hco
              subst hr
              exact ⟨h31, fun m3 hm3 => by simp at hm3⟩
        · rename_i e c1 gl1 heqm
          have hmt : ca.idx ≤ c1.idx := by
            have h0 := hMT token ca gl cc
            rw [heqm] at h0
            exact h0
          simp only [Prod.mk.injEq] at ho
          obtain ⟨hr, hco, -, -⟩ := ho
          subst hco
          subst hr
          exact ⟨by omega, fun m3 hm3 => by simp at hm3⟩
        · rename_i c1 gl1 heqm
          have hmt : ca.idx ≤ c1.idx := by
            have h0 := hMT token ca gl cc
            rw [heqm] at h0
            exact h0
          simp only [Prod.mk.injEq] at ho
          obtain ⟨hr, hco, -, -⟩ := ho
          subst hco
          subst hr
          exact ⟨by omega, fun m3 hm3 => by simp at hm3⟩
        · rename_i c1 gl1 heqm
          have hmt : ca.idx ≤ c1.idx := by
            have h0 := hMT token ca gl cc
            rw [heqm] at h0
            exact h0
          simp only [Prod.mk.injEq] at ho
          obtain ⟨hr, hco, -, -⟩ := ho
          subst hco
          subst hr
          exact ⟨by omega, fun m3 hm3 => by simp at hm3⟩
      · rename_i alts isnt_rls heqr
        split at ho
        · rename_i c1 gl1 node1 bus1 heqmo
          have h3 := hMO alts ca gl node cc [] (by omega)
          rw [heqmo] at h3
          have h31 : cc.idx ≤ c1.idx := h3.1
          have h32 : ca.idx ≤ c1.idx := h3.2 true rfl
          split at ho
          · rename_i m2 hdm
            simp only [Prod.mk.injEq] at ho
            obtain ⟨hr, hco, -, -⟩ := ho
            subst hco
            exact ⟨by omega, fun m3 hm3 => by omega⟩
          · rename_i i2 hdm
            have h5 := hPR rules i2 c1 gl1 node1 cc (by omega)
            rw [ho] at h5
            have h51 : cc.idx ≤ co.idx := h5.1
            refine ⟨h51, fun m3 hm3 => ?_⟩
            have h52 : c1.idx ≤ co.idx := h5.2 m3 hm3
            omega
        · rename_i c1 gl1 node1 bus1 heqmo
          have h3 := hMO alts ca gl node cc [] (by omega)
          rw [heqmo] at h3
          have h31 : cc.idx ≤ c1.idx := h3.1
          have h32 : ca.idx ≤ c1.idx := h3.2 false rfl
          split at ho
          · rename_i m c2 gl3 node3 heqpr2
            have h4 := hPR isnt_rls 0 c1 gl1 node1 cc (by omega)
            rw [heqpr2] at h4
            have h41 : cc.idx ≤ c2.idx := h4.1
            have h42 : c1.idx ≤ c2.idx := h4.2 m rfl
            split at ho
            · rename_i m2 hdm
              simp only [Prod.mk.injEq] at ho
              obtain ⟨hr, hco, -, -⟩ := ho
              subst hco
              exact ⟨by omega, fun m3 hm3 => by omega⟩
            · rename_i i2 hdm
              have h5 := hPR rules i2 c2 gl3 node3 cc (by omega)
              rw [ho] at h5
              have h51 : cc.idx ≤ co.idx := h5.1
              refine ⟨h51, fun m3 hm3 => ?_⟩
              have h52 : c2.idx ≤ co.idx := h5.2 m3 hm3
              omega
          · rename_i e2 c2 gl3 node3 heqpr2
            have h4 := hPR isnt_rls 0 c1 gl1 node1 cc (by omega)
            rw [heqpr2] at h4
            have h41 : cc.idx ≤ c2.idx := h4.1
            simp only [Prod.mk.injEq] at ho
            obtain ⟨hr, hco, -, -⟩ := ho
            subst hco
            subst hr
            exact ⟨h41, fun m3 hm3 => by simp at hm3⟩
          · rename_i c2 gl3 node3 heqpr2
            have h4 := hPR isnt_rls 0 c1 gl1 node1 cc (by omega)
            rw [heqpr2] at h4
            have h41 : cc.idx ≤ c2.idx := h4.1
            simp only [Prod.mk.injEq] at ho
            obtain ⟨hr, hco, -, -⟩ := ho
            subst hco
            subst hr
            exact ⟨h41, fun m3 hm3 => by simp at hm3⟩
          · rename_i c2 gl3 node3 heqpr2
            have h4 := hPR isnt_rls 0 c1 gl1 node1 cc (by omega)
            rw [heqpr2] at h4
            have h41 : cc.idx ≤ c2.idx := h4.1
            simp only [Prod.mk.injEq] at ho
            obtain ⟨hr, hco, -, -⟩ := ho
            subst hco
            subst hr
            exact ⟨h41, fun m3 hm3 => by simp at hm3⟩
        · rename_i e c1 gl1 node1 bus1 heqmo
          have h3 := hMO alts ca gl node cc [] (by omega)
          rw [heqmo] at h3
          have h31 : cc.idx ≤ c1.idx := h3.1
          simp only [Prod.mk.injEq] at ho
          obtain ⟨hr, hco, -, -⟩ := ho
          subst hco
          subst hr
          exact ⟨h31, fun m3 hm3 => by simp at hm3⟩
        · rename_i c1 gl1 node1 bus1 heqmo
          have h3 := hMO alts ca gl node cc [] (by omega)
          rw [heqmo] at h3
          have h31 : cc.idx ≤ c1.idx := h3.1
          simp only [Prod.mk.injEq] at ho
          obtain ⟨hr, hco, -, -⟩ := ho
          subst hco
          subst hr
          exact ⟨h31, fun m3 hm3 => by simp at hm3⟩
        · rename_i c1 gl1 node1 bus1 heqmo
          have h3 := hMO alts ca gl node cc [] (by omega)
          rw [heqmo] at h3
          have h31 : cc.idx ≤ c1.idx := h3.1
          simp only [Prod.mk.injEq] at ho
          obtain ⟨hr, hco, -, -⟩ := ho
          subst hco
          subst hr
          exact ⟨h31, fun m3 hm3 => by simp at hm3⟩
      · rename_i token rls params heqr
        split at ho
        · rename_i val c1 gl1 heqm
          have hmt : ca.idx ≤ c1.idx := by
            have h0 := hMT token ca gl cc
            rw [heqm] at h0
            exact h0
          split at ho
          · rename_i u gl2 node2 bus2 heqp
            have hcx : (if val.is_token = true then
                (⟨c1.idx, true⟩ : Cursor) else c1).idx = c1.idx := by
              split <;> rfl
            split at ho
            · rename_i m c2 gl3 node3 heqpr2
              have h3 := hPR rls 0 (if val.is_token = true then
                (⟨c1.idx, true⟩ : Cursor) else c1) gl2 node2 cc (by omega)
              rw [heqpr2] at h3
              have h31 : cc.idx ≤ c2.idx := h3.1
              have h32 : (if val.is_token = true then
                  (⟨c1.idx, true⟩ : Cursor) else c1).idx ≤ c2.idx := h3.2 m rfl
              split at ho
              · rename_i m2 hdm
                simp only [Prod.mk.injEq] at ho
                obtain ⟨hr, hco, -, -⟩ := ho
                subst hco
                exact ⟨by omega, fun m3 hm3 => by omega⟩
              · rename_i i2 hdm
                have h5 := hPR rules i2 c2 gl3 node3 cc (by omega)
                rw [ho] at h5
                have h51 : cc.idx ≤ co.idx := h5.1
                refine ⟨h51, fun m3 hm3 => ?_⟩
                have h52 : c2.idx ≤ co.idx := h5.2 m3 hm3
                omega
            · rename_i e c2 gl3 node3 heqpr2
              have h3 := hPR rls 0 (if val.is_token = true then
                (⟨c1.idx, true⟩ : Cursor) else c1) gl2 node2 cc (by omega)
              rw [heqpr2] at h3
              have h31 : cc.idx ≤ c2.idx := h3.1
              simp only [Prod.mk.injEq] at ho
              obtain ⟨hr, hco, -, -⟩ := ho
              subst hco
              subst hr
              exact ⟨h31, fun m3 hm3 => by simp at hm3⟩
            · rename_i c2 gl3 node3 heqpr2
              have h3 := hPR rls 0 (if val.is_token = true then
                (⟨c1.idx, true⟩ : Cursor) else c1) gl2 node2 cc (by omega)
              rw [heqpr2] at h3
              have h31 : cc.idx ≤ c2.idx := h3.1
              simp only [Prod.mk.injEq] at ho
              obtain ⟨hr, hco, -, -⟩ := ho
              subst hco
              subst hr
              exact ⟨h31, fun m3 hm3 => by simp at hm3⟩
            · rename_i c2 gl3 node3 heqpr2
              have h3 := hPR rls 0 (if val.is_token = true then
                (⟨c1.idx, true⟩ : Cursor) else c1) gl2 node2 cc (by omega)
              rw [heqpr2] at h3
              have h31 : cc.idx ≤ c2.idx := h3.1
              simp only [Prod.mk.injEq] at ho
              obtain ⟨hr, hco, -, -⟩ := ho
              subst hco
              subst hr
              exact ⟨h31, fun m3 hm3 => by simp at hm3⟩
          · rename_i e gl2 node2 bus2 heqp
            simp only [Prod.mk.injEq] at ho
            obtain ⟨hr, hco, -, -⟩ := ho
            subst hco
            subst hr
            exact ⟨by omega, fun m3 hm3 => by simp at hm3⟩
          · rename_i gl2 node2 bus2 heqp
            simp only [Prod.mk.injEq] at ho
            obtain ⟨hr, hco, -, -⟩ := ho
            subst hco
            subst hr
            exact ⟨by omega, fun m3 hm3 => by simp at hm3⟩
          · rename_i gl2 node2 bus2 heqp
            simp only [Prod.mk.injEq] at ho
            obtain ⟨hr, hco, -, -⟩ := ho
            subst hco
            subst hr
            exact ⟨by omega, fun m3 hm3 => by simp at hm3⟩
        · rename_i e c1 gl1 heqm
          have hmt : ca.idx ≤ c1.idx := by
            have h0 := hMT token ca gl cc
            rw [heqm] at h0
            exact h0
          split at ho
          · rename_i n heqn
            split at ho
            · simp only [Prod.mk.injEq] at ho
              obtain ⟨hr, hco, -, -⟩ := ho
              subst hco
              subst hr
              exact ⟨by omega, fun m3 hm3 => by simp at hm3⟩
            ·
              split at ho
              · rename_i m2 hdm
                simp only [Prod.mk.injEq] at ho
                obtain ⟨hr, hco, -, -⟩ := ho
                subst hco
                exact ⟨by omega, fun m3 hm3 => by omega⟩
              · rename_i i2 hdm
                have h5 := hPR rules i2 c1 gl1 node cc (by omega)
                rw [ho] at h5
                have h51 : cc.idx ≤ co.idx := h5.1
                refine ⟨h51, fun m3 hm3 => ?_⟩
                have h52 : c1.idx ≤ co.idx := h5.2 m3 hm3
                omega
          · (rename_i hoptn heqn)
            split at ho
            · rename_i m2 hdm
              simp only [Prod.mk.injEq] at ho
              obtain ⟨hr, hco, -, -⟩ := ho
              subst hco
              exact ⟨by omega, fun m3 hm3 => by omega⟩
            · rename_i i2 hdm
              have h5 := hPR rules i2 c1 gl1 node cc (by omega)
              rw [ho] at h5
              have h51 : cc.idx ≤ co.idx := h5.1
              refine ⟨h51, fun m3 hm3 => ?_⟩
              have h52 : c1.idx ≤ co.idx := h5.2 m3 hm3
              omega
        · rename_i e c1 gl1 heqm
          have hmt : ca.idx ≤ c1.idx := by
            have h0 := hMT token ca gl cc
            rw [heqm] at h0
            exact h0
          simp only [Prod.mk.injEq] at ho
          obtain ⟨hr, hco, -, -⟩ := ho
          subst hco
          subst hr
          exact ⟨by omega, fun m3 hm3 => by simp at hm3⟩
        · rename_i c1 gl1 heqm
          have hmt : ca.idx ≤ c1.idx := by
            have h0 := hMT token ca gl cc
            rw [heqm] at h0
            exact h0
          simp only [Prod.mk.injEq] at ho
          obtain ⟨hr, hco, -, -⟩ := ho
          subst hco
          subst hr
          exact ⟨by omega, fun m3 hm3 => by simp at hm3⟩
        · rename_i c1 gl1 heqm
          have hmt : ca.idx ≤ c1.idx := by
            have h0 := hMT token ca gl cc
            rw [heqm] at h0
            exact h0
          simp only [Prod.mk.injEq] at ho
          obtain ⟨hr, hco, -, -⟩ := ho
          subst hco
          subst hr
          exact ⟨by omega, fun m3 hm3 => by simp at hm3⟩
      · rename_i rls heqr
        split at ho
        · rename_i m c2 gl3 node3 heqpr2
          have h3 := hPR rls 0 ca gl node cc (by omega)
          rw [heqpr2] at h3
          have h31 : cc.idx ≤ c2.idx := h3.1
          have h32 : ca.idx ≤ c2.idx := h3.2 m rfl
          split at ho
          · rename_i m2 hdm
            simp only [Prod.mk.injEq] at ho
            obtain ⟨hr, hco, -, -⟩ := ho
            subst hco
            exact ⟨by omega, fun m3 hm3 => by omega⟩
          · rename_i i2 hdm
            have h5 := hPR rules i2 c2 gl3 node3 cc (by omega)
            rw [ho] at h5
            have h51 : cc.idx ≤ co.idx := h5.1
            refine ⟨h51, fun m3 hm3 => ?_⟩
            have h52 : c2.idx ≤ co.idx := h5.2 m3 hm3
            omega
        · rename_i e c2 gl3 node3 heqpr2
          have h3 := hPR rls 0 ca gl node cc (by omega)
          rw [heqpr2] at h3
          have h31 : cc.idx ≤ c2.idx := h3.1
          simp only [Prod.mk.injEq] at ho
          obtain ⟨hr, hco, -, -⟩ := ho
          subst hco
          subst hr
          exact ⟨h31, fun m3 hm3 => by simp at hm3⟩
        · rename_i c2 gl3 node3 heqpr2
          have h3 := hPR rls 0 ca gl node cc (by omega)
          rw [heqpr2] at h3
          have h31 : cc.idx ≤ c2.idx := h3.1
          simp only [Prod.mk.injEq] at ho
          obtain ⟨hr, hco, -, -⟩ := ho
          subst hco
          subst hr
          exact ⟨h31, fun m3 hm3 => by simp at hm3⟩
        · rename_i c2 gl3 node3 heqpr2
          have h3 := hPR rls 0 ca gl node cc (by omega)
          rw [heqpr2] at h3
          have h31 : cc.idx ≤ c2.idx := h3.1
          simp only [Prod.mk.injEq] at ho
          obtain ⟨hr, hco, -, -⟩ := ho
          subst hco
          subst hr
          exact ⟨h31, fun m3 hm3 => by simp at hm3⟩
      · rename_i token rls params heqr
        split at ho
        · rename_i u c1 gl1 hequs
          have hus : ca.idx ≤ c1.idx := by
            have h0 := hUS token ca gl cc node
            rw [hequs] at h0
            exact h0
          split at ho
          · simp only [Prod.mk.injEq] at ho
            obtain ⟨hr, hco, -, -⟩ := ho
            subst hco
            subst hr
            exact ⟨by omega, fun m3 hm3 => by simp at hm3⟩
          · rename_i t ht
            split at ho
            · rename_i u2 gl2 node2 bus2 heqp
              split at ho
              · rename_i m c2 gl3 node3 heqpr2
                have h3 := hPR rls 0 ⟨c1.idx, true⟩ gl2 node2 cc
                  (by show cc.idx ≤ c1.idx; omega)
                rw [heqpr2] at h3
                have h31 : cc.idx ≤ c2.idx := h3.1
                have h32 : c1.idx ≤ c2.idx := h3.2 m rfl
                split at ho
                · rename_i m2 hdm
                  simp only [Prod.mk.injEq] at ho
                  obtain ⟨hr, hco, -, -⟩ := ho
                  subst hco
                  exact ⟨by omega, fun m3 hm3 => by omega⟩
                · rename_i i2 hdm
                  have h5 := hPR rules i2 c2 gl3 node3 cc (by omega)
                  rw [ho] at h5
                  have h51 : cc.idx ≤ co.idx := h5.1
                  refine ⟨h51, fun m3 hm3 => ?_⟩
                  have h52 : c2.idx ≤ co.idx := h5.2 m3 hm3
                  omega
              · rename_i e c2 gl3 node3 heqpr2
                have h3 := hPR rls 0 ⟨c1.idx, true⟩ gl2 node2 cc
                  (by show cc.idx ≤ c1.idx; omega)
                rw [heqpr2] at h3
                have h31 : cc.idx ≤ c2.idx := h3.1
                simp only [Prod.mk.injEq] at ho
                obtain ⟨hr, hco, -, -⟩ := ho
                subst hco
                subst hr
                exact ⟨h31, fun m3 hm3 => by simp at hm3⟩
              · rename_i c2 gl3 node3 heqpr2
                have h3 := hPR rls 0 ⟨c1.idx, true⟩ gl2 node2 cc
                  (by show cc.idx ≤ c1.idx; omega)
                rw [heqpr2] at h3
                have h31 : cc.idx ≤ c2.idx := h3.1
                simp only [Prod.mk.injEq] at ho
                obtain ⟨hr, hco, -, -⟩ := ho
                subst hco
                subst hr
                exact ⟨h31, fun m3 hm3 => by simp at hm3⟩
              · rename_i c2 gl3 node3 heqpr2
                have h3 := hPR rls 0 ⟨c1.idx, true⟩ gl2 node2 cc
                  (by show cc.idx ≤ c1.idx; omega)
                rw [heqpr2] at h3
                have h31 : cc.idx ≤ c2.idx := h3.1
                simp only [Prod.mk.injEq] at ho
                obtain ⟨hr, hco, -, -⟩ := ho
                subst hco
                subst hr
                exact ⟨h31, fun m3 hm3 => by simp at hm3⟩
            · rename_i e gl2 node2 bus2 heqp
              simp only [Prod.mk.injEq] at ho
              obtain ⟨hr, hco, -, -⟩ := ho
              subst hco
              subst hr
              exact ⟨by omega, fun m3 hm3 => by simp at hm3⟩
            · rename_i gl2 node2 bus2 heqp
              simp only [Prod.mk.injEq] at ho
              obtain ⟨hr, hco, -, -⟩ := ho
              subst hco
              subst hr
              exact ⟨by omega, fun m3 hm3 => by simp at hm3⟩
            · rename_i gl2 node2 bus2 heqp
              simp only [Prod.mk.injEq] at ho
              obtain ⟨hr, hco, -, -⟩ := ho
              subst hco
              subst hr
              exact ⟨by omega, fun m3 hm3 => by simp at hm3⟩
        · rename_i e c1 gl1 hequs
          have hus : ca.idx ≤ c1.idx := by
            have h0 := hUS token ca gl cc node
            rw [hequs] at h0
            exact h0
          simp only [Prod.mk.injEq] at ho
          obtain ⟨hr, hco, -, -⟩ := ho
          subst hco
          subst hr
          exact ⟨by omega, fun m3 hm3 => by simp at hm3⟩
        · rename_i c1 gl1 hequs
          have hus : ca.idx ≤ c1.idx := by
            have h0 := hUS token ca gl cc node
            rw [hequs] at h0
            exact h0
          simp only [Prod.mk.injEq] at ho
          obtain ⟨hr, hco, -, -⟩ := ho
          subst hco
          subst hr
          exact ⟨by omega, fun m3 hm3 => by simp at hm3⟩
        · rename_i c1 gl1 hequs
          have hus : ca.idx ≤ c1.idx := by
            have h0 := hUS token ca gl cc node
            rw [hequs] at h0
            exact h0
          simp only [Prod.mk.injEq] at ho
          obtain ⟨hr, hco, -, -⟩ := ho
          subst hco
          subst hr
          exact ⟨by omega, fun m3 hm3 => by simp at hm3⟩
      · rename_i alts heqr
        split at ho
        · rename_i c1 gl1 node1 bus1 hequo
          have h3 := hUO alts ca gl node cc [] (by omega)
          rw [hequo] at h3
          have h31 : cc.idx ≤ c1.idx := h3.1
          have h32 : ca.idx ≤ c1.idx := h3.2 true rfl
          split at ho
          · rename_i m2 hdm
            simp only [Prod.mk.injEq] at ho
            obtain ⟨hr, hco, -, -⟩ := ho
            subst hco
            exact ⟨by omega, fun m3 hm3 => by omega⟩
          · rename_i i2 hdm
            have h5 := hPR rules i2 c1 gl1 node1 cc (by omega)
            rw [ho] at h5
            have h51 : cc.idx ≤ co.idx := h5.1
            refine ⟨h51, fun m3 hm3 => ?_⟩
            have h52 : c1.idx ≤ co.idx := h5.2 m3 hm3
            omega
        · rename_i c1 gl1 node1 bus1 hequo
          have h3 := hUO alts ca gl node cc [] (by omega)
          rw [hequo] at h3
          have h31 : cc.idx ≤ c1.idx := h3.1
          split at ho
          · simp only [Prod.mk.injEq] at ho
            obtain ⟨hr, hco, -, -⟩ := ho
            subst hco
            subst hr
            exact ⟨h31, fun m3 hm3 => by simp at hm3⟩
          · rename_i t ht
            simp only [Prod.mk.injEq] at ho
            obtain ⟨hr, hco, -, -⟩ := ho
            subst hco
            subst hr
            exact ⟨Nat.le_refl _, fun m3 hm3 => by simp at hm3⟩
        · rename_i e c1 gl1 node1 bus1 hequo
          have h3 := hUO alts ca gl node cc [] (by omega)
          rw [hequo] at h3
          have h31 : cc.idx ≤ c1.idx := h3.1
          simp only [Prod.mk.injEq] at ho
          obtain ⟨hr, hco, -, -⟩ := ho
          subst hco
          subst hr
          exact ⟨h31, fun m3 hm3 => by simp at hm3⟩
        · rename_i c1 gl1 node1 bus1 hequo
          have h3 := hUO alts ca gl node cc [] (by omega)
          rw [hequo] at h3
          have h31 : cc.idx ≤ c1.idx := h3.1
          simp only [Prod.mk.injEq] at ho
          obtain ⟨hr, hco, -, -⟩ := ho
          subst hco
          subst hr
          exact ⟨h31, fun m3 hm3 => by simp at hm3⟩
        · rename_i c1 gl1 node1 bus1 hequo
          have h3 := hUO alts ca gl node cc [] (by omega)
          rw [hequo] at h3
          have h31 : cc.idx ≤ c1.idx := h3.1
          simp only [Prod.mk.injEq] at ho
          obtain ⟨hr, hco, -, -⟩ := ho
          subst hco
          subst hr
          exact ⟨h31, fun m3 hm3 => by simp at hm3⟩
      · rename_i cmd heqr
        split at ho
        · rename_i left right comparison rls
          split at ho
          · rename_i heqrv
            split at ho
            · simp only [Prod.mk.injEq] at ho
              obtain ⟨hr, hco, -, -⟩ := ho
              subst hco
              subst hr
              exact ⟨by omega, fun m3 hm3 => by simp at hm3⟩
            · rename_i t ht
              simp only [Prod.mk.injEq] at ho
              obtain ⟨hr, hco, -, -⟩ := ho
              subst hco
              subst hr
              exact ⟨by omega, fun m3 hm3 => by simp at hm3⟩
          · rename_i lv heqrv
            split at ho
            · rename_i heqrv2
              split at ho
              · simp only [Prod.mk.injEq] at ho
                obtain ⟨hr, hco, -, -⟩ := ho
                subst hco
                subst hr
                exact ⟨by omega, fun m3 hm3 => by simp at hm3⟩
              · rename_i t ht
                simp only [Prod.mk.injEq] at ho
                obtain ⟨hr, hco, -, -⟩ := ho
                subst hco
                subst hr
                exact ⟨by omega, fun m3 hm3 => by simp at hm3⟩
            · rename_i rv heqrv2
              split at ho
              · split at ho
                · rename_i m c2 gl3 node3 heqpr2
                  have h3 := hPR rls 0 ca gl node cc (by omega)
                  rw [heqpr2] at h3
                  have h31 : cc.idx ≤ c2.idx := h3.1
                  have h32 : ca.idx ≤ c2.idx := h3.2 m rfl
                  split at ho
                  · rename_i m2 hdm
                    simp only [Prod.mk.injEq] at ho
                    obtain ⟨hr, hco, -, -⟩ := ho
                    subst hco
                    exact ⟨by omega, fun m3 hm3 => by omega⟩
                  · rename_i i2 hdm
                    have h5 := hPR rules i2 c2 gl3 node3 cc (by omega)
                    rw [ho] at h5
                    have h51 : cc.idx ≤ co.idx := h5.1
                    refine ⟨h51, fun m3 hm3 => ?_⟩
                    have h52 : c2.idx ≤ co.idx := h5.2 m3 hm3
                    omega
                · rename_i e c2 gl3 node3 heqpr2
                  have h3 := hPR rls 0 ca gl node cc (by omega)
                  rw [heqpr2] at h3
                  have h31 : cc.idx ≤ c2.idx := h3.1
                  simp only [Prod.mk.injEq] at ho
                  obtain ⟨hr, hco, -, -⟩ := ho
                  subst hco
                  subst hr
                  exact ⟨h31, fun m3 hm3 => by simp at hm3⟩
                · rename_i c2 gl3 node3 heqpr2
                  have h3 := hPR rls 0 ca gl node cc (by omega)
                  rw [heqpr2] at h3
                  have h31 : cc.idx ≤ c2.idx := h3.1
                  simp only [Prod.mk.injEq] at ho
                  obtain ⟨hr, hco, -, -⟩ := ho
                  subst hco
                  subst hr
                  exact ⟨h31, fun m3 hm3 => by simp at hm3⟩
                · rename_i c2 gl3 node3 heqpr2
                  have h3 := hPR rls 0 ca gl node cc (by omega)
                  rw [heqpr2] at h3
                  have h31 : cc.idx ≤ c2.idx := h3.1
                  simp only [Prod.mk.injEq] at ho
                  obtain ⟨hr, hco, -, -⟩ := ho
                  subst hco
                  subst hr
                  exact ⟨h31, fun m3 hm3 => by simp at hm3⟩
              ·
                split at ho
                · rename_i m2 hdm
                  simp only [Prod.mk.injEq] at ho
                  obtain ⟨hr, hco, -, -⟩ := ho
                  subst hco
                  exact ⟨by omega, fun m3 hm3 => by omega⟩
                · rename_i i2 hdm
                  have h5 := hPR rules i2 ca gl node cc (by omega)
                  rw [ho] at h5
                  have h51 : cc.idx ≤ co.idx := h5.1
                  refine ⟨h51, fun m3 hm3 => ?_⟩
                  have h52 : ca.idx ≤ co.idx := h5.2 m3 hm3
                  omega
        · rename_i message
          split at ho
          · simp only [Prod.mk.injEq] at ho
            obtain ⟨hr, hco, -, -⟩ := ho
            subst hco
            subst hr
            exact ⟨by omega, fun m3 hm3 => by simp at hm3⟩
          · rename_i t ht
            simp only [Prod.mk.injEq] at ho
            obtain ⟨hr, hco, -, -⟩ := ho
            subst hco
            subst hr
            exact ⟨by omega, fun m3 hm3 => by simp at hm3⟩
        · (rename_i b)
          split at ho
          · rename_i m2 hdm
            simp only [Prod.mk.injEq] at ho
            obtain ⟨hr, hco, -, -⟩ := ho
            subst hco
            exact ⟨by omega, fun m3 hm3 => by omega⟩
          · rename_i i2 hdm
            have h5 := hPR rules i2 ca gl (node.with_harderror b) cc (by omega)
            rw [ho] at h5
            have h51 : cc.idx ≤ co.idx := h5.1
            refine ⟨h51, fun m3 hm3 => ?_⟩
            have h52 : ca.idx ≤ co.idx := h5.2 m3 hm3
            omega
        · (rename_i label)
          split at ho
          · rename_i m2 hdm
            simp only [Prod.mk.injEq] at ho
            obtain ⟨hr, hco, -, -⟩ := ho
            subst hco
            exact ⟨by omega, fun m3 hm3 => by omega⟩
          · rename_i i2 hdm
            have h5 := hPR rules i2 ca gl node cc (by omega)
            rw [ho] at h5
            have h51 : cc.idx ≤ co.idx := h5.1
            refine ⟨h51, fun m3 hm3 => ?_⟩
            have h52 : ca.idx ≤ co.idx := h5.2 m3 hm3
            omega
        · (rename_i nm)
          split at ho
          · rename_i m2 hdm
            simp only [Prod.mk.injEq] at ho
            obtain ⟨hr, hco, -, -⟩ := ho
            subst hco
            exact ⟨by omega, fun m3 hm3 => by omega⟩
          · rename_i i2 hdm
            have h5 := hPR rules i2 ca gl node cc (by omega)
            rw [ho] at h5
            have h51 : cc.idx ≤ co.idx := h5.1
            refine ⟨h51, fun m3 hm3 => ?_⟩
            have h52 : ca.idx ≤ co.idx := h5.2 m3 hm3
            omega
        · rename_i message
          split at ho
          · rename_i m2 hdm
            simp only [Prod.mk.injEq] at ho
            obtain ⟨hr, hco, -, -⟩ := ho
            subst hco
            exact ⟨by omega, fun m3 hm3 => by omega⟩
          · rename_i i2 hdm
            have h5 := hPR rules i2 ca gl node cc (by omega)
            rw [ho] at h5
            have h51 : cc.idx ≤ co.idx := h5.1
            refine ⟨h51, fun m3 hm3 => ?_⟩
            have h52 : ca.idx ≤ co.idx := h5.2 m3 hm3
            omega
      · rename_i target heqr
        split at ho
        · rename_i m2 hdm
          simp only [Prod.mk.injEq] at ho
          obtain ⟨hr, hco, -, -⟩ := ho
          subst hco
          exact ⟨by omega, fun m3 hm3 => by omega⟩
        · rename_i i2 hdm
          have h5 := hPR rules i2 ca gl node cc (by omega)
          rw [ho] at h5
          have h51 : cc.idx ≤ co.idx := h5.1
          refine ⟨h51, fun m3 hm3 => ?_⟩
          have h52 : ca.idx ≤ co.idx := h5.2 m3 hm3
          omega
  · simp only [Prod.mk.injEq] at ho
    obtain ⟨hr, hco, -, -⟩ := ho
    subst hco
    exact ⟨hcc, fun m hm => Nat.le_refl _⟩

end parser

namespace parser

/-- The assembled cursor-monotonicity invariant of the interpreter, proved
by induction on the fuel with one step lemma per mutual function. -/
lemma mono_all (E : Env) (fuel : Nat) :
    MonoMT E fuel ∧ MonoEV E fuel ∧ MonoPN E fuel ∧ MonoUS E fuel ∧
    MonoPR E fuel ∧ MonoOneOfLoop E fuel ∧ MonoMO E fuel ∧ MonoUO E fuel := by
  induction fuel with
  | zero =>
    refine ⟨?_, ?_, ?_, ?_, ?_, ?_, ?_, ?_⟩
    · intro tok c gl cc
      exact Nat.le_refl _
    · intro values rem ccl c gl cc hcc
      exact hcc
    · intro k c gl
      exact Nat.le_refl _
    · intro tok c gl cc node
      exact Nat.le_refl _
    · intro rules i c gl node cc hcc
      exact ⟨hcc, fun m hm => by simp [parse_rules] at hm⟩
    · intro alts c gl node cc bus hcc
      exact ⟨hcc, fun b hb => by simp [is_one_of_loop] at hb⟩
    · intro alts c gl node cc bus hcc
      exact ⟨hcc, fun b hb => by simp [maybe_one_of_loop] at hb⟩
    · intro alts c gl node cc bus hcc
      exact ⟨hcc, fun b hb => by simp [until_one_of_scan] at hb⟩
  | succ fuel ih =>
    obtain ⟨hMT, hEV, hPN, hUS, hPR, hOne, hMO, hUO⟩ := ih
    exact ⟨monoMT_step E fuel hPN hEV, monoEV_step E fuel hMT hEV,
      monoPN_step E fuel hPR, monoUS_step E fuel hMT hUS,
      monoPR_step E fuel hMT hUS hPR hOne hMO hUO,
      monoOneOfLoop_step E fuel hMT hPR hOne, monoMO_step E fuel hMT hPR hMO,
      monoUO_step E fuel hMO hUO⟩

/-- Cursor monotonicity of parse_node, for every fuel value. -/
lemma parse_node_mono (E : Env) (fuel k : Nat) (c : Cursor) (gl : Globals) :
    c.idx ≤ (parse_node E fuel k c gl).2.1.idx :=
  (mono_all E fuel).2.2.1 k c gl

end parser

/-- C2: corrected.  First conjunct (confirmed): whenever parse_node
returns successfully, the output cursor index is at least the entry
cursor index; this follows from the cursor-monotonicity invariant
mono_all of the whole interpreter.  Second conjunct (corrected): when a
rule raises an error, the cursor is restored exactly to the entry
snapshot only for ordinary errors; the CannotBreak / CannotGoBack /
LabelNotFound errors that parse_node synthesizes from an unhandled
Break / Back / Goto message are re-raised without the restore
(src/src/parser.rs lines 167-195), as exhibited by C2_counterexample. -/
theorem C2_cursor_invariant (E : parser.Env) (fuel k : Nat)
    (c c1 : parser.Cursor) (gl gl1 : parser.Globals) (res : parser.NodeRes)
    (h : parser.parse_node E fuel k c gl = (res, c1, gl1)) :
    (∀ nd, res = .ok nd → c.idx ≤ c1.idx) ∧
    (∀ e nd, res = .err e nd →
      c1 = c ∨ e.kind.is_ctrl_msg = true) := by
  constructor
  · intro nd hnd
    have h0 := parser.parse_node_mono E fuel k c gl
    rw [h] at h0
    exact h0
  · intro e nd hnd
    subst hnd
    exact parser.parse_node_err_cursor E fuel k c gl e nd c1 gl1 h

/-- Witness for C2_cursor_invariant: the successful single-Text parse of
the Eok fixture keeps the cursor index at its entry value, and the
unhandled-Break run of the Ebrk2 fixture falls into the control-message
alternative. -/
theorem C2_witness :
    ((⟨0, false⟩ : parser.Cursor).idx ≤ (⟨0, true⟩ : parser.Cursor).idx) ∧
    ((⟨2, true⟩ : parser.Cursor) = (⟨0, false⟩ : parser.Cursor) ∨
      (parser.ParseErrors.CannotBreak 1).is_ctrl_msg = true) := by
  constructor
  · exact (C2_cursor_invariant parser.Eok 9 0 ⟨0, false⟩ ⟨0, true⟩ [] [] _
      rfl).1 _ rfl
  · exact (C2_cursor_invariant parser.Ebrk2 8 0 ⟨0, false⟩ ⟨2, true⟩ [] [] _
      rfl).2 _ _ rfl
